import Mathlib

/-!
Verification of the rollup/embedding maintenance pipeline of the campus-ai
repository, as a shallow embedding in Lean 4.

The embedded code:
* the company Embedding Runner
  (`src/apps/review-page/app/api/review-ask/route.ts`, company-embeddings POST),
* the company Rollup Runner
  (same file, company-rollups POST),
* the Full-Rebuild Driver's marking phase (`src/unnamed/part_007`).

Modelling conventions:
* Database tables are Lean lists of row structures; a runner invocation is a
  pure function from (configuration, storage state) to (storage state, run
  result).  Row ids and timestamps are `Nat`.
* External capabilities (OpenAI embedding and summarization calls, SHA-256
  via node:crypto) are parameters of the configuration; fallible calls return
  `Except String`.  SHA-256 is the abstract `hashFn : String → String`.
* Every Supabase read/write that the source checks for an error carries an
  injectable fault (`Option String`, `none` = the operation succeeds), so the
  source's error branches are part of the model.
* All writes within one invocation use the single timestamp `now`
  (the source takes a fresh `Date` per write; the written times never feed
  back into any decision inside the same invocation).
-/

namespace CampusAI

/-! ## Shared string helpers

The source normalizes text with JavaScript `String.trim` and
`replace(/\s+/g, ' ')`.  We model them over `List Char`. -/

theorem length_dropWhile_le (p : α → Bool) (l : List α) :
    (l.dropWhile p).length ≤ l.length := by
  induction l with
  | nil => simp
  | cons x xs ih =>
    cases h : p x
    · simp [List.dropWhile_cons, h]
    · simp only [List.dropWhile_cons, h, if_pos, List.length_cons]
      omega

/-- Whitespace test used by the model for JS `trim` / `\s`. -/
def isWsChar (c : Char) : Bool :=
  c = ' ' ∨ c = '\t' ∨ c = '\n' ∨ c = '\r' ∨ c = '\x0b' ∨ c = '\x0c'

/-- Drop leading and trailing whitespace (JS `String.prototype.trim`). -/
def trimChars (l : List Char) : List Char :=
  ((l.dropWhile isWsChar).reverse.dropWhile isWsChar).reverse

/-- Collapse every maximal whitespace run to a single space
(JS `replace(/\s+/g, ' ')`); structural recursion on a fuel bounded below
by the list length (each step consumes at least one character). -/
def collapseWsFuel : Nat → List Char → List Char
  | _, [] => []
  | 0, l => l
  | fuel + 1, c :: cs =>
    if isWsChar c then ' ' :: collapseWsFuel fuel (cs.dropWhile isWsChar)
    else c :: collapseWsFuel fuel cs

def collapseWs (l : List Char) : List Char := collapseWsFuel l.length l

/-- JS `s.trim()` on Lean strings. -/
def trimS (s : String) : String := ⟨trimChars s.data⟩

/-- JS `s.trim().replace(/\s+/g, ' ')`, as used by
`normalizeSummaryForEmbedding` and `normalizeBodyForSummary`. -/
def trimCollapse (s : String) : String := ⟨collapseWs (trimChars s.data)⟩

theorem dropWhile_dropWhile (p : α → Bool) (l : List α) :
    (l.dropWhile p).dropWhile p = l.dropWhile p := by
  induction l with
  | nil => rfl
  | cons x xs ih =>
    by_cases h : p x
    · simp [List.dropWhile_cons, h, ih]
    · simp [List.dropWhile_cons, h]

theorem dropWhile_reverse_of_fixed (p : α → Bool) (l : List α)
    (h : l.dropWhile p = l) :
    ((l.reverse.dropWhile p).reverse).dropWhile p = (l.reverse.dropWhile p).reverse := by
  cases l with
  | nil => rfl
  | cons x xs =>
    have hx : p x = false := by
      cases hpx : p x
      · rfl
      · exfalso
        rw [List.dropWhile_cons, hpx] at h
        simp only [if_pos] at h
        have hlen := congrArg List.length h
        have hle := length_dropWhile_le p xs
        simp only [List.length_cons] at hlen
        omega
    rw [List.reverse_cons, List.dropWhile_append]
    cases hd : (xs.reverse.dropWhile p).isEmpty
    · simp only [hd, Bool.false_eq_true, if_false]
      rw [List.reverse_append]
      simp [List.dropWhile_cons, hx]
    · simp [hd, List.dropWhile_cons, hx]

theorem trimChars_idem (l : List Char) : trimChars (trimChars l) = trimChars l := by
  have hM : (l.dropWhile isWsChar).dropWhile isWsChar = l.dropWhile isWsChar :=
    dropWhile_dropWhile _ _
  have hfix := dropWhile_reverse_of_fixed isWsChar (l.dropWhile isWsChar) hM
  show trimChars (((l.dropWhile isWsChar).reverse.dropWhile isWsChar).reverse) = _
  unfold trimChars
  rw [hfix, List.reverse_reverse, dropWhile_dropWhile]

theorem trimS_idem (s : String) : trimS (trimS s) = trimS s := by
  unfold trimS
  exact congrArg String.mk (trimChars_idem s.data)

theorem trimCollapse_trimS (s : String) : trimCollapse (trimS s) = trimCollapse s := by
  unfold trimCollapse trimS
  exact congrArg (fun l => String.mk (collapseWs l)) (trimChars_idem s.data)

/-- The source's `chunk` helper (`route.ts`): split a list into consecutive
slices of `size` elements; structural recursion on a fuel bounded below by
the list length.  `size = 0` never occurs at a call site (sizes are the
constants 16 and 200). -/
def chunkFuel : Nat → List α → Nat → List (List α)
  | _, [], _ => []
  | _, _ :: _, 0 => []
  | 0, _ :: _, _ + 1 => []
  | fuel + 1, x :: xs, size + 1 =>
    ((x :: xs).take (size + 1)) :: chunkFuel fuel (xs.drop size) (size + 1)

def chunk (l : List α) (size : Nat) : List (List α) := chunkFuel l.length l size

theorem chunkFuel_flatten :
    ∀ (fuel : Nat) (l : List α), l.length ≤ fuel →
      ∀ size : Nat, size ≠ 0 → (chunkFuel fuel l size).flatten = l := by
  intro fuel
  induction fuel with
  | zero =>
    intro l hl size hs
    have : l = [] := List.length_eq_zero.mp (Nat.le_zero.mp hl)
    subst this
    rfl
  | succ n ih =>
    intro l hl size hs
    match l, size with
    | [], _ => rfl
    | x :: xs, 0 => exact absurd rfl hs
    | x :: xs, size + 1 =>
      have hrec := ih (xs.drop size) (by simp only [List.length_drop]
                                         simp only [List.length_cons] at hl; omega)
        (size + 1) (by omega)
      rw [chunkFuel, List.flatten_cons, hrec]
      rw [List.take_succ_cons, List.cons_append, List.take_append_drop]

theorem chunk_flatten (l : List α) (size : Nat) (hs : size ≠ 0) :
    (chunk l size).flatten = l :=
  chunkFuel_flatten l.length l (Nat.le_refl _) size hs

/-! ## Full-Rebuild Driver, marking phase (`src/unnamed/part_007`)

Ids are modelled as `Nat` with their order standing in for the text order of
the stored ids.  The keyset cursor starts as `none`, standing for the
source's `lastId = ''` / `lastKey = ''` (below every real id). -/

namespace FullRebuild

/-- A `company_rollups` row as seen by `markAllCompanyRollupsDirty`:
its primary key `(university_id, faculty, company_id)`. -/
structure CrRow where
  university_id : Nat
  faculty : Nat
  company_id : Nat
  deriving Repr, DecidableEq

/-- The primary key triple of a `company_rollups` row. -/
def CrRow.key (r : CrRow) : Nat × Nat × Nat :=
  (r.university_id, r.faculty, r.company_id)

def COMPANIES_PAGE_SIZE : Nat := 500

def SUBJECTS_PAGE_SIZE : Nat := 500

/-- Stable insertion step for sorting rows by `company_id` ascending. -/
def insertByCompany (r : CrRow) : List CrRow → List CrRow
  | [] => [r]
  | x :: xs =>
    if r.company_id ≤ x.company_id then r :: x :: xs else x :: insertByCompany r xs

/-- Stable sort of `company_rollups` rows by `company_id` ascending
(the `.order('company_id', { ascending: true })` of the page query;
rows with equal `company_id` keep their stored order). -/
def sortByCompany (l : List CrRow) : List CrRow := l.foldr insertByCompany []

/-- One page query of `markAllCompanyRollupsDirty`:
`select university_id,faculty,company_id` `.order('company_id')`
`.gt('company_id', lastKey)` `.limit(COMPANIES_PAGE_SIZE)`. -/
def fetchCompanyRollupsPage (table : List CrRow) (lastKey : Option Nat) : List CrRow :=
  ((sortByCompany table).filter fun r =>
    match lastKey with
    | none => true
    | some k => decide (k < r.company_id)).take COMPANIES_PAGE_SIZE

/-- The paging loop of `markAllCompanyRollupsDirty`: repeatedly fetch a page,
upsert `is_dirty = true` for its rows, and advance `lastKey` to the last
row's `company_id`; stop on an empty page.  `fuel` bounds the recursion;
`table.length + 1` is enough because every non-empty page strictly raises
`lastKey`, so pages are disjoint and non-empty. -/
def markCompanyRollupsLoop (table : List CrRow) :
    Nat → Option Nat → List (Nat × Nat × Nat) → List (Nat × Nat × Nat)
  | 0, _, marked => marked
  | fuel + 1, lastKey, marked =>
    let rows := fetchCompanyRollupsPage table lastKey
    match rows.getLast? with
    | none => marked
    | some lastRow =>
      markCompanyRollupsLoop table fuel (some lastRow.company_id)
        (marked ++ rows.map CrRow.key)

/-- `markAllCompanyRollupsDirty` (`src/unnamed/part_007`): the list of
`company_rollups` keys whose rows the marking phase upserts with
`is_dirty = true`.  A key of the table that is not in this list keeps its
previous `is_dirty` value. -/
def markAllCompanyRollupsDirty (table : List CrRow) : List (Nat × Nat × Nat) :=
  markCompanyRollupsLoop table (table.length + 1) none []

/-- A `subjects` row id, and the paging loop of `markAllSubjectsDirty`,
which keysets by the primary key `id` itself. -/
def insertById (r : Nat) : List Nat → List Nat
  | [] => [r]
  | x :: xs => if r ≤ x then r :: x :: xs else x :: insertById r xs

def sortById (l : List Nat) : List Nat := l.foldr insertById []

/-- One page query of `markAllSubjectsDirty`: `.order('id').gt('id', lastId)`
`.limit(SUBJECTS_PAGE_SIZE)`. -/
def fetchSubjectsPage (table : List Nat) (lastId : Option Nat) : List Nat :=
  ((sortById table).filter fun r =>
    match lastId with
    | none => true
    | some k => decide (k < r)).take SUBJECTS_PAGE_SIZE

/-- The paging loop of `markAllSubjectsDirty` (`src/unnamed/part_007`). -/
def markSubjectsLoop (table : List Nat) : Nat → Option Nat → List Nat → List Nat
  | 0, _, marked => marked
  | fuel + 1, lastId, marked =>
    let rows := fetchSubjectsPage table lastId
    match rows.getLast? with
    | none => marked
    | some lastRow =>
      markSubjectsLoop table fuel (some lastRow) (marked ++ rows)

/-- `markAllSubjectsDirty` (`src/unnamed/part_007`): the subject ids whose
`subject_rollups` rows are upserted with `is_dirty = true`. -/
def markAllSubjectsDirty (table : List Nat) : List Nat :=
  markSubjectsLoop table (table.length + 1) none []

/-- The failing table for C9: 500 rollup rows for distinct companies
`0..499` under university 1, plus one row for company `499` under
university 2.  Sorted by `company_id`, the first page of 500 ends between
the two rows with `company_id = 499`, and the keyset `gt('company_id', 499)`
then skips the second one. -/
def c9Table : List CrRow :=
  ((List.range 500).map fun i => ⟨1, 1, i⟩) ++ [⟨2, 1, 499⟩]

end FullRebuild

set_option maxRecDepth 100000 in
set_option maxHeartbeats 1000000 in
/-- C9: one invocation of the Full-Rebuild Driver's marking phase sets
`is_dirty = true` on every existing rollup key, none skipped by the
pagination.  FALSE for `company_rollups`: the code pages by the non-unique
column `company_id` alone; on `c9Table` (501 rows) the row
`(2, 1, 499)` is present but never marked because the 500-row page boundary
falls between the two rows sharing `company_id = 499`.  This contradicts the
function's own stated purpose (mark all `company_rollups` dirty), so the
code, not the claim, is wrong. -/
theorem c9_company_rollups_pagination_skips_a_row :
    FullRebuild.c9Table.length = 501 ∧
    (FullRebuild.markAllCompanyRollupsDirty FullRebuild.c9Table).length = 500 ∧
    (2, 1, 499) ∈ FullRebuild.c9Table.map FullRebuild.CrRow.key ∧
    (2, 1, 499) ∉ FullRebuild.markAllCompanyRollupsDirty FullRebuild.c9Table := by
  decide

/-! ## Company Embedding Runner
(`src/apps/review-page/app/api/review-ask/route.ts`, company-embeddings POST) -/

namespace CompanyEmbeddings

def MAX_JOBS_PER_RUN : Nat := 50

def EMBEDDING_BATCH_SIZE : Nat := 16

def LOCK_STALE_MINUTES : Nat := 15

inductive JobStatus
  | queued
  | processing
  | done
  | failed
  deriving Repr, DecidableEq

/-- A `company_embedding_jobs` row.  `locked_at`/`updated_at` are
milliseconds since epoch. -/
structure EmbJob where
  review_id : Nat
  status : JobStatus
  attempt_count : Nat
  last_error : Option String
  locked_at : Option Nat
  locked_by : Option String
  updated_at : Nat
  deriving Repr, DecidableEq

/-- The `id, body_main` projection of a `company_reviews` row. -/
structure ReviewBody where
  id : Nat
  body_main : String
  deriving Repr, DecidableEq

/-- A `company_review_ai_flags` row. -/
structure FlagRow where
  review_id : Nat
  ai_flagged : Bool
  deriving Repr, DecidableEq

/-- A `company_review_embeddings` row. -/
structure EmbRow where
  review_id : Nat
  embedding : List Int
  model : String
  content_hash : Option String
  updated_at : Nat
  deriving Repr, DecidableEq

/-- The storage touched by one company-embeddings run. -/
structure EmbState where
  jobs : List EmbJob
  reviews : List ReviewBody
  flags : List FlagRow
  embeddings : List EmbRow
  deriving Repr, DecidableEq

/-- Injectable faults, one per Supabase operation whose error the source
checks; `none` means the operation succeeds.  The three batch-loop
operations are indexed by batch number. -/
structure EmbFaults where
  fetchJobs : Option String
  lockJobs : Option String
  fetchFlags : Option String
  deleteFlagged : Option String
  markFlaggedDone : Option String
  fetchBodies : Option String
  fetchMeta : Option String
  markSkipDone : Option String
  markMissingFailed : Option String
  upsertEmbeddings : Nat → Option String
  markBatchDone : Nat → Option String
  markBatchFailed : Nat → Option String

/-- Configuration of one run: clock, runner identity, embedding model,
the SHA-256 capability (`sha256Hex`) and the embedding provider
(`openai.embeddings.create`, failing as a unit per batch). -/
structure EmbCfg where
  now : Nat
  runner : String
  model : String
  hashFn : String → String
  embedFn : List String → Except String (List (List Int))
  faults : EmbFaults

/-- All storage operations of the run succeed. -/
def NoStorageFaults (f : EmbFaults) : Prop :=
  f.fetchJobs = none ∧ f.lockJobs = none ∧ f.fetchFlags = none ∧
  f.deleteFlagged = none ∧ f.markFlaggedDone = none ∧ f.fetchBodies = none ∧
  f.fetchMeta = none ∧ f.markSkipDone = none ∧ f.markMissingFailed = none ∧
  (∀ i, f.upsertEmbeddings i = none) ∧ (∀ i, f.markBatchDone i = none) ∧
  (∀ i, f.markBatchFailed i = none)

/-- The pickup predicate of the job-selection query:
`status in ('queued','failed')` and
`locked_at is null or locked_at < staleBefore`. -/
def jobPickable (staleBefore : Nat) (j : EmbJob) : Bool :=
  (match j.status with
   | .queued => true
   | .failed => true
   | _ => false) &&
  (match j.locked_at with
   | none => true
   | some t => decide (t < staleBefore))

/-- Stable insertion step for `.order('updated_at', { ascending: true })`. -/
def insertByUpdatedJob (j : EmbJob) : List EmbJob → List EmbJob
  | [] => [j]
  | x :: xs =>
    if j.updated_at ≤ x.updated_at then j :: x :: xs else x :: insertByUpdatedJob j xs

def sortJobsByUpdated (l : List EmbJob) : List EmbJob := l.foldr insertByUpdatedJob []

/-- `staleBefore`: `Date.now() - LOCK_STALE_MINUTES * 60 * 1000`. -/
def staleBefore (now : Nat) : Nat := now - LOCK_STALE_MINUTES * 60 * 1000

/-- The job pickup query (lines 1530–1536): jobs with
`status in ('queued','failed')` and a null or stale `locked_at`, ordered by
`updated_at` ascending, limited to `MAX_JOBS_PER_RUN`. -/
def pickJobs (cfg : EmbCfg) (st : EmbState) : List EmbJob :=
  (sortJobsByUpdated (st.jobs.filter (jobPickable (staleBefore cfg.now)))).take
    MAX_JOBS_PER_RUN

/-- Update every job whose id is in `ids` (the `.in('review_id', ids)`
update shape; upserts over existing picked jobs behave the same way). -/
def updateJobsIn (jobs : List EmbJob) (ids : List Nat) (f : EmbJob → EmbJob) :
    List EmbJob :=
  jobs.map fun x => if x.review_id ∈ ids then f x else x

/-- The lease acquisition (lines 1560–1578): set picked jobs to
`processing` with a fresh lock; the update re-checks
`status in ('queued','failed')`. -/
def lockUpdate (cfg : EmbCfg) (jobs : List EmbJob) (ids : List Nat) : List EmbJob :=
  jobs.map fun x =>
    if x.review_id ∈ ids ∧ (x.status = .queued ∨ x.status = .failed) then
      { x with status := .processing, locked_at := some cfg.now,
               locked_by := some cfg.runner, updated_at := cfg.now }
    else x

/-- Does `company_review_ai_flags` flag this review? -/
def isFlagged (flags : List FlagRow) (id : Nat) : Bool :=
  flags.any fun f => f.review_id == id && f.ai_flagged

/-- Delete `company_review_embeddings` rows for the given review ids. -/
def deleteEmbeddings (embs : List EmbRow) (ids : List Nat) : List EmbRow :=
  embs.filter fun e => decide (e.review_id ∉ ids)

/-- Upsert one `company_review_embeddings` row (`onConflict: 'review_id'`). -/
def upsertEmbRow (embs : List EmbRow) (row : EmbRow) : List EmbRow :=
  if embs.any (fun e => e.review_id == row.review_id) then
    embs.map fun e => if e.review_id == row.review_id then row else e
  else embs ++ [row]

def upsertEmbRows (embs : List EmbRow) (rows : List EmbRow) : List EmbRow :=
  rows.foldl upsertEmbRow embs

/-- `bodyMap.get(id)`: the body of the review with this id, if present. -/
def bodyOf (reviews : List ReviewBody) (id : Nat) : Option String :=
  (reviews.find? fun r => r.id == id).map (·.body_main)

/-- `hashMap.get(id) ?? null`: the stored content hash, if a row exists. -/
def storedHashOf (embs : List EmbRow) (id : Nat) : Option (Option String) :=
  (embs.find? fun e => e.review_id == id).map (·.content_hash)

/-- An entry of the `need` list. -/
structure NeedItem where
  review_id : Nat
  body : String
  hash : String
  attempt_count : Nat
  deriving Repr, DecidableEq

/-- An entry of the `toFailMissingBody` list. -/
structure FailItem where
  review_id : Nat
  error : String
  attempt_count : Nat
  deriving Repr, DecidableEq

def missingBodyMsg : String := "missing body_main in company_reviews"

/-- The JS truthiness test `existing && existing === h`
(`null` and the empty string are falsy). -/
def hashMatches (existing : Option (Option String)) (h : String) : Bool :=
  match existing with
  | some (some s) => decide (s ≠ "") && decide (s = h)
  | _ => false

/-- The classification loop over `pickedActive` (lines 1686–1706), producing
`(need, toDoneSkip, toFailMissingBody)` in loop order. -/
def classify (hashFn : String → String) (reviews : List ReviewBody)
    (embs : List EmbRow) : List EmbJob → List NeedItem × List Nat × List FailItem
  | [] => ([], [], [])
  | j :: rest =>
    let (need, skips, fails) := classify hashFn reviews embs rest
    match bodyOf reviews j.review_id with
    | none => (need, skips, ⟨j.review_id, missingBodyMsg, j.attempt_count⟩ :: fails)
    | some body =>
      if trimS body = "" then
        (need, skips, ⟨j.review_id, missingBodyMsg, j.attempt_count⟩ :: fails)
      else
        let h := hashFn body
        if hashMatches (storedHashOf embs j.review_id) h then
          (need, j.review_id :: skips, fails)
        else
          (⟨j.review_id, body, h, j.attempt_count⟩ :: need, skips, fails)

/-- The result summary of one run, as far as the claims need it:
`picked` is the ids transitioned to `processing`, `providerCalls` the review
ids of each `embeddings.create` call in order. -/
structure EmbOut where
  ok : Bool
  error : Option String
  picked : List Nat
  providerCalls : List (List Nat)
  done : Nat
  skipped : Nat
  failed : Nat
  deriving Repr, DecidableEq

/-- Generic shape of the source's per-row job upserts: each payload row
(an `item` with a review id) replaces the stored columns of the job row
with the same id. -/
def foldUpdate {β : Type} (upd : β → EmbJob → EmbJob) (getId : β → Nat)
    (jobs : List EmbJob) (items : List β) : List EmbJob :=
  items.foldl
    (fun js item => js.map fun x => if x.review_id == getId item then upd item x else x)
    jobs

/-- The columns written when a flagged review's job is closed
(lines 1611–1620). -/
def flaggedRow (cfg : EmbCfg) (x : EmbJob) : EmbJob :=
  { x with status := .done, last_error := some "ai_flagged", locked_at := none,
           locked_by := some cfg.runner, updated_at := cfg.now }

/-- The columns written for a hash-gated skip (lines 1711–1720). -/
def skipRow (cfg : EmbCfg) (x : EmbJob) : EmbJob :=
  { x with status := .done, last_error := none, locked_at := none,
           locked_by := some cfg.runner, updated_at := cfg.now }

/-- The columns written for one job of a successful batch
(`jobRows`, lines 1788–1796). -/
def doneRow (cfg : EmbCfg) (item : NeedItem) (x : EmbJob) : EmbJob :=
  { x with status := .done, attempt_count := item.attempt_count + 1,
           last_error := none, locked_at := none,
           locked_by := some cfg.runner, updated_at := cfg.now }

/-- The columns written for one job of a failed batch
(`jobFailRows`, lines 1808–1816). -/
def failRow (cfg : EmbCfg) (msg : String) (item : NeedItem) (x : EmbJob) : EmbJob :=
  { x with status := .failed, attempt_count := item.attempt_count + 1,
           last_error := some msg, locked_at := none,
           locked_by := some cfg.runner, updated_at := cfg.now }

/-- The columns written for one missing-body job (`rows`, lines 1734–1742). -/
def missingRow (cfg : EmbCfg) (item : FailItem) (x : EmbJob) : EmbJob :=
  { x with status := .failed, attempt_count := item.attempt_count + 1,
           last_error := some item.error, locked_at := none,
           locked_by := some cfg.runner, updated_at := cfg.now }

/-- Job update applied when a batch succeeds (`jobRows`, lines 1788–1796). -/
def applyBatchDone (cfg : EmbCfg) (jobs : List EmbJob) (batch : List NeedItem) :
    List EmbJob :=
  foldUpdate (doneRow cfg) (·.review_id) jobs batch

/-- Job update applied when a batch fails (`jobFailRows`, lines 1808–1816). -/
def applyBatchFailed (cfg : EmbCfg) (jobs : List EmbJob) (batch : List NeedItem)
    (msg : String) : List EmbJob :=
  foldUpdate (failRow cfg msg) (·.review_id) jobs batch

/-- Job update for missing-body failures (`rows`, lines 1734–1755). -/
def applyMissingFailed (cfg : EmbCfg) (jobs : List EmbJob) (fails : List FailItem) :
    List EmbJob :=
  foldUpdate (missingRow cfg) (·.review_id) jobs fails

def mismatchMsg : String := "embedding response mismatch"

def batchFailAbortMsg : String := "failed to update company_embedding_jobs to failed"

/-- The `embedRows` payload of a successful batch (lines 1774–1780). -/
def embedRowsOf (cfg : EmbCfg) (batch : List NeedItem) (vecs : List (List Int)) :
    List EmbRow :=
  (batch.zip vecs).map fun xv =>
    { review_id := xv.1.review_id, embedding := xv.2, model := cfg.model,
      content_hash := some xv.1.hash, updated_at := cfg.now }

/-- The per-batch embed loop (lines 1759–1831).  Returns the final state, the
review ids of each provider call, the `done`/`failed` increments, and
`some e` when the run aborted (the catch handler's own job update failed,
source line 1822: the whole request returns 500 and later batches never
run). -/
def runBatches (cfg : EmbCfg) :
    EmbState → Nat → List (List NeedItem) →
      EmbState × List (List Nat) × Nat × Nat × Option String
  | st, _, [] => (st, [], 0, 0, none)
  | st, i, batch :: rest =>
    let callIds := batch.map (·.review_id)
    let attempt : Sum EmbState (EmbState × String) :=
      match cfg.embedFn (batch.map (·.body)) with
      | .error e => .inr (st, e)
      | .ok vecs =>
        if vecs.length = batch.length then
          match cfg.faults.upsertEmbeddings i with
          | some e => .inr (st, e)
          | none =>
            let st1 := { st with
              embeddings := upsertEmbRows st.embeddings (embedRowsOf cfg batch vecs) }
            match cfg.faults.markBatchDone i with
            | some e => .inr (st1, e)
            | none => .inl { st1 with jobs := applyBatchDone cfg st1.jobs batch }
        else .inr (st, mismatchMsg)
    match attempt with
    | .inl stDone =>
      let out := runBatches cfg stDone (i + 1) rest
      (out.1, callIds :: out.2.1, out.2.2.1 + batch.length, out.2.2.2.1, out.2.2.2.2)
    | .inr stErr =>
      match cfg.faults.markBatchFailed i with
      | some _ => (stErr.1, [callIds], 0, 0, some batchFailAbortMsg)
      | none =>
        let stFail := { stErr.1 with
          jobs := applyBatchFailed cfg stErr.1.jobs batch stErr.2 }
        let out := runBatches cfg stFail (i + 1) rest
        (out.1, callIds :: out.2.1, out.2.2.1, out.2.2.2.1 + batch.length, out.2.2.2.2)

/-- The flagged-review block (lines 1595–1628): delete the flagged reviews'
embeddings, then mark their jobs `done` with the `ai_flagged` sentinel;
skipped entirely when nothing is flagged. -/
def flaggedStage (cfg : EmbCfg) (st1 : EmbState) (flaggedIds : List Nat) :
    Sum EmbState (EmbState × String) :=
  if flaggedIds.isEmpty then .inl st1
  else
    match cfg.faults.deleteFlagged with
    | some e => .inr (st1, e)
    | none =>
      let st2a := { st1 with embeddings := deleteEmbeddings st1.embeddings flaggedIds }
      match cfg.faults.markFlaggedDone with
      | some e => .inr (st2a, e)
      | none =>
        .inl { st2a with jobs := updateJobsIn st2a.jobs flaggedIds (flaggedRow cfg) }

/-- The `toDoneSkip` update (lines 1709–1729): hash-gated jobs become `done`
with `last_error` cleared; skipped when the list is empty. -/
def skipStage (cfg : EmbCfg) (st2 : EmbState) (toDoneSkip : List Nat) :
    Sum EmbState (EmbState × String) :=
  if toDoneSkip.isEmpty then .inl st2
  else
    match cfg.faults.markSkipDone with
    | some e => .inr (st2, e)
    | none =>
      .inl { st2 with jobs := updateJobsIn st2.jobs toDoneSkip (skipRow cfg) }

/-- The `toFailMissingBody` update (lines 1731–1755). -/
def missingStage (cfg : EmbCfg) (st3 : EmbState) (fails : List FailItem) :
    Sum EmbState (EmbState × String) :=
  if fails.isEmpty then .inl st3
  else
    match cfg.faults.markMissingFailed with
    | some e => .inr (st3, e)
    | none => .inl { st3 with jobs := applyMissingFailed cfg st3.jobs fails }

/-- An error response before any job was locked. -/
def errBefore (st : EmbState) (e : String) : EmbState × EmbOut :=
  (st, { ok := false, error := some e, picked := [], providerCalls := [],
         done := 0, skipped := 0, failed := 0 })

/-- An error response after the lease acquisition: `picked` records which
jobs this run transitioned to `processing`. -/
def errAfterLock (st : EmbState) (picked : List Nat) (calls : List (List Nat))
    (e : String) : EmbState × EmbOut :=
  (st, { ok := false, error := some e, picked := picked, providerCalls := calls,
         done := 0, skipped := 0, failed := 0 })

/-- One invocation of the company Embedding Runner
(POST, lines 1513–1848), after authentication. -/
def runCompanyEmbeddings (cfg : EmbCfg) (st : EmbState) : EmbState × EmbOut :=
  match cfg.faults.fetchJobs with
  | some e => errBefore st e
  | none =>
    let picked := pickJobs cfg st
    if picked.isEmpty then
      (st, { ok := true, error := none, picked := [], providerCalls := [],
             done := 0, skipped := 0, failed := 0 })
    else
      let reviewIds := picked.map (·.review_id)
      match cfg.faults.lockJobs with
      | some e => errBefore st e
      | none =>
        let st1 := { st with jobs := lockUpdate cfg st.jobs reviewIds }
        match cfg.faults.fetchFlags with
        | some e => errAfterLock st1 reviewIds [] e
        | none =>
          let flaggedIds := reviewIds.filter (isFlagged st1.flags)
          match flaggedStage cfg st1 flaggedIds with
          | .inr stErr => errAfterLock stErr.1 reviewIds [] stErr.2
          | .inl st2 =>
            let pickedActive := picked.filter fun j => !isFlagged st1.flags j.review_id
            if pickedActive.isEmpty then
              (st2, { ok := true, error := none, picked := reviewIds,
                      providerCalls := [], done := 0, skipped := 0, failed := 0 })
            else
              match cfg.faults.fetchBodies with
              | some e => errAfterLock st2 reviewIds [] e
              | none =>
              match cfg.faults.fetchMeta with
              | some e => errAfterLock st2 reviewIds [] e
              | none =>
                let cls := classify cfg.hashFn st2.reviews st2.embeddings pickedActive
                let need := cls.1
                let toDoneSkip := cls.2.1
                let toFailMissingBody := cls.2.2
                match skipStage cfg st2 toDoneSkip with
                | .inr stErr => errAfterLock stErr.1 reviewIds [] stErr.2
                | .inl st3 =>
                  match missingStage cfg st3 toFailMissingBody with
                  | .inr stErr => errAfterLock stErr.1 reviewIds [] stErr.2
                  | .inl st4 =>
                    let bres := runBatches cfg st4 0 (chunk need EMBEDDING_BATCH_SIZE)
                    match bres.2.2.2.2 with
                    | some e => errAfterLock bres.1 reviewIds bres.2.1 e
                    | none =>
                      (bres.1,
                        { ok := true, error := none, picked := reviewIds,
                          providerCalls := bres.2.1, done := bres.2.2.1,
                          skipped := toDoneSkip.length,
                          failed := toFailMissingBody.length + bres.2.2.2.1 })

/-- Final job row for a review id. -/
def jobOf (st : EmbState) (id : Nat) : Option EmbJob :=
  st.jobs.find? fun x => x.review_id == id

/-- Stored embedding row for a review id. -/
def embOf (st : EmbState) (id : Nat) : Option EmbRow :=
  st.embeddings.find? fun e => e.review_id == id

/-- No injected faults: every storage operation succeeds. -/
def noEmbFaults : EmbFaults :=
  { fetchJobs := none, lockJobs := none, fetchFlags := none,
    deleteFlagged := none, markFlaggedDone := none, fetchBodies := none,
    fetchMeta := none, markSkipDone := none, markMissingFailed := none,
    upsertEmbeddings := fun _ => none, markBatchDone := fun _ => none,
    markBatchFailed := fun _ => none }

theorem noEmbFaults_ok : NoStorageFaults noEmbFaults :=
  ⟨rfl, rfl, rfl, rfl, rfl, rfl, rfl, rfl, rfl,
   fun _ => rfl, fun _ => rfl, fun _ => rfl⟩

/-! ### Row-lookup lemmas -/

/-- Lookup a job row by review id (tables have `review_id` as primary key). -/
def findJob (jobs : List EmbJob) (id : Nat) : Option EmbJob :=
  jobs.find? fun x => x.review_id == id

theorem jobOf_eq_findJob (st : EmbState) (id : Nat) : jobOf st id = findJob st.jobs id :=
  rfl

def findEmb (embs : List EmbRow) (id : Nat) : Option EmbRow :=
  embs.find? fun e => e.review_id == id

theorem embOf_eq_findEmb (st : EmbState) (id : Nat) :
    embOf st id = findEmb st.embeddings id :=
  rfl

theorem findJob_map (g : EmbJob → EmbJob) (hg : ∀ x, (g x).review_id = x.review_id)
    (jobs : List EmbJob) (id : Nat) :
    findJob (jobs.map g) id = (findJob jobs id).map g := by
  induction jobs with
  | nil => rfl
  | cons x xs ih =>
    unfold findJob at ih ⊢
    simp only [List.map_cons, List.find?_cons]
    cases h : (x.review_id == id) with
    | true => simp [hg, h]
    | false => simp [hg, h, ih]

theorem findJob_some_id {jobs : List EmbJob} {id : Nat} {x : EmbJob}
    (h : findJob jobs id = some x) : x.review_id = id := by
  have := List.find?_some h
  simpa using this

theorem findJob_isSome_of_mem {jobs : List EmbJob} {j : EmbJob} {id : Nat}
    (hj : j ∈ jobs) (hid : j.review_id = id) :
    ∃ x, findJob jobs id = some x ∧ x.review_id = id := by
  have hs : (findJob jobs id).isSome := by
    unfold findJob
    rw [List.find?_isSome]
    exact ⟨j, hj, by simp [hid]⟩
  obtain ⟨x, hx⟩ := Option.isSome_iff_exists.mp hs
  exact ⟨x, hx, findJob_some_id hx⟩

theorem foldUpdate_cons {β : Type} (upd : β → EmbJob → EmbJob) (getId : β → Nat)
    (jobs : List EmbJob) (it : β) (rest : List β) :
    foldUpdate upd getId jobs (it :: rest) =
      foldUpdate upd getId
        (jobs.map fun x => if x.review_id == getId it then upd it x else x) rest :=
  rfl

theorem foldUpdate_not_mem {β : Type} (upd : β → EmbJob → EmbJob) (getId : β → Nat)
    (hpres : ∀ it x, (upd it x).review_id = x.review_id)
    (items : List β) (jobs : List EmbJob) (id : Nat)
    (h : ∀ it ∈ items, getId it ≠ id) :
    findJob (foldUpdate upd getId jobs items) id = findJob jobs id := by
  induction items generalizing jobs with
  | nil => rfl
  | cons it rest ih =>
    rw [foldUpdate_cons]
    rw [ih _ fun it' hit' => h it' (List.mem_cons_of_mem _ hit')]
    rw [findJob_map _ (by
      intro x
      by_cases hc : (x.review_id == getId it) = true
      · simp [hc, hpres]
      · simp [hc])]
    cases hf : findJob jobs id with
    | none => rfl
    | some x =>
      have hx : x.review_id = id := findJob_some_id hf
      have hne : (x.review_id == getId it) = false := by
        have : getId it ≠ id := h it (List.mem_cons_self _ _)
        simp [hx]
        exact fun heq => this heq.symm
      simp only [Option.map_some']
      rw [hne]
      simp

theorem foldUpdate_mem {β : Type} (upd : β → EmbJob → EmbJob) (getId : β → Nat)
    (hpres : ∀ it x, (upd it x).review_id = x.review_id)
    {items : List β} {it : β} {id : Nat} (jobs : List EmbJob)
    (hnd : (items.map getId).Nodup) (hit : it ∈ items) (hid : getId it = id) :
    findJob (foldUpdate upd getId jobs items) id = (findJob jobs id).map (upd it) := by
  induction items generalizing jobs with
  | nil => cases hit
  | cons hd rest ih =>
    rw [foldUpdate_cons]
    have gpres : ∀ x,
        ((fun x => if x.review_id == getId hd then upd hd x else x) x).review_id
          = x.review_id := by
      intro x
      by_cases hc : (x.review_id == getId hd) = true
      · simp [hc, hpres]
      · simp [hc]
    rcases List.mem_cons.mp hit with heq | hmem
    · subst heq
      have hrest : ∀ it' ∈ rest, getId it' ≠ id := by
        intro it' hit' heq'
        have h1 : getId it ∉ rest.map getId := (List.nodup_cons.mp hnd).1
        have h2 : getId it ∈ rest.map getId := by
          rw [hid]
          exact heq' ▸ List.mem_map_of_mem _ hit'
        exact h1 h2
      rw [foldUpdate_not_mem upd getId hpres rest _ id hrest]
      rw [findJob_map _ gpres]
      cases hf : findJob jobs id with
      | none => rfl
      | some x =>
        have hx : x.review_id = id := findJob_some_id hf
        simp [hx, hid]
    · have hne : getId hd ≠ id := by
        intro heq'
        have h1 : getId hd ∉ rest.map getId := (List.nodup_cons.mp hnd).1
        have h2 : id ∈ rest.map getId := hid ▸ List.mem_map_of_mem _ hmem
        exact h1 (heq' ▸ h2)
      rw [ih _ (List.nodup_cons.mp hnd).2 hmem]
      rw [findJob_map _ gpres]
      cases hf : findJob jobs id with
      | none => rfl
      | some x =>
        have hx : x.review_id = id := findJob_some_id hf
        have hc : (x.review_id == getId hd) = false := by
          simp [hx]
          exact fun heq => hne heq.symm
        simp only [Option.map_some']
        rw [hc]
        simp

theorem findJob_updateJobsIn (jobs : List EmbJob) (ids : List Nat)
    (f : EmbJob → EmbJob) (id : Nat) (hf : ∀ x, (f x).review_id = x.review_id) :
    findJob (updateJobsIn jobs ids f) id =
      (findJob jobs id).map fun x => if x.review_id ∈ ids then f x else x := by
  unfold updateJobsIn
  exact findJob_map _ (by
    intro x
    by_cases h : x.review_id ∈ ids
    · simp [h, hf]
    · simp [h]) jobs id

theorem findJob_lockUpdate (cfg : EmbCfg) (jobs : List EmbJob) (ids : List Nat)
    (id : Nat) :
    findJob (lockUpdate cfg jobs ids) id =
      (findJob jobs id).map fun x =>
        if x.review_id ∈ ids ∧ (x.status = .queued ∨ x.status = .failed) then
          { x with status := .processing, locked_at := some cfg.now,
                   locked_by := some cfg.runner, updated_at := cfg.now }
        else x := by
  unfold lockUpdate
  exact findJob_map _ (by
    intro x
    by_cases h : x.review_id ∈ ids ∧ (x.status = .queued ∨ x.status = .failed)
    · simp [h]
    · simp [h]) jobs id

theorem findEmb_map (g : EmbRow → EmbRow) (hg : ∀ e, (g e).review_id = e.review_id)
    (embs : List EmbRow) (id : Nat) :
    findEmb (embs.map g) id = (findEmb embs id).map g := by
  induction embs with
  | nil => rfl
  | cons e es ih =>
    unfold findEmb at ih ⊢
    simp only [List.map_cons, List.find?_cons]
    cases h : (e.review_id == id) with
    | true => simp [hg, h]
    | false => simp [hg, h, ih]

theorem findEmb_delete_not_mem (embs : List EmbRow) (ids : List Nat) (id : Nat)
    (h : id ∉ ids) :
    findEmb (deleteEmbeddings embs ids) id = findEmb embs id := by
  induction embs with
  | nil => rfl
  | cons e es ih =>
    unfold deleteEmbeddings at ih ⊢
    by_cases hq : e.review_id ∈ ids
    · have hp : (e.review_id == id) = false := by
        simp
        exact fun heq => h (heq ▸ hq)
      simp only [List.filter_cons, decide_eq_true_eq]
      rw [if_neg (by simpa using hq)]
      unfold findEmb
      rw [List.find?_cons, hp]
      exact ih
    · simp only [List.filter_cons]
      rw [if_pos (by simpa using hq)]
      unfold findEmb
      rw [List.find?_cons, List.find?_cons]
      cases hp : (e.review_id == id) with
      | true => rfl
      | false => exact ih

theorem findEmb_upsertRow_not_id (embs : List EmbRow) (row : EmbRow) (id : Nat)
    (h : row.review_id ≠ id) :
    findEmb (upsertEmbRow embs row) id = findEmb embs id := by
  unfold upsertEmbRow
  by_cases hc : embs.any (fun e => e.review_id == row.review_id) = true
  · rw [if_pos hc]
    rw [findEmb_map _ (by
      intro e
      by_cases he : (e.review_id == row.review_id) = true
      · simp only [he, if_pos]
        have : e.review_id = row.review_id := by simpa using he
        simp [this]
      · simp [he])]
    cases hf : findEmb embs id with
    | none => rfl
    | some e =>
      have he : e.review_id = id := by
        have := List.find?_some hf
        simpa using this
      have hne : (e.review_id == row.review_id) = false := by
        simp [he]
        exact fun heq => h heq.symm
      simp only [Option.map_some']
      rw [hne]
      simp
  · rw [if_neg hc]
    show findEmb (embs ++ [row]) id = findEmb embs id
    clear hc
    unfold findEmb
    induction embs with
    | nil =>
      simp only [List.nil_append, List.find?_cons, List.find?_nil]
      have : (row.review_id == id) = false := by simpa using h
      rw [this]
    | cons e es ih =>
      simp only [List.cons_append, List.find?_cons]
      cases hp : (e.review_id == id) with
      | true => rfl
      | false => exact ih

theorem findEmb_upsertRows_not_mem (rows : List EmbRow) (embs : List EmbRow)
    (id : Nat) (h : ∀ r ∈ rows, r.review_id ≠ id) :
    findEmb (upsertEmbRows embs rows) id = findEmb embs id := by
  induction rows generalizing embs with
  | nil => rfl
  | cons r rest ih =>
    show findEmb (upsertEmbRows (upsertEmbRow embs r) rest) id = _
    rw [ih _ fun r' hr' => h r' (List.mem_cons_of_mem _ hr')]
    exact findEmb_upsertRow_not_id embs r id (h r (List.mem_cons_self _ _))

/-! ### The run with no storage faults -/

/-- Outcome of one provider call for a batch: the vectors, or the error
message the catch handler records (provider failure or length mismatch). -/
def embedOutcome (cfg : EmbCfg) (batch : List NeedItem) :
    Sum (List (List Int)) String :=
  match cfg.embedFn (batch.map (·.body)) with
  | .error e => .inr e
  | .ok vecs => if vecs.length = batch.length then .inl vecs else .inr mismatchMsg

/-- The batch loop when no storage operation faults. -/
def runBatchesNF (cfg : EmbCfg) :
    EmbState → List (List NeedItem) → EmbState × List (List Nat) × Nat × Nat
  | st, [] => (st, [], 0, 0)
  | st, batch :: rest =>
    match embedOutcome cfg batch with
    | .inl vecs =>
      let st1 := { st with
        embeddings := upsertEmbRows st.embeddings (embedRowsOf cfg batch vecs) }
      let stDone := { st1 with jobs := applyBatchDone cfg st1.jobs batch }
      let out := runBatchesNF cfg stDone rest
      (out.1, (batch.map (·.review_id)) :: out.2.1, out.2.2.1 + batch.length,
        out.2.2.2)
    | .inr msg =>
      let stFail := { st with jobs := applyBatchFailed cfg st.jobs batch msg }
      let out := runBatchesNF cfg stFail rest
      (out.1, (batch.map (·.review_id)) :: out.2.1, out.2.2.1,
        out.2.2.2 + batch.length)

theorem runBatches_noFaults (cfg : EmbCfg)
    (hup : ∀ i, cfg.faults.upsertEmbeddings i = none)
    (hdone : ∀ i, cfg.faults.markBatchDone i = none)
    (hfail : ∀ i, cfg.faults.markBatchFailed i = none) :
    ∀ (bs : List (List NeedItem)) (st : EmbState) (i : Nat),
      runBatches cfg st i bs =
        ((runBatchesNF cfg st bs).1, (runBatchesNF cfg st bs).2.1,
         (runBatchesNF cfg st bs).2.2.1, (runBatchesNF cfg st bs).2.2.2, none) := by
  intro bs
  induction bs with
  | nil => intro st i; rfl
  | cons batch rest ih =>
    intro st i
    unfold runBatches runBatchesNF embedOutcome
    cases hemb : cfg.embedFn (batch.map (·.body)) with
    | error e =>
      simp only [hfail i]
      rw [ih _ (i + 1)]
    | ok vecs =>
      by_cases hlen : vecs.length = batch.length
      · simp only [if_pos hlen, hup i, hdone i]
        rw [ih _ (i + 1)]
      · simp only [if_neg hlen, hfail i]
        rw [ih _ (i + 1)]

/-- Effect of the flagged-review block when it succeeds. -/
def flaggedApply (cfg : EmbCfg) (st1 : EmbState) (flaggedIds : List Nat) : EmbState :=
  if flaggedIds.isEmpty then st1
  else
    let st2a := { st1 with embeddings := deleteEmbeddings st1.embeddings flaggedIds }
    { st2a with jobs := updateJobsIn st2a.jobs flaggedIds (flaggedRow cfg) }

theorem flaggedStage_noFaults (cfg : EmbCfg)
    (h1 : cfg.faults.deleteFlagged = none) (h2 : cfg.faults.markFlaggedDone = none)
    (st1 : EmbState) (ids : List Nat) :
    flaggedStage cfg st1 ids = .inl (flaggedApply cfg st1 ids) := by
  unfold flaggedStage flaggedApply
  by_cases h : ids.isEmpty <;> simp [h, h1, h2]

/-- Effect of the `toDoneSkip` update when it succeeds. -/
def skipApply (cfg : EmbCfg) (st2 : EmbState) (toDoneSkip : List Nat) : EmbState :=
  if toDoneSkip.isEmpty then st2
  else { st2 with jobs := updateJobsIn st2.jobs toDoneSkip (skipRow cfg) }

theorem skipStage_noFaults (cfg : EmbCfg) (h1 : cfg.faults.markSkipDone = none)
    (st2 : EmbState) (ids : List Nat) :
    skipStage cfg st2 ids = .inl (skipApply cfg st2 ids) := by
  unfold skipStage skipApply
  by_cases h : ids.isEmpty <;> simp [h, h1]

/-- Effect of the missing-body update when it succeeds. -/
def missingApply (cfg : EmbCfg) (st3 : EmbState) (fails : List FailItem) : EmbState :=
  if fails.isEmpty then st3
  else { st3 with jobs := applyMissingFailed cfg st3.jobs fails }

theorem missingStage_noFaults (cfg : EmbCfg)
    (h1 : cfg.faults.markMissingFailed = none)
    (st3 : EmbState) (fails : List FailItem) :
    missingStage cfg st3 fails = .inl (missingApply cfg st3 fails) := by
  unfold missingStage missingApply
  by_cases h : fails.isEmpty <;> simp [h, h1]

/-- The pipeline of one run when every storage operation succeeds. -/
def runEmbNF (cfg : EmbCfg) (st : EmbState) : EmbState × EmbOut :=
  let picked := pickJobs cfg st
  if picked.isEmpty then
    (st, { ok := true, error := none, picked := [], providerCalls := [],
           done := 0, skipped := 0, failed := 0 })
  else
    let reviewIds := picked.map (·.review_id)
    let st1 := { st with jobs := lockUpdate cfg st.jobs reviewIds }
    let flaggedIds := reviewIds.filter (isFlagged st1.flags)
    let st2 := flaggedApply cfg st1 flaggedIds
    let pickedActive := picked.filter fun j => !isFlagged st1.flags j.review_id
    if pickedActive.isEmpty then
      (st2, { ok := true, error := none, picked := reviewIds, providerCalls := [],
              done := 0, skipped := 0, failed := 0 })
    else
      let cls := classify cfg.hashFn st2.reviews st2.embeddings pickedActive
      let st3 := skipApply cfg st2 cls.2.1
      let st4 := missingApply cfg st3 cls.2.2
      let nf := runBatchesNF cfg st4 (chunk cls.1 EMBEDDING_BATCH_SIZE)
      (nf.1, { ok := true, error := none, picked := reviewIds,
               providerCalls := nf.2.1, done := nf.2.2.1, skipped := cls.2.1.length,
               failed := cls.2.2.length + nf.2.2.2 })

theorem runCompanyEmbeddings_noFaults (cfg : EmbCfg) (st : EmbState)
    (hnf : NoStorageFaults cfg.faults) :
    runCompanyEmbeddings cfg st = runEmbNF cfg st := by
  obtain ⟨h1, h2, h3, h4, h5, h6, h7, h8, h9, h10, h11, h12⟩ := hnf
  unfold runCompanyEmbeddings runEmbNF
  simp only [h1, h2, h3, h6, h7, flaggedStage_noFaults cfg h4 h5,
    skipStage_noFaults cfg h8, missingStage_noFaults cfg h9,
    runBatches_noFaults cfg h10 h11 h12]

theorem insertByUpdatedJob_perm (j : EmbJob) (l : List EmbJob) :
    (insertByUpdatedJob j l).Perm (j :: l) := by
  induction l with
  | nil => exact List.Perm.refl _
  | cons x xs ih =>
    by_cases h : j.updated_at ≤ x.updated_at
    · simp only [insertByUpdatedJob, if_pos h]
      exact List.Perm.refl _
    · simp only [insertByUpdatedJob, if_neg h]
      exact (ih.cons x).trans (List.Perm.swap j x xs)

theorem sortJobsByUpdated_perm (l : List EmbJob) :
    (sortJobsByUpdated l).Perm l := by
  induction l with
  | nil => exact List.Perm.refl _
  | cons x xs ih =>
    exact (insertByUpdatedJob_perm x (sortJobsByUpdated xs)).trans (ih.cons x)

/-- Unfolding of the pickup predicate into propositional form. -/
theorem jobPickable_iff (sb : Nat) (j : EmbJob) :
    jobPickable sb j = true ↔
      (j.status = .queued ∨ j.status = .failed) ∧
      (j.locked_at = none ∨ ∃ t, j.locked_at = some t ∧ t < sb) := by
  unfold jobPickable
  cases hs : j.status <;> cases hl : j.locked_at <;>
    simp [hs, hl]

/-- Every selected job comes from the jobs table and satisfies the pickup
predicate. -/
theorem mem_pickJobs_sound (cfg : EmbCfg) (st : EmbState) (j : EmbJob)
    (hj : j ∈ pickJobs cfg st) :
    j ∈ st.jobs ∧ jobPickable (staleBefore cfg.now) j = true := by
  have h1 : j ∈ sortJobsByUpdated (st.jobs.filter (jobPickable (staleBefore cfg.now))) :=
    List.mem_of_mem_take hj
  have h2 : j ∈ st.jobs.filter (jobPickable (staleBefore cfg.now)) :=
    (sortJobsByUpdated_perm _).mem_iff.mp h1
  exact ⟨(List.mem_filter.mp h2).1, (List.mem_filter.mp h2).2⟩

/-! ### Classification characterization -/

/-- The `need` entry the classification loop produces for one job, if any. -/
def needItemOf (hashFn : String → String) (reviews : List ReviewBody)
    (embs : List EmbRow) (j : EmbJob) : Option NeedItem :=
  match bodyOf reviews j.review_id with
  | none => none
  | some body =>
    if trimS body = "" then none
    else if hashMatches (storedHashOf embs j.review_id) (hashFn body) then none
    else some ⟨j.review_id, body, hashFn body, j.attempt_count⟩

/-- The `toDoneSkip` entry the classification loop produces for one job. -/
def skipIdOf (hashFn : String → String) (reviews : List ReviewBody)
    (embs : List EmbRow) (j : EmbJob) : Option Nat :=
  match bodyOf reviews j.review_id with
  | none => none
  | some body =>
    if trimS body = "" then none
    else if hashMatches (storedHashOf embs j.review_id) (hashFn body) then
      some j.review_id
    else none

/-- The `toFailMissingBody` entry the classification loop produces. -/
def failItemOf (reviews : List ReviewBody) (j : EmbJob) : Option FailItem :=
  match bodyOf reviews j.review_id with
  | none => some ⟨j.review_id, missingBodyMsg, j.attempt_count⟩
  | some body =>
    if trimS body = "" then some ⟨j.review_id, missingBodyMsg, j.attempt_count⟩
    else none

theorem classify_eq (hashFn : String → String) (reviews : List ReviewBody)
    (embs : List EmbRow) (l : List EmbJob) :
    classify hashFn reviews embs l =
      (l.filterMap (needItemOf hashFn reviews embs),
       l.filterMap (skipIdOf hashFn reviews embs),
       l.filterMap (failItemOf reviews)) := by
  induction l with
  | nil => rfl
  | cons j rest ih =>
    unfold classify
    rw [ih]
    cases hb : bodyOf reviews j.review_id with
    | none =>
      simp [List.filterMap_cons, needItemOf, skipIdOf, failItemOf, hb]
    | some body =>
      by_cases ht : trimS body = ""
      · simp [List.filterMap_cons, needItemOf, skipIdOf, failItemOf, hb, ht]
      · by_cases hh :
          hashMatches (storedHashOf embs j.review_id) (hashFn body) = true
        · simp [List.filterMap_cons, needItemOf, skipIdOf, failItemOf, hb, ht, hh]
        · simp [List.filterMap_cons, needItemOf, skipIdOf, failItemOf, hb, ht, hh]

theorem needItemOf_id {hashFn : String → String} {reviews : List ReviewBody}
    {embs : List EmbRow} {j : EmbJob} {x : NeedItem}
    (h : needItemOf hashFn reviews embs j = some x) : x.review_id = j.review_id := by
  unfold needItemOf at h
  split at h
  · cases h
  · split at h
    · cases h
    · split at h
      · cases h
      · cases h; rfl

theorem skipIdOf_id {hashFn : String → String} {reviews : List ReviewBody}
    {embs : List EmbRow} {j : EmbJob} {id : Nat}
    (h : skipIdOf hashFn reviews embs j = some id) : id = j.review_id := by
  unfold skipIdOf at h
  split at h
  · cases h
  · split at h
    · cases h
    · split at h
      · cases h; rfl
      · cases h

theorem failItemOf_id {reviews : List ReviewBody} {j : EmbJob} {f : FailItem}
    (h : failItemOf reviews j = some f) : f.review_id = j.review_id := by
  unfold failItemOf at h
  split at h
  · cases h; rfl
  · split at h
    · cases h; rfl
    · cases h

/-- Every picked-active job is classified into exactly one of the three
buckets. -/
theorem classifyJob_total (hashFn : String → String) (reviews : List ReviewBody)
    (embs : List EmbRow) (j : EmbJob) :
    (∃ x, needItemOf hashFn reviews embs j = some x ∧
      skipIdOf hashFn reviews embs j = none ∧ failItemOf reviews j = none) ∨
    (skipIdOf hashFn reviews embs j = some j.review_id ∧
      needItemOf hashFn reviews embs j = none ∧ failItemOf reviews j = none) ∨
    (∃ f, failItemOf reviews j = some f ∧
      needItemOf hashFn reviews embs j = none ∧
      skipIdOf hashFn reviews embs j = none) := by
  unfold needItemOf skipIdOf failItemOf
  cases hb : bodyOf reviews j.review_id with
  | none => right; right; exact ⟨_, rfl, rfl, rfl⟩
  | some body =>
    by_cases ht : trimS body = ""
    · right; right
      exact ⟨⟨j.review_id, missingBodyMsg, j.attempt_count⟩,
        by simp [ht], by simp [ht], by simp [ht]⟩
    · by_cases hh : hashMatches (storedHashOf embs j.review_id) (hashFn body) = true
      · right; left
        exact ⟨by simp [ht, hh], by simp [ht, hh], by simp [ht, hh]⟩
      · left
        exact ⟨⟨j.review_id, body, hashFn body, j.attempt_count⟩,
          by simp [ht, hh], by simp [ht, hh], by simp [ht, hh]⟩

/-! ### Nodup plumbing -/

theorem filterMap_ids_sublist {β : Type} (f : EmbJob → Option β) (getId : β → Nat)
    (hf : ∀ j x, f j = some x → getId x = j.review_id) (l : List EmbJob) :
    ((l.filterMap f).map getId).Sublist (l.map EmbJob.review_id) := by
  induction l with
  | nil => simp
  | cons j rest ih =>
    cases hj : f j with
    | none =>
      simp only [List.filterMap_cons, hj, List.map_cons]
      exact ih.cons _
    | some x =>
      simp only [List.filterMap_cons, hj, List.map_cons]
      rw [hf j x hj]
      exact ih.cons₂ _

theorem pickJobs_ids_nodup (cfg : EmbCfg) (st : EmbState)
    (hnd : (st.jobs.map EmbJob.review_id).Nodup) :
    ((pickJobs cfg st).map EmbJob.review_id).Nodup := by
  have h1 : ((st.jobs.filter (jobPickable (staleBefore cfg.now))).map
      EmbJob.review_id).Nodup :=
    ((List.filter_sublist _).map _).nodup hnd
  have h2 : ((sortJobsByUpdated
      (st.jobs.filter (jobPickable (staleBefore cfg.now)))).map
      EmbJob.review_id).Nodup :=
    (((sortJobsByUpdated_perm _).map _).nodup_iff).mpr h1
  exact ((List.take_sublist _ _).map _).nodup h2

/-- Two jobs of a Nodup-keyed table with the same review id are the same
row. -/
theorem jobs_id_inj {st : EmbState} (hnd : (st.jobs.map EmbJob.review_id).Nodup)
    {a b : EmbJob} (ha : a ∈ st.jobs) (hb : b ∈ st.jobs)
    (hid : a.review_id = b.review_id) : a = b :=
  List.inj_on_of_nodup_map hnd ha hb hid

/-! ### Per-stage lookup lemmas -/

theorem flaggedRow_id (cfg : EmbCfg) (x : EmbJob) :
    (flaggedRow cfg x).review_id = x.review_id := rfl

theorem skipRow_id (cfg : EmbCfg) (x : EmbJob) :
    (skipRow cfg x).review_id = x.review_id := rfl

theorem doneRow_id (cfg : EmbCfg) (item : NeedItem) (x : EmbJob) :
    (doneRow cfg item x).review_id = x.review_id := rfl

theorem failRow_id (cfg : EmbCfg) (msg : String) (item : NeedItem) (x : EmbJob) :
    (failRow cfg msg item x).review_id = x.review_id := rfl

theorem missingRow_id (cfg : EmbCfg) (item : FailItem) (x : EmbJob) :
    (missingRow cfg item x).review_id = x.review_id := rfl

theorem findJob_flaggedApply (cfg : EmbCfg) (st1 : EmbState) (ids : List Nat)
    (id : Nat) :
    findJob (flaggedApply cfg st1 ids).jobs id =
      (findJob st1.jobs id).map fun x =>
        if x.review_id ∈ ids then flaggedRow cfg x else x := by
  unfold flaggedApply
  by_cases h : ids.isEmpty
  · rw [if_pos h]
    have hids : ids = [] := List.isEmpty_iff.mp h
    subst hids
    cases hf : findJob st1.jobs id with
    | none => rfl
    | some x => simp
  · rw [if_neg h]
    exact findJob_updateJobsIn _ _ _ _ fun x => rfl

theorem findEmb_flaggedApply_not_mem (cfg : EmbCfg) (st1 : EmbState)
    (ids : List Nat) (id : Nat) (h : id ∉ ids) :
    findEmb (flaggedApply cfg st1 ids).embeddings id = findEmb st1.embeddings id := by
  unfold flaggedApply
  by_cases he : ids.isEmpty
  · rw [if_pos he]
  · rw [if_neg he]
    exact findEmb_delete_not_mem _ _ _ h

theorem findJob_skipApply (cfg : EmbCfg) (st2 : EmbState) (ids : List Nat)
    (id : Nat) :
    findJob (skipApply cfg st2 ids).jobs id =
      (findJob st2.jobs id).map fun x =>
        if x.review_id ∈ ids then skipRow cfg x else x := by
  unfold skipApply
  by_cases h : ids.isEmpty
  · rw [if_pos h]
    have hids : ids = [] := List.isEmpty_iff.mp h
    subst hids
    cases hf : findJob st2.jobs id with
    | none => rfl
    | some x => simp
  · rw [if_neg h]
    exact findJob_updateJobsIn _ _ _ _ fun x => rfl

theorem skipApply_embeddings (cfg : EmbCfg) (st2 : EmbState) (ids : List Nat) :
    (skipApply cfg st2 ids).embeddings = st2.embeddings := by
  unfold skipApply
  split <;> rfl

theorem missingApply_embeddings (cfg : EmbCfg) (st3 : EmbState)
    (fails : List FailItem) :
    (missingApply cfg st3 fails).embeddings = st3.embeddings := by
  unfold missingApply
  split <;> rfl

theorem findJob_missingApply_not_mem (cfg : EmbCfg) (st3 : EmbState)
    (fails : List FailItem) (id : Nat) (h : ∀ it ∈ fails, it.review_id ≠ id) :
    findJob (missingApply cfg st3 fails).jobs id = findJob st3.jobs id := by
  unfold missingApply
  by_cases he : fails.isEmpty
  · rw [if_pos he]
  · rw [if_neg he]
    exact foldUpdate_not_mem (missingRow cfg) (fun it => it.review_id)
      (fun it x => rfl) fails st3.jobs id h

theorem findJob_missingApply_mem (cfg : EmbCfg) (st3 : EmbState)
    {fails : List FailItem} {it : FailItem}
    (hnd : (fails.map FailItem.review_id).Nodup) (hit : it ∈ fails) :
    findJob (missingApply cfg st3 fails).jobs it.review_id =
      (findJob st3.jobs it.review_id).map (missingRow cfg it) := by
  unfold missingApply
  rw [if_neg (by
    intro he
    exact List.ne_nil_of_mem hit (List.isEmpty_iff.mp he))]
  exact foldUpdate_mem (missingRow cfg) (fun it => it.review_id)
    (fun it x => rfl) st3.jobs hnd hit rfl

/-! ### Batch-loop lookup lemmas -/

theorem embedRowsOf_ids (cfg : EmbCfg) (batch : List NeedItem)
    (vecs : List (List Int)) :
    ∀ r ∈ embedRowsOf cfg batch vecs, ∃ it ∈ batch, r.review_id = it.review_id := by
  intro r hr
  unfold embedRowsOf at hr
  obtain ⟨xv, hxv, hreq⟩ := List.mem_map.mp hr
  exact ⟨xv.1, (List.of_mem_zip hxv).1, by rw [← hreq]⟩

theorem runBatchesNF_jobs_not_mem (cfg : EmbCfg) :
    ∀ (bs : List (List NeedItem)) (st : EmbState) (id : Nat),
      (∀ b ∈ bs, ∀ it ∈ b, it.review_id ≠ id) →
      findJob (runBatchesNF cfg st bs).1.jobs id = findJob st.jobs id := by
  intro bs
  induction bs with
  | nil => intro st id h; rfl
  | cons b rest ih =>
    intro st id h
    unfold runBatchesNF
    cases ho : embedOutcome cfg b with
    | inl vecs =>
      rw [ih _ id fun b' hb' => h b' (List.mem_cons_of_mem _ hb')]
      exact foldUpdate_not_mem (doneRow cfg) (fun it => it.review_id)
        (fun it x => rfl) b st.jobs id
        (fun it hit => h b (List.mem_cons_self _ _) it hit)
    | inr msg =>
      rw [ih _ id fun b' hb' => h b' (List.mem_cons_of_mem _ hb')]
      exact foldUpdate_not_mem (failRow cfg msg) (fun it => it.review_id)
        (fun it x => rfl) b st.jobs id
        (fun it hit => h b (List.mem_cons_self _ _) it hit)

theorem runBatchesNF_embs_not_mem (cfg : EmbCfg) :
    ∀ (bs : List (List NeedItem)) (st : EmbState) (id : Nat),
      (∀ b ∈ bs, ∀ it ∈ b, it.review_id ≠ id) →
      findEmb (runBatchesNF cfg st bs).1.embeddings id = findEmb st.embeddings id := by
  intro bs
  induction bs with
  | nil => intro st id h; rfl
  | cons b rest ih =>
    intro st id h
    unfold runBatchesNF
    cases ho : embedOutcome cfg b with
    | inl vecs =>
      rw [ih _ id fun b' hb' => h b' (List.mem_cons_of_mem _ hb')]
      exact findEmb_upsertRows_not_mem _ _ _ (by
        intro r hr
        obtain ⟨it, hit, hreq⟩ := embedRowsOf_ids cfg b vecs r hr
        rw [hreq]
        exact h b (List.mem_cons_self _ _) it hit)
    | inr msg =>
      exact ih _ id fun b' hb' => h b' (List.mem_cons_of_mem _ hb')

/-- For a need item of batch `b` of the loop, the final job row is the
done-row when the provider call for `b` succeeds and the fail-row (with that
call's error message) when it fails. -/
theorem runBatchesNF_jobs_mem (cfg : EmbCfg) :
    ∀ (bs : List (List NeedItem)) (st : EmbState) {b : List NeedItem}
      {it : NeedItem},
      ((bs.flatten).map NeedItem.review_id).Nodup → b ∈ bs → it ∈ b →
      findJob (runBatchesNF cfg st bs).1.jobs it.review_id =
        (findJob st.jobs it.review_id).map
          (match embedOutcome cfg b with
           | .inl _ => doneRow cfg it
           | .inr msg => failRow cfg msg it) := by
  intro bs
  induction bs with
  | nil => intro st b it _ hb; cases hb
  | cons b0 rest ih =>
    intro st b it hnd hb hit
    have hnd' := hnd
    rw [List.flatten_cons, List.map_append, List.nodup_append] at hnd'
    obtain ⟨hndb0, hndrest, hdisj⟩ := hnd'
    rcases List.mem_cons.mp hb with heq | hmem
    · subst heq
      have hnotrest : ∀ b' ∈ rest, ∀ it' ∈ b', it'.review_id ≠ it.review_id := by
        intro b' hb' it' hit' heq'
        exact hdisj (List.mem_map_of_mem _ hit)
          (by
            rw [← heq']
            exact List.mem_map_of_mem _
              (List.mem_flatten.mpr ⟨b', hb', hit'⟩))
      unfold runBatchesNF
      cases ho : embedOutcome cfg b with
      | inl vecs =>
        rw [runBatchesNF_jobs_not_mem cfg rest _ _ hnotrest]
        exact foldUpdate_mem (doneRow cfg) (fun it => it.review_id)
          (fun it x => rfl) _ hndb0 hit rfl
      | inr msg =>
        rw [runBatchesNF_jobs_not_mem cfg rest _ _ hnotrest]
        exact foldUpdate_mem (failRow cfg msg) (fun it => it.review_id)
          (fun it x => rfl) _ hndb0 hit rfl
    · have hne : ∀ it0 ∈ b0, it0.review_id ≠ it.review_id := by
        intro it0 hit0 heq'
        exact hdisj (by rw [← heq']; exact List.mem_map_of_mem _ hit0)
          (List.mem_map_of_mem _ (List.mem_flatten.mpr ⟨b, hmem, hit⟩))
      unfold runBatchesNF
      cases ho : embedOutcome cfg b0 with
      | inl vecs =>
        rw [ih _ hndrest hmem hit]
        congr 1
        exact foldUpdate_not_mem (doneRow cfg) (fun it => it.review_id)
          (fun it x => rfl) b0 st.jobs it.review_id hne
      | inr msg =>
        rw [ih _ hndrest hmem hit]
        congr 1
        exact foldUpdate_not_mem (failRow cfg msg) (fun it => it.review_id)
          (fun it x => rfl) b0 st.jobs it.review_id hne

/-- The review ids of the provider calls are exactly the ids of the batches,
in order. -/
theorem runBatchesNF_calls (cfg : EmbCfg) :
    ∀ (bs : List (List NeedItem)) (st : EmbState),
      (runBatchesNF cfg st bs).2.1 = bs.map fun b => b.map NeedItem.review_id := by
  intro bs
  induction bs with
  | nil => intro st; rfl
  | cons b rest ih =>
    intro st
    unfold runBatchesNF
    cases ho : embedOutcome cfg b with
    | inl vecs => simp only [List.map_cons]; rw [ih]
    | inr msg => simp only [List.map_cons]; rw [ih]

/-! ### Pipeline shape -/

/-- The review ids this run locks (`reviewIds`). -/
def pickedIdsOf (cfg : EmbCfg) (st : EmbState) : List Nat :=
  (pickJobs cfg st).map EmbJob.review_id

/-- The flagged subset of the picked ids (`flaggedIds`). -/
def flaggedIdsOf (cfg : EmbCfg) (st : EmbState) : List Nat :=
  (pickedIdsOf cfg st).filter (isFlagged st.flags)

/-- The unflagged picked jobs (`pickedActive`). -/
def pickedActiveOf (cfg : EmbCfg) (st : EmbState) : List EmbJob :=
  (pickJobs cfg st).filter fun j => !isFlagged st.flags j.review_id

/-- The embeddings table after the flagged-review deletions. -/
def embsAfterFlagged (cfg : EmbCfg) (st : EmbState) : List EmbRow :=
  deleteEmbeddings st.embeddings (flaggedIdsOf cfg st)

/-- The `need` list of the run. -/
def needListOf (cfg : EmbCfg) (st : EmbState) : List NeedItem :=
  (pickedActiveOf cfg st).filterMap
    (needItemOf cfg.hashFn st.reviews (embsAfterFlagged cfg st))

/-- The `toDoneSkip` list of the run. -/
def skipIdsOf (cfg : EmbCfg) (st : EmbState) : List Nat :=
  (pickedActiveOf cfg st).filterMap
    (skipIdOf cfg.hashFn st.reviews (embsAfterFlagged cfg st))

/-- The `toFailMissingBody` list of the run. -/
def failListOf (cfg : EmbCfg) (st : EmbState) : List FailItem :=
  (pickedActiveOf cfg st).filterMap (failItemOf st.reviews)

/-- The provider batches of the run. -/
def batchesOf (cfg : EmbCfg) (st : EmbState) : List (List NeedItem) :=
  chunk (needListOf cfg st) EMBEDDING_BATCH_SIZE

theorem deleteEmbeddings_nil (embs : List EmbRow) : deleteEmbeddings embs [] = embs := by
  unfold deleteEmbeddings
  induction embs with
  | nil => rfl
  | cons e es ih => simp [List.filter_cons, ih]

theorem updateJobsIn_nil (jobs : List EmbJob) (f : EmbJob → EmbJob) :
    updateJobsIn jobs [] f = jobs := by
  unfold updateJobsIn
  induction jobs with
  | nil => rfl
  | cons x xs ih => simp [ih]

theorem flaggedApply_jobs (cfg : EmbCfg) (st1 : EmbState) (ids : List Nat) :
    (flaggedApply cfg st1 ids).jobs = updateJobsIn st1.jobs ids (flaggedRow cfg) := by
  unfold flaggedApply
  by_cases h : ids.isEmpty
  · rw [if_pos h, List.isEmpty_iff.mp h, updateJobsIn_nil]
  · rw [if_neg h]

theorem flaggedApply_embeddings (cfg : EmbCfg) (st1 : EmbState) (ids : List Nat) :
    (flaggedApply cfg st1 ids).embeddings = deleteEmbeddings st1.embeddings ids := by
  unfold flaggedApply
  by_cases h : ids.isEmpty
  · rw [if_pos h, List.isEmpty_iff.mp h, deleteEmbeddings_nil]
  · rw [if_neg h]

theorem flaggedApply_reviews (cfg : EmbCfg) (st1 : EmbState) (ids : List Nat) :
    (flaggedApply cfg st1 ids).reviews = st1.reviews := by
  unfold flaggedApply
  split <;> rfl

theorem flaggedApply_flags (cfg : EmbCfg) (st1 : EmbState) (ids : List Nat) :
    (flaggedApply cfg st1 ids).flags = st1.flags := by
  unfold flaggedApply
  split <;> rfl

theorem skipApply_jobs (cfg : EmbCfg) (st2 : EmbState) (ids : List Nat) :
    (skipApply cfg st2 ids).jobs = updateJobsIn st2.jobs ids (skipRow cfg) := by
  unfold skipApply
  by_cases h : ids.isEmpty
  · rw [if_pos h, List.isEmpty_iff.mp h, updateJobsIn_nil]
  · rw [if_neg h]

theorem missingApply_jobs (cfg : EmbCfg) (st3 : EmbState) (fails : List FailItem) :
    (missingApply cfg st3 fails).jobs = applyMissingFailed cfg st3.jobs fails := by
  unfold missingApply
  by_cases h : fails.isEmpty
  · rw [if_pos h, List.isEmpty_iff.mp h]
    rfl
  · rw [if_neg h]

theorem findJob_skipApply_not_mem (cfg : EmbCfg) (st2 : EmbState) (ids : List Nat)
    (id : Nat) (h : id ∉ ids) :
    findJob (skipApply cfg st2 ids).jobs id = findJob st2.jobs id := by
  rw [findJob_skipApply]
  cases hf : findJob st2.jobs id with
  | none => rfl
  | some x =>
    have hx : x.review_id = id := findJob_some_id hf
    simp only [Option.map_some']
    rw [if_neg (hx ▸ h)]

theorem findJob_skipApply_mem (cfg : EmbCfg) (st2 : EmbState) (ids : List Nat)
    (id : Nat) (h : id ∈ ids) :
    findJob (skipApply cfg st2 ids).jobs id = (findJob st2.jobs id).map (skipRow cfg) := by
  rw [findJob_skipApply]
  cases hf : findJob st2.jobs id with
  | none => rfl
  | some x =>
    have hx : x.review_id = id := findJob_some_id hf
    simp only [Option.map_some']
    rw [if_pos (hx ▸ h)]

theorem findJob_flaggedApply_not_mem (cfg : EmbCfg) (st1 : EmbState) (ids : List Nat)
    (id : Nat) (h : id ∉ ids) :
    findJob (flaggedApply cfg st1 ids).jobs id = findJob st1.jobs id := by
  rw [findJob_flaggedApply]
  cases hf : findJob st1.jobs id with
  | none => rfl
  | some x =>
    have hx : x.review_id = id := findJob_some_id hf
    simp only [Option.map_some']
    rw [if_neg (hx ▸ h)]

theorem findJob_flaggedApply_mem (cfg : EmbCfg) (st1 : EmbState) (ids : List Nat)
    (id : Nat) (h : id ∈ ids) :
    findJob (flaggedApply cfg st1 ids).jobs id =
      (findJob st1.jobs id).map (flaggedRow cfg) := by
  rw [findJob_flaggedApply]
  cases hf : findJob st1.jobs id with
  | none => rfl
  | some x =>
    have hx : x.review_id = id := findJob_some_id hf
    simp only [Option.map_some']
    rw [if_pos (hx ▸ h)]

/-- Shape of the run result when at least one job is picked. -/
theorem runEmbNF_picked_eq (cfg : EmbCfg) (st : EmbState)
    (hpe : (pickJobs cfg st).isEmpty = false) :
    (runEmbNF cfg st).2.picked = pickedIdsOf cfg st := by
  simp only [runEmbNF, pickedIdsOf, hpe, Bool.false_eq_true, if_false]
  split <;> rfl

/-- Shape of the run when every picked job is flagged. -/
theorem runEmbNF_eq_allFlagged (cfg : EmbCfg) (st : EmbState)
    (hpe : (pickJobs cfg st).isEmpty = false)
    (hae : (pickedActiveOf cfg st).isEmpty = true) :
    runEmbNF cfg st =
      (flaggedApply cfg
        { st with jobs := lockUpdate cfg st.jobs (pickedIdsOf cfg st) }
        (flaggedIdsOf cfg st),
       { ok := true, error := none, picked := pickedIdsOf cfg st,
         providerCalls := [], done := 0, skipped := 0, failed := 0 }) := by
  unfold pickedActiveOf at hae
  simp only [runEmbNF, pickedIdsOf, flaggedIdsOf, hpe, Bool.false_eq_true, if_false,
    hae, if_true]

/-- Shape of the run in the main branch (some picked job is unflagged). -/
theorem runEmbNF_eq_main (cfg : EmbCfg) (st : EmbState)
    (hpe : (pickJobs cfg st).isEmpty = false)
    (hae : (pickedActiveOf cfg st).isEmpty = false) :
    runEmbNF cfg st =
      ((runBatchesNF cfg
          (missingApply cfg
            (skipApply cfg
              (flaggedApply cfg
                { st with jobs := lockUpdate cfg st.jobs (pickedIdsOf cfg st) }
                (flaggedIdsOf cfg st))
              (skipIdsOf cfg st))
            (failListOf cfg st))
          (batchesOf cfg st)).1,
       { ok := true, error := none, picked := pickedIdsOf cfg st,
         providerCalls := (runBatchesNF cfg
            (missingApply cfg
              (skipApply cfg
                (flaggedApply cfg
                  { st with jobs := lockUpdate cfg st.jobs (pickedIdsOf cfg st) }
                  (flaggedIdsOf cfg st))
                (skipIdsOf cfg st))
              (failListOf cfg st))
            (batchesOf cfg st)).2.1,
         done := (runBatchesNF cfg
            (missingApply cfg
              (skipApply cfg
                (flaggedApply cfg
                  { st with jobs := lockUpdate cfg st.jobs (pickedIdsOf cfg st) }
                  (flaggedIdsOf cfg st))
                (skipIdsOf cfg st))
              (failListOf cfg st))
            (batchesOf cfg st)).2.2.1,
         skipped := (skipIdsOf cfg st).length,
         failed := (failListOf cfg st).length + (runBatchesNF cfg
            (missingApply cfg
              (skipApply cfg
                (flaggedApply cfg
                  { st with jobs := lockUpdate cfg st.jobs (pickedIdsOf cfg st) }
                  (flaggedIdsOf cfg st))
                (skipIdsOf cfg st))
              (failListOf cfg st))
            (batchesOf cfg st)).2.2.2 }) := by
  unfold pickedActiveOf at hae
  simp only [runEmbNF, pickedIdsOf, flaggedIdsOf, skipIdsOf, failListOf, batchesOf,
    needListOf, pickedActiveOf, embsAfterFlagged, hpe, hae, Bool.false_eq_true,
    if_false, classify_eq, flaggedApply_reviews, flaggedApply_embeddings]

/-! ### Per-job final-row characterization -/

theorem findJob_self {st : EmbState} (hnd : (st.jobs.map EmbJob.review_id).Nodup)
    {jp : EmbJob} (hj : jp ∈ st.jobs) : findJob st.jobs jp.review_id = some jp := by
  obtain ⟨x, hx, hxid⟩ := findJob_isSome_of_mem hj rfl
  have hxm : x ∈ st.jobs := by
    have := List.find?_eq_some.mp hx
    obtain ⟨-, as, bs, hsplit, -⟩ := this
    rw [hsplit]
    exact List.mem_append.mpr (Or.inr (List.mem_cons_self _ _))
  rw [hx]
  exact congrArg some (jobs_id_inj hnd hxm hj hxid)

theorem pickedActive_ids_nodup (cfg : EmbCfg) (st : EmbState)
    (hnd : (st.jobs.map EmbJob.review_id).Nodup) :
    ((pickedActiveOf cfg st).map EmbJob.review_id).Nodup :=
  ((List.filter_sublist _).map _).nodup (pickJobs_ids_nodup cfg st hnd)

theorem mem_pickedActive_mem_jobs (cfg : EmbCfg) (st : EmbState) {j : EmbJob}
    (hj : j ∈ pickedActiveOf cfg st) : j ∈ st.jobs :=
  (mem_pickJobs_sound cfg st j (List.mem_filter.mp hj).1).1

theorem needList_ids_nodup (cfg : EmbCfg) (st : EmbState)
    (hnd : (st.jobs.map EmbJob.review_id).Nodup) :
    ((needListOf cfg st).map NeedItem.review_id).Nodup :=
  (filterMap_ids_sublist _ _ (fun _ _ h => needItemOf_id h) _).nodup
    (pickedActive_ids_nodup cfg st hnd)

theorem failList_ids_nodup (cfg : EmbCfg) (st : EmbState)
    (hnd : (st.jobs.map EmbJob.review_id).Nodup) :
    ((failListOf cfg st).map FailItem.review_id).Nodup :=
  (filterMap_ids_sublist _ _ (fun _ _ h => failItemOf_id h) _).nodup
    (pickedActive_ids_nodup cfg st hnd)

theorem batches_flatten (cfg : EmbCfg) (st : EmbState) :
    (batchesOf cfg st).flatten = needListOf cfg st := by
  unfold batchesOf
  exact chunk_flatten _ _ (by decide)

theorem skipIdOf_some_others_none {hashFn : String → String}
    {reviews : List ReviewBody} {embs : List EmbRow} {j : EmbJob} {id : Nat}
    (h : skipIdOf hashFn reviews embs j = some id) :
    needItemOf hashFn reviews embs j = none ∧ failItemOf reviews j = none := by
  rcases classifyJob_total hashFn reviews embs j with ⟨x, hn, hs, hf⟩ | ⟨hs, hn, hf⟩ |
    ⟨f, hf, hn, hs⟩
  · rw [hs] at h; cases h
  · exact ⟨hn, hf⟩
  · rw [hs] at h; cases h

theorem needItemOf_some_others_none {hashFn : String → String}
    {reviews : List ReviewBody} {embs : List EmbRow} {j : EmbJob} {x : NeedItem}
    (h : needItemOf hashFn reviews embs j = some x) :
    skipIdOf hashFn reviews embs j = none ∧ failItemOf reviews j = none := by
  rcases classifyJob_total hashFn reviews embs j with ⟨y, hn, hs, hf⟩ | ⟨hs, hn, hf⟩ |
    ⟨f, hf, hn, hs⟩
  · exact ⟨hs, hf⟩
  · rw [hn] at h; cases h
  · rw [hn] at h; cases h

theorem failItemOf_some_others_none {hashFn : String → String}
    {reviews : List ReviewBody} {embs : List EmbRow} {j : EmbJob} {f : FailItem}
    (h : failItemOf reviews j = some f) :
    needItemOf hashFn reviews embs j = none ∧
      skipIdOf hashFn reviews embs j = none := by
  rcases classifyJob_total hashFn reviews embs j with ⟨y, hn, hs, hf⟩ | ⟨hs, hn, hf⟩ |
    ⟨g, hf, hn, hs⟩
  · rw [hf] at h; cases h
  · rw [hf] at h; cases h
  · exact ⟨hn, hs⟩

/-- If no active picked job has this review id, the run's three
classification lists avoid it entirely. -/
theorem not_active_not_classified (cfg : EmbCfg) (st : EmbState) {id : Nat}
    (h : ∀ j' ∈ pickedActiveOf cfg st, j'.review_id ≠ id) :
    id ∉ skipIdsOf cfg st ∧ (∀ it ∈ failListOf cfg st, it.review_id ≠ id) ∧
    (∀ b ∈ batchesOf cfg st, ∀ it ∈ b, it.review_id ≠ id) := by
  refine ⟨?_, ?_, ?_⟩
  · intro hmem
    obtain ⟨j', hj', hsk⟩ := List.mem_filterMap.mp hmem
    exact h j' hj' (skipIdOf_id hsk).symm
  · intro it hit heq
    obtain ⟨j', hj', hf⟩ := List.mem_filterMap.mp hit
    exact h j' hj' (by rw [← failItemOf_id hf, heq])
  · intro b hb it hit heq
    have hitneed : it ∈ needListOf cfg st := by
      have hm := List.mem_flatten.mpr ⟨b, hb, hit⟩
      rwa [batches_flatten] at hm
    obtain ⟨j', hj', hn⟩ := List.mem_filterMap.mp hitneed
    exact h j' hj' (by rw [← needItemOf_id hn, heq])

/-- For a job of the active set, any classified entry with its review id
comes from that job itself. -/
theorem active_entry_unique (cfg : EmbCfg) (st : EmbState)
    (hnd : (st.jobs.map EmbJob.review_id).Nodup)
    {jp : EmbJob} (hjp : jp ∈ pickedActiveOf cfg st)
    {j' : EmbJob} (hj' : j' ∈ pickedActiveOf cfg st)
    (heq : j'.review_id = jp.review_id) : j' = jp :=
  jobs_id_inj hnd (mem_pickedActive_mem_jobs cfg st hj')
    (mem_pickedActive_mem_jobs cfg st hjp) heq

/-- The row written by locking one picked job. -/
def lockedRow (cfg : EmbCfg) (x : EmbJob) : EmbJob :=
  { x with status := .processing, locked_at := some cfg.now,
           locked_by := some cfg.runner, updated_at := cfg.now }

theorem findJob_locked_self (cfg : EmbCfg) (st : EmbState)
    (hnd : (st.jobs.map EmbJob.review_id).Nodup)
    {jp : EmbJob} (hjp : jp ∈ pickJobs cfg st) :
    findJob (lockUpdate cfg st.jobs (pickedIdsOf cfg st)) jp.review_id =
      some (lockedRow cfg jp) := by
  obtain ⟨hjmem, hpick⟩ := mem_pickJobs_sound cfg st jp hjp
  rw [findJob_lockUpdate, findJob_self hnd hjmem]
  simp only [Option.map_some']
  rw [if_pos ⟨List.mem_map_of_mem _ hjp, ((jobPickable_iff _ _).mp hpick).1⟩]
  rfl

theorem st1_jobs_eq (cfg : EmbCfg) (st : EmbState) :
    ({ st with jobs := lockUpdate cfg st.jobs (pickedIdsOf cfg st) } : EmbState).jobs
      = lockUpdate cfg st.jobs (pickedIdsOf cfg st) := rfl

/-- Final job row of a flagged picked job: the `ai_flagged` done-row. -/
theorem runEmbNF_flagged_final (cfg : EmbCfg) (st : EmbState)
    (hnd : (st.jobs.map EmbJob.review_id).Nodup)
    {jp : EmbJob} (hjp : jp ∈ pickJobs cfg st)
    (hfl : isFlagged st.flags jp.review_id = true) :
    findJob (runEmbNF cfg st).1.jobs jp.review_id =
      some (flaggedRow cfg (lockedRow cfg jp)) := by
  have hpe : (pickJobs cfg st).isEmpty = false :=
    List.isEmpty_eq_false.mpr (List.ne_nil_of_mem hjp)
  have hid : jp.review_id ∈ pickedIdsOf cfg st := List.mem_map_of_mem _ hjp
  have hidf : jp.review_id ∈ flaggedIdsOf cfg st := List.mem_filter.mpr ⟨hid, hfl⟩
  have hnotact : ∀ j' ∈ pickedActiveOf cfg st, j'.review_id ≠ jp.review_id := by
    intro j' hj' heq
    have hj'p : j' ∈ pickJobs cfg st := (List.mem_filter.mp hj').1
    have hj'j : j' ∈ st.jobs := (mem_pickJobs_sound cfg st j' hj'p).1
    have hjj : jp ∈ st.jobs := (mem_pickJobs_sound cfg st jp hjp).1
    have : j' = jp := jobs_id_inj hnd hj'j hjj heq
    subst this
    have hb := (List.mem_filter.mp hj').2
    rw [hfl] at hb
    cases hb
  cases hae : (pickedActiveOf cfg st).isEmpty with
  | true =>
    rw [runEmbNF_eq_allFlagged cfg st hpe hae]
    rw [findJob_flaggedApply_mem _ _ _ _ hidf, st1_jobs_eq,
      findJob_locked_self cfg st hnd hjp]
    rfl
  | false =>
    obtain ⟨hskip, hfailn, hbatch⟩ := not_active_not_classified cfg st hnotact
    rw [runEmbNF_eq_main cfg st hpe hae]
    rw [runBatchesNF_jobs_not_mem cfg _ _ _ hbatch]
    rw [findJob_missingApply_not_mem _ _ _ _ hfailn]
    rw [findJob_skipApply_not_mem _ _ _ _ hskip]
    rw [findJob_flaggedApply_mem _ _ _ _ hidf, st1_jobs_eq,
      findJob_locked_self cfg st hnd hjp]
    rfl

/-- An unflagged picked job is in the active set. -/
theorem unflagged_mem_active (cfg : EmbCfg) (st : EmbState) {jp : EmbJob}
    (hjp : jp ∈ pickJobs cfg st) (hfl : isFlagged st.flags jp.review_id = false) :
    jp ∈ pickedActiveOf cfg st :=
  List.mem_filter.mpr ⟨hjp, by rw [hfl]; rfl⟩

/-- Final job row, provider calls and stored embedding for a hash-gated
(skip) job. -/
theorem runEmbNF_skip_final (cfg : EmbCfg) (st : EmbState)
    (hnd : (st.jobs.map EmbJob.review_id).Nodup)
    {jp : EmbJob} (hjp : jp ∈ pickJobs cfg st)
    (hfl : isFlagged st.flags jp.review_id = false)
    (hsk : skipIdOf cfg.hashFn st.reviews (embsAfterFlagged cfg st) jp =
      some jp.review_id) :
    findJob (runEmbNF cfg st).1.jobs jp.review_id =
      some (skipRow cfg (lockedRow cfg jp)) ∧
    (runEmbNF cfg st).2.providerCalls =
      (batchesOf cfg st).map (fun b => b.map NeedItem.review_id) ∧
    (∀ b ∈ batchesOf cfg st, ∀ it ∈ b, it.review_id ≠ jp.review_id) ∧
    findEmb (runEmbNF cfg st).1.embeddings jp.review_id =
      findEmb st.embeddings jp.review_id := by
  have hact : jp ∈ pickedActiveOf cfg st := unflagged_mem_active cfg st hjp hfl
  have hpe : (pickJobs cfg st).isEmpty = false :=
    List.isEmpty_eq_false.mpr (List.ne_nil_of_mem hjp)
  have hae : (pickedActiveOf cfg st).isEmpty = false :=
    List.isEmpty_eq_false.mpr (List.ne_nil_of_mem hact)
  have hnotflag : jp.review_id ∉ flaggedIdsOf cfg st := by
    intro hmem
    have := (List.mem_filter.mp hmem).2
    rw [hfl] at this
    cases this
  have hskmem : jp.review_id ∈ skipIdsOf cfg st :=
    List.mem_filterMap.mpr ⟨jp, hact, hsk⟩
  obtain ⟨hneednone, hfailnone⟩ := skipIdOf_some_others_none hsk
  have hfailn : ∀ it ∈ failListOf cfg st, it.review_id ≠ jp.review_id := by
    intro it hit heq
    obtain ⟨j', hj', hf⟩ := List.mem_filterMap.mp hit
    have : j' = jp := active_entry_unique cfg st hnd hact hj'
      (by rw [← failItemOf_id hf, heq])
    subst this
    rw [hfailnone] at hf
    cases hf
  have hbatch : ∀ b ∈ batchesOf cfg st, ∀ it ∈ b, it.review_id ≠ jp.review_id := by
    intro b hb it hit heq
    have hitneed : it ∈ needListOf cfg st := by
      have hm := List.mem_flatten.mpr ⟨b, hb, hit⟩
      rwa [batches_flatten] at hm
    obtain ⟨j', hj', hn⟩ := List.mem_filterMap.mp hitneed
    have : j' = jp := active_entry_unique cfg st hnd hact hj'
      (by rw [← needItemOf_id hn, heq])
    subst this
    rw [hneednone] at hn
    cases hn
  rw [runEmbNF_eq_main cfg st hpe hae]
  refine ⟨?_, ?_, hbatch, ?_⟩
  · rw [runBatchesNF_jobs_not_mem cfg _ _ _ hbatch]
    rw [findJob_missingApply_not_mem _ _ _ _ hfailn]
    rw [findJob_skipApply_mem _ _ _ _ hskmem]
    rw [findJob_flaggedApply_not_mem _ _ _ _ hnotflag, st1_jobs_eq,
      findJob_locked_self cfg st hnd hjp]
    rfl
  · exact runBatchesNF_calls cfg _ _
  · rw [runBatchesNF_embs_not_mem cfg _ _ _ hbatch]
    rw [missingApply_embeddings, skipApply_embeddings]
    rw [findEmb_flaggedApply_not_mem _ _ _ _ hnotflag]

/-- Final job row for a missing-body job. -/
theorem runEmbNF_missing_final (cfg : EmbCfg) (st : EmbState)
    (hnd : (st.jobs.map EmbJob.review_id).Nodup)
    {jp : EmbJob} {fitem : FailItem} (hjp : jp ∈ pickJobs cfg st)
    (hfl : isFlagged st.flags jp.review_id = false)
    (hms : failItemOf st.reviews jp = some fitem) :
    findJob (runEmbNF cfg st).1.jobs jp.review_id =
      some (missingRow cfg fitem (lockedRow cfg jp)) := by
  have hact : jp ∈ pickedActiveOf cfg st := unflagged_mem_active cfg st hjp hfl
  have hpe : (pickJobs cfg st).isEmpty = false :=
    List.isEmpty_eq_false.mpr (List.ne_nil_of_mem hjp)
  have hae : (pickedActiveOf cfg st).isEmpty = false :=
    List.isEmpty_eq_false.mpr (List.ne_nil_of_mem hact)
  have hnotflag : jp.review_id ∉ flaggedIdsOf cfg st := by
    intro hmem
    have := (List.mem_filter.mp hmem).2
    rw [hfl] at this
    cases this
  have hfmem : fitem ∈ failListOf cfg st := List.mem_filterMap.mpr ⟨jp, hact, hms⟩
  obtain ⟨hneednone, hskipnone⟩ :=
    @failItemOf_some_others_none cfg.hashFn _ (embsAfterFlagged cfg st) _ _ hms
  have hskipn : jp.review_id ∉ skipIdsOf cfg st := by
    intro hmem
    obtain ⟨j', hj', hskEq⟩ := List.mem_filterMap.mp hmem
    have : j' = jp := active_entry_unique cfg st hnd hact hj' (skipIdOf_id hskEq).symm
    subst this
    rw [hskipnone] at hskEq
    cases hskEq
  have hbatch : ∀ b ∈ batchesOf cfg st, ∀ it ∈ b, it.review_id ≠ jp.review_id := by
    intro b hb it hit heq
    have hitneed : it ∈ needListOf cfg st := by
      have hm := List.mem_flatten.mpr ⟨b, hb, hit⟩
      rwa [batches_flatten] at hm
    obtain ⟨j', hj', hn⟩ := List.mem_filterMap.mp hitneed
    have : j' = jp := active_entry_unique cfg st hnd hact hj'
      (by rw [← needItemOf_id hn, heq])
    subst this
    rw [hneednone] at hn
    cases hn
  have hfid : fitem.review_id = jp.review_id := failItemOf_id hms
  rw [runEmbNF_eq_main cfg st hpe hae]
  rw [runBatchesNF_jobs_not_mem cfg _ _ _ hbatch]
  rw [← hfid]
  rw [findJob_missingApply_mem cfg _ (failList_ids_nodup cfg st hnd) hfmem]
  rw [hfid]
  rw [findJob_skipApply_not_mem _ _ _ _ hskipn]
  rw [findJob_flaggedApply_not_mem _ _ _ _ hnotflag, st1_jobs_eq,
    findJob_locked_self cfg st hnd hjp]
  rfl

/-- Final job row for a `need` item in a given batch of the run. -/
theorem runEmbNF_need_final_b (cfg : EmbCfg) (st : EmbState)
    (hnd : (st.jobs.map EmbJob.review_id).Nodup)
    {jp : EmbJob} {item : NeedItem} {b : List NeedItem}
    (hjp : jp ∈ pickJobs cfg st)
    (hfl : isFlagged st.flags jp.review_id = false)
    (hneed : needItemOf cfg.hashFn st.reviews (embsAfterFlagged cfg st) jp =
      some item)
    (hb : b ∈ batchesOf cfg st) (hitem : item ∈ b) :
    findJob (runEmbNF cfg st).1.jobs jp.review_id =
      some ((match embedOutcome cfg b with
             | .inl _ => doneRow cfg item
             | .inr msg => failRow cfg msg item) (lockedRow cfg jp)) := by
  have hact : jp ∈ pickedActiveOf cfg st := unflagged_mem_active cfg st hjp hfl
  have hpe : (pickJobs cfg st).isEmpty = false :=
    List.isEmpty_eq_false.mpr (List.ne_nil_of_mem hjp)
  have hae : (pickedActiveOf cfg st).isEmpty = false :=
    List.isEmpty_eq_false.mpr (List.ne_nil_of_mem hact)
  have hnotflag : jp.review_id ∉ flaggedIdsOf cfg st := by
    intro hmem
    have := (List.mem_filter.mp hmem).2
    rw [hfl] at this
    cases this
  obtain ⟨hskipnone, hfailnone⟩ := needItemOf_some_others_none hneed
  have hskipn : jp.review_id ∉ skipIdsOf cfg st := by
    intro hmem
    obtain ⟨j', hj', hskEq⟩ := List.mem_filterMap.mp hmem
    have : j' = jp := active_entry_unique cfg st hnd hact hj' (skipIdOf_id hskEq).symm
    subst this
    rw [hskipnone] at hskEq
    cases hskEq
  have hfailn : ∀ it ∈ failListOf cfg st, it.review_id ≠ jp.review_id := by
    intro it hit heq
    obtain ⟨j', hj', hf⟩ := List.mem_filterMap.mp hit
    have : j' = jp := active_entry_unique cfg st hnd hact hj'
      (by rw [← failItemOf_id hf, heq])
    subst this
    rw [hfailnone] at hf
    cases hf
  have hndflat : (((batchesOf cfg st).flatten).map NeedItem.review_id).Nodup := by
    rw [batches_flatten]
    exact needList_ids_nodup cfg st hnd
  have hiid : item.review_id = jp.review_id := needItemOf_id hneed
  rw [runEmbNF_eq_main cfg st hpe hae]
  rw [← hiid]
  rw [runBatchesNF_jobs_mem cfg _ _ hndflat hb hitem]
  rw [hiid]
  rw [findJob_missingApply_not_mem _ _ _ _ hfailn]
  rw [findJob_skipApply_not_mem _ _ _ _ hskipn]
  rw [findJob_flaggedApply_not_mem _ _ _ _ hnotflag, st1_jobs_eq,
    findJob_locked_self cfg st hnd hjp]
  cases embedOutcome cfg b <;> rfl

/-! ### Claim theorems for the Embedding Runner -/

theorem storedHashOf_eq (embs : List EmbRow) (id : Nat) :
    storedHashOf embs id = (findEmb embs id).map (·.content_hash) := rfl

/-- C2 (amended): when every storage operation of the run succeeds, every
picked-up job ends the invocation in `done` or `failed` — including
provider failures, which are caught per batch.  (The unamended claim also
covered storage errors mid-run; those abort the run and can leave picked
jobs in `processing`, see the counterexample.) -/
theorem c2_amended_terminal_without_storage_errors (cfg : EmbCfg) (st : EmbState)
    (hnf : NoStorageFaults cfg.faults)
    (hnd : (st.jobs.map EmbJob.review_id).Nodup) :
    ∀ id ∈ (runCompanyEmbeddings cfg st).2.picked,
      ∃ j, jobOf (runCompanyEmbeddings cfg st).1 id = some j ∧
        (j.status = .done ∨ j.status = .failed) := by
  intro id hid
  rw [runCompanyEmbeddings_noFaults cfg st hnf] at hid ⊢
  have hpe : (pickJobs cfg st).isEmpty = false := by
    cases hpe : (pickJobs cfg st).isEmpty with
    | true =>
      exfalso
      have hnil : (runEmbNF cfg st).2.picked = [] := by
        simp only [runEmbNF, hpe, if_true]
      rw [hnil] at hid
      exact List.not_mem_nil id hid
    | false => rfl
  rw [runEmbNF_picked_eq cfg st hpe] at hid
  obtain ⟨jp, hjp, hjid⟩ := List.mem_map.mp hid
  subst hjid
  rw [jobOf_eq_findJob]
  cases hfl : isFlagged st.flags jp.review_id with
  | true => exact ⟨_, runEmbNF_flagged_final cfg st hnd hjp hfl, Or.inl rfl⟩
  | false =>
    rcases classifyJob_total cfg.hashFn st.reviews (embsAfterFlagged cfg st) jp with
      ⟨x, hn, -, -⟩ | ⟨hs, -, -⟩ | ⟨f, hf, -, -⟩
    · have hitem : x ∈ needListOf cfg st :=
        List.mem_filterMap.mpr ⟨jp, unflagged_mem_active cfg st hjp hfl, hn⟩
      have hflat : x ∈ (batchesOf cfg st).flatten := by
        rw [batches_flatten]; exact hitem
      obtain ⟨b, hb, hxb⟩ := List.mem_flatten.mp hflat
      refine ⟨_, runEmbNF_need_final_b cfg st hnd hjp hfl hn hb hxb, ?_⟩
      cases embedOutcome cfg b with
      | inl vecs => exact Or.inl rfl
      | inr msg => exact Or.inr rfl
    · exact ⟨_, (runEmbNF_skip_final cfg st hnd hjp hfl hs).1, Or.inl rfl⟩
    · exact ⟨_, runEmbNF_missing_final cfg st hnd hjp hfl hf, Or.inr rfl⟩

def c2wCfg : EmbCfg :=
  { now := 10000000, runner := "runner-a", model := "text-embedding-3-small",
    hashFn := fun s => s, embedFn := fun ts => .ok (ts.map fun _ => [1]),
    faults := noEmbFaults }

def c2wSt : EmbState :=
  { jobs := [⟨1, .queued, 0, none, none, none, 0⟩], reviews := [⟨1, "hello"⟩],
    flags := [], embeddings := [] }

/-- Witness for the amended C2 theorem at a concrete one-job run. -/
theorem c2_amended_witness :
    ∃ j, jobOf (runCompanyEmbeddings c2wCfg c2wSt).1 1 = some j ∧
      (j.status = .done ∨ j.status = .failed) :=
  c2_amended_terminal_without_storage_errors c2wCfg c2wSt noEmbFaults_ok
    (by decide) 1 (by decide)

/-- C10: both failure paths of the run (missing review body and
embedding-provider batch failure) write the job row with `locked_at = NULL`,
so a job the run marked `failed` satisfies the pickup predicate of any later
run, regardless of that run's clock — no 15-minute lease wait. -/
theorem c10_failed_jobs_immediately_pickable (cfg : EmbCfg) (st : EmbState)
    (hnf : NoStorageFaults cfg.faults)
    (hnd : (st.jobs.map EmbJob.review_id).Nodup) :
    ∀ id ∈ (runCompanyEmbeddings cfg st).2.picked,
      ∀ j, jobOf (runCompanyEmbeddings cfg st).1 id = some j → j.status = .failed →
        j.locked_at = none ∧ ∀ now2, jobPickable (staleBefore now2) j = true := by
  intro id hid j hj hst
  rw [runCompanyEmbeddings_noFaults cfg st hnf] at hid hj
  have hpe : (pickJobs cfg st).isEmpty = false := by
    cases hpe : (pickJobs cfg st).isEmpty with
    | true =>
      exfalso
      have hnil : (runEmbNF cfg st).2.picked = [] := by
        simp only [runEmbNF, hpe, if_true]
      rw [hnil] at hid
      exact List.not_mem_nil id hid
    | false => rfl
  rw [runEmbNF_picked_eq cfg st hpe] at hid
  obtain ⟨jp, hjp, hjid⟩ := List.mem_map.mp hid
  subst hjid
  rw [jobOf_eq_findJob] at hj
  cases hfl : isFlagged st.flags jp.review_id with
  | true =>
    have hrow := (runEmbNF_flagged_final cfg st hnd hjp hfl).symm.trans hj
    have hrow' := Option.some.inj hrow
    rw [← hrow'] at hst
    cases hst
  | false =>
    rcases classifyJob_total cfg.hashFn st.reviews (embsAfterFlagged cfg st) jp with
      ⟨x, hn, -, -⟩ | ⟨hs, -, -⟩ | ⟨f, hf, -, -⟩
    · have hitem : x ∈ needListOf cfg st :=
        List.mem_filterMap.mpr ⟨jp, unflagged_mem_active cfg st hjp hfl, hn⟩
      have hflat : x ∈ (batchesOf cfg st).flatten := by
        rw [batches_flatten]; exact hitem
      obtain ⟨b, hb, hxb⟩ := List.mem_flatten.mp hflat
      have hrow := (runEmbNF_need_final_b cfg st hnd hjp hfl hn hb hxb).symm.trans hj
      have hrow' := Option.some.inj hrow
      cases ho : embedOutcome cfg b with
      | inl vecs =>
        rw [ho] at hrow'
        rw [← hrow'] at hst
        cases hst
      | inr msg =>
        rw [ho] at hrow'
        rw [← hrow']
        exact ⟨rfl, fun now2 => rfl⟩
    · have hrow := ((runEmbNF_skip_final cfg st hnd hjp hfl hs).1).symm.trans hj
      have hrow' := Option.some.inj hrow
      rw [← hrow'] at hst
      cases hst
    · have hrow := (runEmbNF_missing_final cfg st hnd hjp hfl hf).symm.trans hj
      have hrow' := Option.some.inj hrow
      rw [← hrow']
      exact ⟨rfl, fun now2 => rfl⟩

def c10wCfg : EmbCfg :=
  { now := 10000000, runner := "runner-a", model := "text-embedding-3-small",
    hashFn := fun s => s, embedFn := fun _ => .error "provider down",
    faults := noEmbFaults }

def c10wSt : EmbState :=
  { jobs := [⟨1, .queued, 0, none, none, none, 0⟩], reviews := [⟨1, "hello"⟩],
    flags := [], embeddings := [] }

/-- Witness for C10: a one-job run whose only batch fails leaves the job
`failed`, unlocked and pickable at time 0. -/
theorem c10_witness :
    (⟨1, .failed, 1, some "provider down", none, some "runner-a",
        10000000⟩ : EmbJob).locked_at = none ∧
      ∀ now2, jobPickable (staleBefore now2)
        ⟨1, .failed, 1, some "provider down", none, some "runner-a", 10000000⟩
          = true :=
  c10_failed_jobs_immediately_pickable c10wCfg c10wSt noEmbFaults_ok (by decide)
    1 (by decide) _ (by decide) (by decide)

/-- C8: when the provider call for one batch fails and another batch's call
succeeds, exactly the failing batch's jobs are marked `failed` with that
call's error message and `attempt_count` incremented, while the succeeding
batch's jobs are marked `done` with `attempt_count` incremented and
`last_error` cleared. -/
theorem c8_batch_failure_isolation (cfg : EmbCfg) (st : EmbState)
    (hnf : NoStorageFaults cfg.faults)
    (hnd : (st.jobs.map EmbJob.review_id).Nodup)
    {i : Nat} (hi : i < (batchesOf cfg st).length) {msg : String}
    (hbad : embedOutcome cfg ((batchesOf cfg st).get ⟨i, hi⟩) = .inr msg) :
    (∀ it ∈ (batchesOf cfg st).get ⟨i, hi⟩,
      ∃ j, jobOf (runCompanyEmbeddings cfg st).1 it.review_id = some j ∧
        j.status = .failed ∧ j.last_error = some msg ∧
        j.attempt_count = it.attempt_count + 1) ∧
    (∀ k, (hk : k < (batchesOf cfg st).length) →
      ∀ vecs, embedOutcome cfg ((batchesOf cfg st).get ⟨k, hk⟩) = .inl vecs →
      ∀ it ∈ (batchesOf cfg st).get ⟨k, hk⟩,
        ∃ j, jobOf (runCompanyEmbeddings cfg st).1 it.review_id = some j ∧
          j.status = .done ∧ j.last_error = none ∧
          j.attempt_count = it.attempt_count + 1) := by
  have main : ∀ (b : List NeedItem), b ∈ batchesOf cfg st → ∀ it ∈ b,
      ∃ jp, jp ∈ pickJobs cfg st ∧ it.review_id = jp.review_id ∧
        findJob (runEmbNF cfg st).1.jobs jp.review_id =
          some ((match embedOutcome cfg b with
                 | .inl _ => doneRow cfg it
                 | .inr m => failRow cfg m it) (lockedRow cfg jp)) := by
    intro b hb it hit
    have hitneed : it ∈ needListOf cfg st := by
      have hm := List.mem_flatten.mpr ⟨b, hb, hit⟩
      rwa [batches_flatten] at hm
    obtain ⟨jp, hact, hn⟩ := List.mem_filterMap.mp hitneed
    have hjp : jp ∈ pickJobs cfg st := (List.mem_filter.mp hact).1
    have hfl : isFlagged st.flags jp.review_id = false := by
      have hbool := (List.mem_filter.mp hact).2
      cases hflc : isFlagged st.flags jp.review_id
      · rfl
      · rw [hflc] at hbool; cases hbool
    exact ⟨jp, hjp, needItemOf_id hn,
      runEmbNF_need_final_b cfg st hnd hjp hfl hn hb hit⟩
  rw [runCompanyEmbeddings_noFaults cfg st hnf]
  constructor
  · intro it hit
    obtain ⟨jp, hjp, hid, hrow⟩ :=
      main _ (List.get_mem _ i hi) it hit
    rw [hbad] at hrow
    rw [jobOf_eq_findJob, hid, hrow]
    exact ⟨_, rfl, rfl, rfl, rfl⟩
  · intro k hk vecs hok it hit
    obtain ⟨jp, hjp, hid, hrow⟩ :=
      main _ (List.get_mem _ k hk) it hit
    rw [hok] at hrow
    rw [jobOf_eq_findJob, hid, hrow]
    exact ⟨_, rfl, rfl, rfl, rfl⟩

def c8wCfg : EmbCfg :=
  { now := 10000000, runner := "runner-a", model := "text-embedding-3-small",
    hashFn := fun s => s, embedFn := fun _ => .error "boom",
    faults := noEmbFaults }

def c8wSt : EmbState :=
  { jobs := [⟨1, .queued, 0, none, none, none, 0⟩], reviews := [⟨1, "hello"⟩],
    flags := [], embeddings := [] }

/-- Witness for C8: a run whose single batch's provider call fails marks its
job `failed` with the provider's message and `attempt_count` 1. -/
theorem c8_witness :
    ∃ j, jobOf (runCompanyEmbeddings c8wCfg c8wSt).1
        (⟨1, "hello", "hello", 0⟩ : NeedItem).review_id = some j ∧
      j.status = .failed ∧ j.last_error = some "boom" ∧
      j.attempt_count = (⟨1, "hello", "hello", 0⟩ : NeedItem).attempt_count + 1 :=
  (@c8_batch_failure_isolation c8wCfg c8wSt noEmbFaults_ok (by decide)
      0 (by decide) "boom" (by decide)).1 ⟨1, "hello", "hello", 0⟩ (by decide)

/-- C4 (amended): for a picked-up, unflagged job whose body is non-blank
(non-empty after trimming) and whose stored embedding hash equals the digest
of the current body, the run marks the job `done` with `last_error` cleared
and `attempt_count` untouched, sends the review to no provider call, and
leaves the stored embedding row unchanged.  (The unamended claim required
only a non-empty body; a whitespace-only body takes the missing-body
failure path instead, see the counterexample.) -/
theorem c4_amended_hash_gate_skip (cfg : EmbCfg) (st : EmbState)
    (hnf : NoStorageFaults cfg.faults)
    (hnd : (st.jobs.map EmbJob.review_id).Nodup)
    {jp : EmbJob} (body : String)
    (hjp : jp ∈ pickJobs cfg st)
    (hfl : isFlagged st.flags jp.review_id = false)
    (hb : bodyOf st.reviews jp.review_id = some body)
    (hnb : trimS body ≠ "")
    (hhash : storedHashOf st.embeddings jp.review_id = some (some (cfg.hashFn body)))
    (hne : cfg.hashFn body ≠ "") :
    (∃ j, jobOf (runCompanyEmbeddings cfg st).1 jp.review_id = some j ∧
      j.status = .done ∧ j.last_error = none ∧
      j.attempt_count = jp.attempt_count) ∧
    (∀ c ∈ (runCompanyEmbeddings cfg st).2.providerCalls, jp.review_id ∉ c) ∧
    embOf (runCompanyEmbeddings cfg st).1 jp.review_id = embOf st jp.review_id := by
  have hnotflag : jp.review_id ∉ flaggedIdsOf cfg st := by
    intro hmem
    have := (List.mem_filter.mp hmem).2
    rw [hfl] at this
    cases this
  have hsh2 : storedHashOf (embsAfterFlagged cfg st) jp.review_id =
      some (some (cfg.hashFn body)) := by
    rw [storedHashOf_eq]
    unfold embsAfterFlagged
    rw [findEmb_delete_not_mem _ _ _ hnotflag]
    rw [← storedHashOf_eq]
    exact hhash
  have hsk : skipIdOf cfg.hashFn st.reviews (embsAfterFlagged cfg st) jp =
      some jp.review_id := by
    unfold skipIdOf
    rw [hb]
    show (if trimS body = "" then none
      else if hashMatches (storedHashOf (embsAfterFlagged cfg st) jp.review_id)
          (cfg.hashFn body) = true then some jp.review_id
        else none) = some jp.review_id
    rw [if_neg hnb]
    rw [if_pos (by
      rw [hsh2]
      unfold hashMatches
      simp [hne])]
  obtain ⟨hrow, hcalls, hnotneed, hembs⟩ :=
    runEmbNF_skip_final cfg st hnd hjp hfl hsk
  rw [runCompanyEmbeddings_noFaults cfg st hnf]
  refine ⟨⟨_, hrow, rfl, rfl, rfl⟩, ?_, hembs⟩
  intro c hc hmemc
  rw [hcalls] at hc
  obtain ⟨b, hbmem, hceq⟩ := List.mem_map.mp hc
  rw [← hceq] at hmemc
  obtain ⟨it, hitb, hitid⟩ := List.mem_map.mp hmemc
  exact hnotneed b hbmem it hitb hitid

def c4wCfg : EmbCfg :=
  { now := 10000000, runner := "runner-a", model := "text-embedding-3-small",
    hashFn := fun s => s, embedFn := fun ts => .ok (ts.map fun _ => [1]),
    faults := noEmbFaults }

def c4wSt : EmbState :=
  { jobs := [⟨1, .queued, 0, none, none, none, 0⟩], reviews := [⟨1, "hello"⟩],
    flags := [],
    embeddings := [⟨1, [2], "text-embedding-3-small", some "hello", 0⟩] }

/-- Witness for the amended C4 theorem at a concrete one-job run whose
stored hash matches the body digest. -/
theorem c4_amended_witness :
    (∃ j, jobOf (runCompanyEmbeddings c4wCfg c4wSt).1
        (⟨1, .queued, 0, none, none, none, 0⟩ : EmbJob).review_id = some j ∧
      j.status = .done ∧ j.last_error = none ∧
      j.attempt_count = (⟨1, .queued, 0, none, none, none, 0⟩ : EmbJob).attempt_count) ∧
    (∀ c ∈ (runCompanyEmbeddings c4wCfg c4wSt).2.providerCalls,
      (⟨1, .queued, 0, none, none, none, 0⟩ : EmbJob).review_id ∉ c) ∧
    embOf (runCompanyEmbeddings c4wCfg c4wSt).1
        (⟨1, .queued, 0, none, none, none, 0⟩ : EmbJob).review_id =
      embOf c4wSt (⟨1, .queued, 0, none, none, none, 0⟩ : EmbJob).review_id :=
  c4_amended_hash_gate_skip c4wCfg c4wSt noEmbFaults_ok (by decide) "hello"
    (by decide) (by decide) (by decide) (by decide) (by decide) (by decide)

/-- Faults for the C2 counterexample: the `company_review_ai_flags` fetch
errors (source line 1586), after the picked jobs were already locked. -/
def c2Faults : EmbFaults := { noEmbFaults with fetchFlags := some "flags fetch failed" }

def c2Cfg : EmbCfg :=
  { now := 10000000, runner := "runner-a", model := "text-embedding-3-small",
    hashFn := fun s => s, embedFn := fun ts => .ok (ts.map fun _ => [1]),
    faults := c2Faults }

def c2St : EmbState :=
  { jobs := [⟨1, .queued, 0, none, none, none, 0⟩], reviews := [⟨1, "hello"⟩],
    flags := [], embeddings := [] }

/-- C2 counterexample: when the flags fetch errors after the lease
acquisition, the run returns early (HTTP 500) and the picked-up job 1 is
left in `processing` — neither `done` nor `failed`.  So the claim's
"including storage errors mid-run" part is false on the code. -/
theorem c2_storage_error_leaves_job_processing :
    1 ∈ (runCompanyEmbeddings c2Cfg c2St).2.picked ∧
    (jobOf (runCompanyEmbeddings c2Cfg c2St).1 1).map EmbJob.status =
      some JobStatus.processing := by
  decide

def c3Cfg : EmbCfg :=
  { now := 10000000, runner := "runner-a", model := "text-embedding-3-small",
    hashFn := fun s => s, embedFn := fun ts => .ok (ts.map fun _ => [1]),
    faults := noEmbFaults }

/-- One job left `processing` by a crashed runner, with a lease far older
than the staleness threshold. -/
def c3St : EmbState :=
  { jobs := [⟨1, .processing, 0, none, some 0, some "crashed-runner", 0⟩],
    reviews := [], flags := [], embeddings := [] }

/-- C3 counterexample: the job pickup query filters
`status in ('queued','failed')`, so a `processing` job is never selected,
even when its `locked_at` (here 0) is far older than the staleness
threshold.  The claimed lease-expiry recovery does not exist in this code. -/
theorem c3_stale_processing_job_not_selected :
    c3St.jobs.map EmbJob.status = [JobStatus.processing] ∧
    (0 < staleBefore c3Cfg.now) ∧
    pickJobs c3Cfg c3St = [] ∧
    (runCompanyEmbeddings c3Cfg c3St).2.picked = [] := by
  decide

def c4Cfg : EmbCfg :=
  { now := 10000000, runner := "runner-a", model := "text-embedding-3-small",
    hashFn := fun _ => "h", embedFn := fun ts => .ok (ts.map fun _ => [1]),
    faults := noEmbFaults }

/-- A picked-up, unflagged job whose review body is the non-empty string
`" "` and whose stored embedding hash equals the digest of that body. -/
def c4St : EmbState :=
  { jobs := [⟨1, .queued, 0, none, none, none, 0⟩], reviews := [⟨1, " "⟩],
    flags := [], embeddings := [⟨1, [2], "text-embedding-3-small", some "h", 0⟩] }

/-- C3 (amended): eligibility for pickup is
`status in ('queued','failed')` and a null-or-stale `locked_at`.  A job in
`processing` is never selected, regardless of how stale its lease is; and
whenever at most `MAX_JOBS_PER_RUN` jobs match the predicate, every
matching job is selected. -/
theorem c3_amended_selection_characterization (cfg : EmbCfg) (st : EmbState) :
    (∀ j ∈ pickJobs cfg st, j ∈ st.jobs ∧
      (j.status = .queued ∨ j.status = .failed) ∧
      (j.locked_at = none ∨ ∃ t, j.locked_at = some t ∧ t < staleBefore cfg.now)) ∧
    (∀ j, j.status = .processing → j ∉ pickJobs cfg st) ∧
    ((st.jobs.filter (jobPickable (staleBefore cfg.now))).length ≤ MAX_JOBS_PER_RUN →
      ∀ j ∈ st.jobs, jobPickable (staleBefore cfg.now) j = true →
        j ∈ pickJobs cfg st) := by
  refine ⟨?_, ?_, ?_⟩
  · intro j hj
    obtain ⟨hmem, hp⟩ := mem_pickJobs_sound cfg st j hj
    exact ⟨hmem, (jobPickable_iff _ j).mp hp⟩
  · intro j hst hj
    obtain ⟨_, hp⟩ := mem_pickJobs_sound cfg st j hj
    rcases ((jobPickable_iff _ j).mp hp).1 with h | h <;> rw [hst] at h <;> cases h
  · intro hlen j hj hp
    have hmemf : j ∈ st.jobs.filter (jobPickable (staleBefore cfg.now)) :=
      List.mem_filter.mpr ⟨hj, hp⟩
    have hmems : j ∈ sortJobsByUpdated (st.jobs.filter (jobPickable (staleBefore cfg.now))) :=
      (sortJobsByUpdated_perm _).mem_iff.mpr hmemf
    have hlen2 : (sortJobsByUpdated (st.jobs.filter (jobPickable (staleBefore cfg.now)))).length
        ≤ MAX_JOBS_PER_RUN := by
      rw [(sortJobsByUpdated_perm _).length_eq]; exact hlen
    unfold pickJobs
    rw [List.take_of_length_le hlen2]
    exact hmems

/-- A state with one queued, unlocked job for the C3 witness. -/
def c3wSt : EmbState :=
  { jobs := [⟨7, .queued, 0, none, none, none, 5⟩], reviews := [], flags := [],
    embeddings := [] }

/-- Witness for the amended C3 theorem: the queued, unlocked job 7 is
selected. -/
theorem c3_amended_witness :
    (⟨7, .queued, 0, none, none, none, 5⟩ : EmbJob) ∈ pickJobs c3Cfg c3wSt :=
  (c3_amended_selection_characterization c3Cfg c3wSt).2.2 (by decide) _ (by decide)
    (by decide)

/-- C4 counterexample: the body `" "` is non-empty and its stored
content hash matches the digest of the current body, yet the run marks the
job `failed` (missing-body path: the code tests `body.trim().length === 0`),
not `done` as the claim states. -/
theorem c4_whitespace_body_fails_despite_hash_match :
    (" " ≠ "") ∧
    storedHashOf c4St.embeddings 1 = some (some (c4Cfg.hashFn " ")) ∧
    isFlagged c4St.flags 1 = false ∧
    1 ∈ (runCompanyEmbeddings c4Cfg c4St).2.picked ∧
    (jobOf (runCompanyEmbeddings c4Cfg c4St).1 1).map EmbJob.status =
      some JobStatus.failed := by
  decide

end CompanyEmbeddings

/-! ## Company Rollup Runner
(`src/apps/review-page/app/api/review-ask/route.ts`, company-rollups POST) -/

namespace CompanyRollups

def MAX_ROLLUPS_PER_RUN : Nat := 15

def MAX_REVIEWS_PER_ROLLUP_FOR_STATS : Nat := 5000

def MAX_NEW_REVIEWS_FOR_SUMMARY : Nat := 30

def MAX_BODY_CHARS_FOR_SUMMARY : Nat := 1200

/-- `normalizeBodyForSummary` (route.ts lines 1896–1899): trim, collapse
whitespace, cap at `MAX_BODY_CHARS_FOR_SUMMARY` characters with an
ellipsis. -/
def normalizeBodyForSummary (body : String) : String :=
  let t := trimCollapse body
  if t.length ≤ MAX_BODY_CHARS_FOR_SUMMARY then t
  else ⟨t.data.take MAX_BODY_CHARS_FOR_SUMMARY⟩ ++ "…"

/-- `normalizeSummaryForEmbedding` (lines 1901–1903). -/
def normalizeSummaryForEmbedding (s : String) : String := trimCollapse s

/-- Review outcome (`'offer' | 'rejected' | 'other'`). -/
inductive Outcome
  | offer
  | rejected
  | othr
  deriving Repr, DecidableEq

/-- The aggregation key `(university_id, faculty, company_id)`. -/
abbrev CrKey := Nat × Nat × Nat

/-- A `company_reviews` row as the rollup runner reads it;
`ai_flagged` is the `company_review_ai_flags(ai_flagged)` join projection. -/
structure CompanyReview where
  id : Nat
  key : CrKey
  created_at : Nat
  outcome : Outcome
  body_main : String
  ai_flagged : Bool
  deriving Repr, DecidableEq

/-- A `company_rollups` row. -/
structure CompanyRollup where
  key : CrKey
  review_count : Nat
  count_offer : Nat
  count_rejected : Nat
  count_other : Nat
  summary_1000 : String
  last_processed_review_id : Option Nat
  is_dirty : Bool
  updated_at : Nat
  deriving Repr, DecidableEq

/-- A `company_rollup_embeddings` row (nullable vector). -/
structure RollupEmb where
  key : CrKey
  embedding : Option (List Int)
  model : String
  content_hash : String
  deriving Repr, DecidableEq

/-- The storage touched by one company-rollups run. -/
structure RollupState where
  reviews : List CompanyReview
  rollups : List CompanyRollup
  rembeds : List RollupEmb
  deriving Repr, DecidableEq

/-- Injectable faults, one per checked Supabase operation; the per-key
operations are indexed by the rollup key.  `keep` is the catch handler's own
`is_dirty = true` update (line 2300). -/
structure RollupFaults where
  fetchDirty : Option String
  fetchReviews : CrKey → Option String
  resetUpd : CrKey → Option String
  statsUpd : CrKey → Option String
  fetchBodies : CrKey → Option String
  sumUpd : CrKey → Option String
  clearUpd : CrKey → Option String
  embSel : CrKey → Option String
  embUp : CrKey → Option String
  keep : CrKey → Option String

/-- Configuration: clock, runner identity, models, SHA-256 capability,
summarization capability (`responses.create`) and rollup-embedding
capability (`embeddings.create`). -/
structure RollupCfg where
  now : Nat
  runner : String
  summaryModel : String
  rollupEmbeddingModel : String
  hashFn : String → String
  summarizeFn : String → List String → Except String String
  embedFn : String → Except String (List Int)
  faults : RollupFaults

/-- Stable insertion sort by `created_at` ascending
(`.order('created_at', { ascending: true })`). -/
def insertByCreated (r : CompanyReview) : List CompanyReview → List CompanyReview
  | [] => [r]
  | x :: xs =>
    if r.created_at ≤ x.created_at then r :: x :: xs else x :: insertByCreated r xs

def sortByCreated (l : List CompanyReview) : List CompanyReview :=
  l.foldr insertByCreated []

/-- The stats fetch (lines 2037–2044): all reviews of the key, ordered by
`created_at`, limited to `MAX_REVIEWS_PER_ROLLUP_FOR_STATS`. -/
def fetchKeyReviews (reviews : List CompanyReview) (k : CrKey) : List CompanyReview :=
  (sortByCreated (reviews.filter fun r => decide (r.key = k))).take
    MAX_REVIEWS_PER_ROLLUP_FOR_STATS

/-- The `rows` value (lines 2048–2061): the fetched reviews that carry no
active moderation flag. -/
def nonFlaggedRowsOf (reviews : List CompanyReview) (k : CrKey) : List CompanyReview :=
  (fetchKeyReviews reviews k).filter fun r => !r.ai_flagged

/-- Stable insertion sort of rollups by `updated_at` ascending. -/
def insertRollupByUpdated (r : CompanyRollup) :
    List CompanyRollup → List CompanyRollup
  | [] => [r]
  | x :: xs =>
    if r.updated_at ≤ x.updated_at then r :: x :: xs
    else x :: insertRollupByUpdated r xs

def sortRollupsByUpdated (l : List CompanyRollup) : List CompanyRollup :=
  l.foldr insertRollupByUpdated []

/-- The dirty-rollup pickup (lines 1982–1987): `is_dirty = true`, ordered by
`updated_at` ascending, limited to `MAX_ROLLUPS_PER_RUN`. -/
def selectRollups (cfg : RollupCfg) (st : RollupState) : List CompanyRollup :=
  (sortRollupsByUpdated (st.rollups.filter (·.is_dirty))).take MAX_ROLLUPS_PER_RUN

def rollupOf (st : RollupState) (k : CrKey) : Option CompanyRollup :=
  st.rollups.find? fun x => decide (x.key = k)

def rembOf (st : RollupState) (k : CrKey) : Option RollupEmb :=
  st.rembeds.find? fun e => decide (e.key = k)

/-- Key-targeted rollup-row update (`update(...).eq(...).eq(...).eq(...)`). -/
def updRollup (st : RollupState) (k : CrKey) (f : CompanyRollup → CompanyRollup) :
    RollupState :=
  { st with rollups := st.rollups.map fun x => if x.key = k then f x else x }

/-- Upsert of a `company_rollup_embeddings` row
(`onConflict: 'university_id,faculty,company_id'`). -/
def upsertRemb (st : RollupState) (row : RollupEmb) : RollupState :=
  { st with rembeds :=
      if st.rembeds.any (fun e => decide (e.key = row.key)) then
        st.rembeds.map fun e => if e.key = row.key then row else e
      else st.rembeds ++ [row] }

/-- The empty-key reset row (lines 2064–2078). -/
def resetUpdRow (cfg : RollupCfg) (x : CompanyRollup) : CompanyRollup :=
  { x with review_count := 0, count_offer := 0, count_rejected := 0,
           count_other := 0, summary_1000 := "", last_processed_review_id := none,
           is_dirty := false, updated_at := cfg.now }

/-- The stats update (lines 2103–2114). -/
def statsUpdRow (cfg : RollupCfg) (count countOffer countRejected countOther : Nat)
    (x : CompanyRollup) : CompanyRollup :=
  { x with review_count := count, count_offer := countOffer,
           count_rejected := countRejected, count_other := countOther,
           updated_at := cfg.now }

/-- The summary update (lines 2189–2199). -/
def sumUpdRow (cfg : RollupCfg) (finalSummary : String) (latestId : Nat)
    (x : CompanyRollup) : CompanyRollup :=
  { x with summary_1000 := finalSummary, last_processed_review_id := some latestId,
           is_dirty := false, updated_at := cfg.now }

/-- The cursor-only update of the empty-new-set branch (lines 2206–2215). -/
def clearUpdRow (cfg : RollupCfg) (latestId : Nat) (x : CompanyRollup) :
    CompanyRollup :=
  { x with last_processed_review_id := some latestId, is_dirty := false,
           updated_at := cfg.now }

/-- The catch handler's re-mark (lines 2300–2305). -/
def keepDirtyRow (cfg : RollupCfg) (x : CompanyRollup) : CompanyRollup :=
  { x with is_dirty := true, updated_at := cfg.now }

/-- `rows[rows.length - 1].id` (line 2160; the rows are non-empty wherever
this is read). -/
def latestIdOf (rows : List CompanyReview) : Nat :=
  (rows.getLast?.map (·.id)).getD 0

/-- The `newIds` computation (lines 2122–2137): reviews strictly after the
cursor in the fetched order (all rows when the cursor is null or not found),
then capped to the last `MAX_NEW_REVIEWS_FOR_SUMMARY`. -/
def newIdsOf (rows : List CompanyReview) (cursor : Option Nat) : List Nat :=
  let newIds0 :=
    match cursor with
    | some c =>
      if rows.any (fun x => decide (x.id = c)) then
        (rows.drop ((rows.findIdx fun x => decide (x.id = c)) + 1)).map (·.id)
      else rows.map (·.id)
    | none => rows.map (·.id)
  if newIds0.length > MAX_NEW_REVIEWS_FOR_SUMMARY then
    newIds0.drop (newIds0.length - MAX_NEW_REVIEWS_FOR_SUMMARY)
  else newIds0

/-- `bodyMap.get` of the rollup runner (lines 2139–2151). -/
def rollupBodyOf (reviews : List CompanyReview) (id : Nat) : Option String :=
  (reviews.find? fun rev => decide (rev.id = id)).map (·.body_main)

/-- The `newBodies` computation (lines 2153–2156). -/
def newBodiesOf (reviews : List CompanyReview) (newIds : List Nat) : List String :=
  (((newIds.filterMap (rollupBodyOf reviews)).filter
    fun x => decide (trimS x ≠ "")).map normalizeBodyForSummary)

/-- SPEC-SIDE definition (not from the code), following the spec's words for
the new-review set: "everything strictly after `last_processed_review_id` in
creation-time order (or all rows, if the cursor is null or not found in the
current set)", "cap the new-review set to the most recent K (e.g. 30)".
Compared against the code's `newIdsOf` in the C5 refinement theorem. -/
def specNewReviewIds (rows : List CompanyReview) (cursor : Option Nat) : List Nat :=
  let ids := rows.map (·.id)
  let afterCursor :=
    match cursor with
    | none => ids
    | some c =>
      if c ∈ ids then (ids.dropWhile fun i => decide (i ≠ c)).drop 1 else ids
  if afterCursor.length ≤ MAX_NEW_REVIEWS_FOR_SUMMARY then afterCursor
  else afterCursor.drop (afterCursor.length - MAX_NEW_REVIEWS_FOR_SUMMARY)

/-- Net effect of one key's processing on its rollup row and embedding row,
plus the observable result fields. -/
structure KeyPlan where
  upd : CompanyRollup → CompanyRollup
  remb : Option (Option (List Int) × String)
  ok : Bool
  err : Option String
  stats_updated : Bool
  summary_updated : Bool
  remb_updated : Bool
  summarize_calls : List (String × List String)
  embed_calls : List String

/-- An error plan: the row updates applied before the throw, plus the
caught message. -/
def errPlan (e : String) (upd : CompanyRollup → CompanyRollup)
    (statsUpdated summaryUpdated : Bool) (calls : List (String × List String))
    (ecalls : List String) : KeyPlan :=
  { upd := upd, remb := none, ok := false, err := some e,
    stats_updated := statsUpdated, summary_updated := summaryUpdated,
    remb_updated := false, summarize_calls := calls, embed_calls := ecalls }

/-- The rollup-embedding refresh (lines 2222–2290), as the pending upsert
`(embedding, content_hash)`, the `rollup_embedding_updated` flag and the
provider-call log — or the caught error with its log. -/
def embedRefresh (cfg : RollupCfg) (k : CrKey) (current : Option RollupEmb)
    (finalSummary : String) :
    Sum (Option (Option (List Int) × String) × Bool × List String)
      (String × List String) :=
  let normalizedSummary := normalizeSummaryForEmbedding finalSummary
  let summaryHash := cfg.hashFn normalizedSummary
  match cfg.faults.embSel k with
  | some e => .inr (e, [])
  | none =>
    let needsEmbedding :=
      match current with
      | none => true
      | some cur => decide (cur.content_hash ≠ summaryHash)
    if needsEmbedding then
      if normalizedSummary = "" then
        match cfg.faults.embUp k with
        | some e => .inr (e, [])
        | none => .inl (some (none, summaryHash), true, [])
      else
        match cfg.embedFn normalizedSummary with
        | .error e => .inr (e, [normalizedSummary])
        | .ok vec =>
          match cfg.faults.embUp k with
          | some e => .inr (e, [normalizedSummary])
          | none => .inl (some (some vec, summaryHash), true, [normalizedSummary])
    else .inl (none, false, [])

/-- The per-key try block (lines 2036–2292): stats recompute (with the
empty-key reset), incremental summary update, and rollup-embedding refresh,
with every throw collapsed into an error plan carrying the updates already
applied. -/
def keyPlanTry (cfg : RollupCfg) (reviews : List CompanyReview)
    (current : Option RollupEmb) (r : CompanyRollup) : KeyPlan :=
  match cfg.faults.fetchReviews r.key with
  | some e => errPlan e id false false [] []
  | none =>
    let rows := nonFlaggedRowsOf reviews r.key
    if rows = [] then
      match cfg.faults.resetUpd r.key with
      | some e => errPlan e id false false [] []
      | none =>
        { upd := resetUpdRow cfg, remb := none, ok := true, err := none,
          stats_updated := true, summary_updated := true, remb_updated := false,
          summarize_calls := [], embed_calls := [] }
    else
      match cfg.faults.statsUpd r.key with
      | some e => errPlan e id false false [] []
      | none =>
        let count := rows.length
        let countOffer := (rows.filter fun row => decide (row.outcome = .offer)).length
        let countRejected :=
          (rows.filter fun row => decide (row.outcome = .rejected)).length
        let countOther := (rows.filter fun row => decide (row.outcome = .othr)).length
        let upd1 := statsUpdRow cfg count countOffer countRejected countOther
        let newIds := newIdsOf rows r.last_processed_review_id
        match cfg.faults.fetchBodies r.key with
        | some e => errPlan e upd1 true false [] []
        | none =>
          let newBodies := newBodiesOf reviews newIds
          let prevSummary := trimS r.summary_1000
          let latestId := latestIdOf rows
          if newBodies.isEmpty then
            match cfg.faults.clearUpd r.key with
            | some e => errPlan e upd1 true false [] []
            | none =>
              match embedRefresh cfg r.key current prevSummary with
              | .inr ec => errPlan ec.1 (fun x => clearUpdRow cfg latestId (upd1 x))
                  true false [] ec.2
              | .inl res =>
                { upd := fun x => clearUpdRow cfg latestId (upd1 x), remb := res.1,
                  ok := true, err := none, stats_updated := true,
                  summary_updated := false, remb_updated := res.2.1,
                  summarize_calls := [], embed_calls := res.2.2 }
          else
            match cfg.summarizeFn prevSummary newBodies with
            | .error e => errPlan e upd1 true false [(prevSummary, newBodies)] []
            | .ok outText =>
              let finalSummary := trimS outText
              match cfg.faults.sumUpd r.key with
              | some e => errPlan e upd1 true false [(prevSummary, newBodies)] []
              | none =>
                match embedRefresh cfg r.key current finalSummary with
                | .inr ec =>
                  errPlan ec.1 (fun x => sumUpdRow cfg finalSummary latestId (upd1 x))
                    true true [(prevSummary, newBodies)] ec.2
                | .inl res =>
                  { upd := fun x => sumUpdRow cfg finalSummary latestId (upd1 x),
                    remb := res.1, ok := true, err := none, stats_updated := true,
                    summary_updated := true, remb_updated := res.2.1,
                    summarize_calls := [(prevSummary, newBodies)],
                    embed_calls := res.2.2 }

/-- The observable per-key result of the run (`perRollup` entries). -/
structure KeyResult where
  key : CrKey
  ok : Bool
  errors : List String
  stats_updated : Bool
  summary_updated : Bool
  rollup_embedding_updated : Bool
  kept_dirty : Bool
  summarize_calls : List (String × List String)
  embed_calls : List String
  deriving Repr, DecidableEq

def keepFailMsg : String := "keep_dirty_update_failed"

/-- The composite rollup-row update a key's iteration performs: the try
block's updates, composed with the catch handler's re-mark when the try
block threw and the re-mark update itself succeeds. -/
def planUpd (cfg : RollupCfg) (k : CrKey) (p : KeyPlan) :
    CompanyRollup → CompanyRollup :=
  if p.ok then p.upd
  else
    match cfg.faults.keep k with
    | some _ => p.upd
    | none => fun x => keepDirtyRow cfg (p.upd x)

/-- The `company_rollup_embeddings` row a key's iteration upserts, if any. -/
def planRembWrite (cfg : RollupCfg) (k : CrKey) (p : KeyPlan) : Option RollupEmb :=
  if p.ok then
    p.remb.map fun payload => ⟨k, payload.1, cfg.rollupEmbeddingModel, payload.2⟩
  else none

/-- Apply a key plan to the state. -/
def applyPlanState (cfg : RollupCfg) (st : RollupState) (k : CrKey) (p : KeyPlan) :
    RollupState :=
  let st1 := updRollup st k (planUpd cfg k p)
  match planRembWrite cfg k p with
  | none => st1
  | some row => upsertRemb st1 row

/-- The `perRollup` entry a key plan produces. -/
def mkKeyResult (cfg : RollupCfg) (k : CrKey) (p : KeyPlan) : KeyResult :=
  if p.ok then
    { key := k, ok := true, errors := [], stats_updated := p.stats_updated,
      summary_updated := p.summary_updated,
      rollup_embedding_updated := p.remb_updated, kept_dirty := false,
      summarize_calls := p.summarize_calls, embed_calls := p.embed_calls }
  else
    match cfg.faults.keep k with
    | some _ =>
      { key := k, ok := false, errors := [p.err.getD "", keepFailMsg],
        stats_updated := p.stats_updated, summary_updated := p.summary_updated,
        rollup_embedding_updated := p.remb_updated, kept_dirty := true,
        summarize_calls := p.summarize_calls, embed_calls := p.embed_calls }
    | none =>
      { key := k, ok := false, errors := [p.err.getD ""],
        stats_updated := p.stats_updated, summary_updated := p.summary_updated,
        rollup_embedding_updated := p.remb_updated, kept_dirty := true,
        summarize_calls := p.summarize_calls, embed_calls := p.embed_calls }

/-- One iteration of the per-key loop (lines 2021–2316): run the try block,
apply its row updates, and on an exception re-mark the key dirty (recording
a second error when that update itself fails). -/
def processKey (cfg : RollupCfg) (st : RollupState) (r : CompanyRollup) :
    RollupState × KeyResult :=
  let p := keyPlanTry cfg st.reviews (rembOf st r.key) r
  (applyPlanState cfg st r.key p, mkKeyResult cfg r.key p)

/-- The per-key loop over the selected dirty rollups. -/
def runLoop (cfg : RollupCfg) : RollupState → List CompanyRollup →
    RollupState × List KeyResult
  | st, [] => (st, [])
  | st, r :: rest =>
    let pr := processKey cfg st r
    let out := runLoop cfg pr.1 rest
    (out.1, pr.2 :: out.2)

/-- The run result. -/
structure RollupRunOut where
  ok : Bool
  error : Option String
  results : List KeyResult
  deriving Repr, DecidableEq

/-- One invocation of the company Rollup Runner (POST, lines 1967–2335),
after authentication. -/
def runCompanyRollups (cfg : RollupCfg) (st : RollupState) :
    RollupState × RollupRunOut :=
  match cfg.faults.fetchDirty with
  | some e => (st, { ok := false, error := some e, results := [] })
  | none =>
    let lr := runLoop cfg st (selectRollups cfg st)
    (lr.1, { ok := true, error := none, results := lr.2 })

/-- The result entry for a key. -/
def resultFor (results : List KeyResult) (k : CrKey) : Option KeyResult :=
  results.find? fun kr => decide (kr.key = k)

def noRollupFaults : RollupFaults :=
  { fetchDirty := none, fetchReviews := fun _ => none, resetUpd := fun _ => none,
    statsUpd := fun _ => none, fetchBodies := fun _ => none,
    sumUpd := fun _ => none, clearUpd := fun _ => none, embSel := fun _ => none,
    embUp := fun _ => none, keep := fun _ => none }

theorem updRollup_reviews (st : RollupState) (k : CrKey)
    (f : CompanyRollup → CompanyRollup) : (updRollup st k f).reviews = st.reviews :=
  rfl

theorem rembOf_updRollup (st : RollupState) (k : CrKey)
    (f : CompanyRollup → CompanyRollup) (k' : CrKey) :
    rembOf (updRollup st k f) k' = rembOf st k' :=
  rfl

theorem rollupOf_upsertRemb (st : RollupState) (row : RollupEmb) (k : CrKey) :
    rollupOf (upsertRemb st row) k = rollupOf st k :=
  rfl

theorem upsertRemb_reviews (st : RollupState) (row : RollupEmb) :
    (upsertRemb st row).reviews = st.reviews :=
  rfl

theorem find?_map_upd_self (k : CrKey) (f : CompanyRollup → CompanyRollup)
    (hf : ∀ x, (f x).key = x.key) (l : List CompanyRollup) :
    ((l.map fun x => if x.key = k then f x else x).find?
        fun x => decide (x.key = k)) =
      (l.find? fun x => decide (x.key = k)).map f := by
  induction l with
  | nil => rfl
  | cons x t ih =>
    by_cases hx : x.key = k
    · simp [List.find?_cons, hx, hf x]
    · simp [List.find?_cons, hx, ih]

theorem find?_map_upd_ne (k : CrKey) (f : CompanyRollup → CompanyRollup)
    (k' : CrKey) (hne : k' ≠ k) (hf : ∀ x, (f x).key = x.key)
    (l : List CompanyRollup) :
    ((l.map fun x => if x.key = k then f x else x).find?
        fun x => decide (x.key = k')) =
      l.find? fun x => decide (x.key = k') := by
  induction l with
  | nil => rfl
  | cons x t ih =>
    by_cases hx : x.key = k
    · have h1 : ¬ (k = k') := fun h => hne h.symm
      have h2 : ¬ (x.key = k') := by rw [hx]; exact h1
      have h3 : ¬ ((f x).key = k') := by rw [hf x, hx]; exact h1
      simp [List.find?_cons, hx, h1, h2, h3, ih]
    · by_cases hx' : x.key = k'
      · simp [List.find?_cons, hx, hx', hne]
      · simp [List.find?_cons, hx, hx', ih]

theorem rollupOf_updRollup_self (st : RollupState) (k : CrKey)
    (f : CompanyRollup → CompanyRollup) (hf : ∀ x, (f x).key = x.key) :
    rollupOf (updRollup st k f) k = (rollupOf st k).map f :=
  find?_map_upd_self k f hf st.rollups

theorem rollupOf_updRollup_ne (st : RollupState) (k : CrKey)
    (f : CompanyRollup → CompanyRollup) (k' : CrKey) (hne : k' ≠ k)
    (hf : ∀ x, (f x).key = x.key) :
    rollupOf (updRollup st k f) k' = rollupOf st k' :=
  find?_map_upd_ne k f k' hne hf st.rollups

theorem find?_map_replace_self (row : RollupEmb) :
    ∀ l : List RollupEmb, l.any (fun e => decide (e.key = row.key)) = true →
    ((l.map fun e => if e.key = row.key then row else e).find?
        fun e => decide (e.key = row.key)) = some row := by
  intro l
  induction l with
  | nil => intro h; simp at h
  | cons e t ih =>
    intro hany
    by_cases he : e.key = row.key
    · simp [List.find?_cons, he]
    · have ht : t.any (fun e => decide (e.key = row.key)) = true := by
        simpa [List.any_cons, he] using hany
      simp [List.find?_cons, he, ih ht]

theorem find?_append_single_self (row : RollupEmb) :
    ∀ l : List RollupEmb, l.any (fun e => decide (e.key = row.key)) = false →
    ((l ++ [row]).find? fun e => decide (e.key = row.key)) = some row := by
  intro l
  induction l with
  | nil => intro _; simp [List.find?_cons]
  | cons e t ih =>
    intro hany
    have he : ¬ e.key = row.key := by
      intro h
      simp [List.any_cons, h] at hany
    have ht : t.any (fun e => decide (e.key = row.key)) = false := by
      simpa [List.any_cons, he] using hany
    simp [List.find?_cons, he, ih ht]

theorem rembOf_upsertRemb_self (st : RollupState) (row : RollupEmb) :
    rembOf (upsertRemb st row) row.key = some row := by
  unfold rembOf upsertRemb
  by_cases hany : st.rembeds.any (fun e => decide (e.key = row.key)) = true
  · rw [if_pos hany]
    exact find?_map_replace_self row st.rembeds hany
  · rw [if_neg hany]
    exact find?_append_single_self row st.rembeds (by simpa using hany)

theorem find?_map_replace_ne (row : RollupEmb) (k' : CrKey)
    (hne : k' ≠ row.key) (l : List RollupEmb) :
    ((l.map fun e => if e.key = row.key then row else e).find?
        fun e => decide (e.key = k')) = l.find? fun e => decide (e.key = k') := by
  induction l with
  | nil => rfl
  | cons e t ih =>
    by_cases he : e.key = row.key
    · have h1 : ¬ (row.key = k') := fun h => hne h.symm
      have h2 : ¬ (e.key = k') := by rw [he]; exact h1
      simp [List.find?_cons, he, h1, h2, ih]
    · by_cases he' : e.key = k'
      · simp [List.find?_cons, he, he', hne]
      · simp [List.find?_cons, he, he', ih]

theorem find?_append_single_ne (row : RollupEmb) (k' : CrKey)
    (hne : k' ≠ row.key) (l : List RollupEmb) :
    ((l ++ [row]).find? fun e => decide (e.key = k')) =
      l.find? fun e => decide (e.key = k') := by
  induction l with
  | nil =>
    have h1 : ¬ (row.key = k') := fun h => hne h.symm
    simp [List.find?_cons, h1]
  | cons e t ih =>
    by_cases he' : e.key = k'
    · simp [List.find?_cons, he']
    · simp [List.find?_cons, he', ih]

theorem rembOf_upsertRemb_ne (st : RollupState) (row : RollupEmb) (k' : CrKey)
    (hne : k' ≠ row.key) :
    rembOf (upsertRemb st row) k' = rembOf st k' := by
  unfold rembOf upsertRemb
  by_cases hany : st.rembeds.any (fun e => decide (e.key = row.key)) = true
  · rw [if_pos hany]
    exact find?_map_replace_ne row k' hne st.rembeds
  · rw [if_neg hany]
    exact find?_append_single_ne row k' hne st.rembeds

theorem keyPlanTry_upd_key (cfg : RollupCfg) (reviews : List CompanyReview)
    (current : Option RollupEmb) (r : CompanyRollup) (x : CompanyRollup) :
    ((keyPlanTry cfg reviews current r).upd x).key = x.key := by
  unfold keyPlanTry
  dsimp only
  repeat' split
  all_goals first
  | rfl
  | simp [errPlan, resetUpdRow, statsUpdRow, sumUpdRow, clearUpdRow]

theorem planUpd_key (cfg : RollupCfg) (k : CrKey) (p : KeyPlan)
    (hp : ∀ x, (p.upd x).key = x.key) (x : CompanyRollup) :
    (planUpd cfg k p x).key = x.key := by
  unfold planUpd
  split
  · exact hp x
  · cases hk : cfg.faults.keep k
    · simp [keepDirtyRow, hp]
    · exact hp x

theorem planRembWrite_key (cfg : RollupCfg) (k : CrKey) (p : KeyPlan)
    (row : RollupEmb) (h : planRembWrite cfg k p = some row) : row.key = k := by
  unfold planRembWrite at h
  split at h
  · cases hr : p.remb with
    | none => rw [hr] at h; simp at h
    | some payload =>
      rw [hr] at h
      simp only [Option.map_some'] at h
      cases h
      rfl
  · simp at h

theorem applyPlanState_reviews (cfg : RollupCfg) (st : RollupState) (k : CrKey)
    (p : KeyPlan) : (applyPlanState cfg st k p).reviews = st.reviews := by
  unfold applyPlanState
  split <;> rfl

theorem applyPlanState_rollupOf_ne (cfg : RollupCfg) (st : RollupState)
    (k : CrKey) (p : KeyPlan) (hp : ∀ x, (p.upd x).key = x.key) (k' : CrKey)
    (hne : k' ≠ k) :
    rollupOf (applyPlanState cfg st k p) k' = rollupOf st k' := by
  unfold applyPlanState
  dsimp only
  split
  · exact rollupOf_updRollup_ne st k _ k' hne (planUpd_key cfg k p hp)
  · rw [rollupOf_upsertRemb]
    exact rollupOf_updRollup_ne st k _ k' hne (planUpd_key cfg k p hp)

theorem applyPlanState_rembOf_ne (cfg : RollupCfg) (st : RollupState)
    (k : CrKey) (p : KeyPlan) (k' : CrKey) (hne : k' ≠ k) :
    rembOf (applyPlanState cfg st k p) k' = rembOf st k' := by
  unfold applyPlanState
  dsimp only
  split
  · rfl
  · rename_i row hrow
    rw [rembOf_upsertRemb_ne _ row k'
      (by rw [planRembWrite_key cfg k p row hrow]; exact hne)]
    rfl

theorem applyPlanState_rollupOf_self (cfg : RollupCfg) (st : RollupState)
    (k : CrKey) (p : KeyPlan) (hp : ∀ x, (p.upd x).key = x.key) :
    rollupOf (applyPlanState cfg st k p) k =
      (rollupOf st k).map (planUpd cfg k p) := by
  unfold applyPlanState
  dsimp only
  split
  · exact rollupOf_updRollup_self st k _ (planUpd_key cfg k p hp)
  · rw [rollupOf_upsertRemb]
    exact rollupOf_updRollup_self st k _ (planUpd_key cfg k p hp)

theorem applyPlanState_rembOf_self (cfg : RollupCfg) (st : RollupState)
    (k : CrKey) (p : KeyPlan) :
    rembOf (applyPlanState cfg st k p) k =
      (match planRembWrite cfg k p with
       | some row => some row
       | none => rembOf st k) := by
  unfold applyPlanState
  dsimp only
  split
  · rename_i hnone
    rw [hnone]
    rfl
  · rename_i row hrow
    rw [hrow]
    have hk : row.key = k := planRembWrite_key cfg k p row hrow
    calc rembOf (upsertRemb (updRollup st k (planUpd cfg k p)) row) k
        = rembOf (upsertRemb (updRollup st k (planUpd cfg k p)) row) row.key := by
          rw [hk]
      _ = some row := rembOf_upsertRemb_self _ row

theorem processKey_fst (cfg : RollupCfg) (st : RollupState) (r : CompanyRollup) :
    (processKey cfg st r).1 =
      applyPlanState cfg st r.key (keyPlanTry cfg st.reviews (rembOf st r.key) r) :=
  rfl

theorem processKey_snd (cfg : RollupCfg) (st : RollupState) (r : CompanyRollup) :
    (processKey cfg st r).2 =
      mkKeyResult cfg r.key (keyPlanTry cfg st.reviews (rembOf st r.key) r) :=
  rfl

theorem mkKeyResult_key (cfg : RollupCfg) (k : CrKey) (p : KeyPlan) :
    (mkKeyResult cfg k p).key = k := by
  unfold mkKeyResult
  split
  · rfl
  · split <;> rfl

theorem mkKeyResult_ok (cfg : RollupCfg) (k : CrKey) (p : KeyPlan) :
    (mkKeyResult cfg k p).ok = p.ok := by
  unfold mkKeyResult
  split
  · rename_i h; exact h.symm
  · rename_i h
    have : p.ok = false := by
      cases hp : p.ok
      · rfl
      · exact absurd hp h
    split <;> rw [this]

theorem mkKeyResult_errors_ne_nil (cfg : RollupCfg) (k : CrKey) (p : KeyPlan)
    (h : p.ok = false) : (mkKeyResult cfg k p).errors ≠ [] := by
  unfold mkKeyResult
  rw [h]
  simp only [Bool.false_eq_true, if_false]
  split <;> simp

theorem mkKeyResult_summarize_calls (cfg : RollupCfg) (k : CrKey) (p : KeyPlan) :
    (mkKeyResult cfg k p).summarize_calls = p.summarize_calls := by
  unfold mkKeyResult
  split
  · rfl
  · split <;> rfl

theorem mkKeyResult_embed_calls (cfg : RollupCfg) (k : CrKey) (p : KeyPlan) :
    (mkKeyResult cfg k p).embed_calls = p.embed_calls := by
  unfold mkKeyResult
  split
  · rfl
  · split <;> rfl

theorem mkKeyResult_remb_updated (cfg : RollupCfg) (k : CrKey) (p : KeyPlan) :
    (mkKeyResult cfg k p).rollup_embedding_updated = p.remb_updated := by
  unfold mkKeyResult
  split
  · rfl
  · split <;> rfl

theorem processKey_reviews (cfg : RollupCfg) (st : RollupState)
    (r : CompanyRollup) : (processKey cfg st r).1.reviews = st.reviews :=
  applyPlanState_reviews cfg st r.key _

theorem processKey_rollupOf_ne (cfg : RollupCfg) (st : RollupState)
    (r : CompanyRollup) (k' : CrKey) (hne : k' ≠ r.key) :
    rollupOf (processKey cfg st r).1 k' = rollupOf st k' := by
  rw [processKey_fst]
  exact applyPlanState_rollupOf_ne cfg st r.key _
    (keyPlanTry_upd_key cfg st.reviews (rembOf st r.key) r) k' hne

theorem processKey_rembOf_ne (cfg : RollupCfg) (st : RollupState)
    (r : CompanyRollup) (k' : CrKey) (hne : k' ≠ r.key) :
    rembOf (processKey cfg st r).1 k' = rembOf st k' := by
  rw [processKey_fst]
  exact applyPlanState_rembOf_ne cfg st r.key _ k' hne

theorem processKey_rollupOf_self (cfg : RollupCfg) (st : RollupState)
    (r : CompanyRollup) :
    rollupOf (processKey cfg st r).1 r.key =
      (rollupOf st r.key).map
        (planUpd cfg r.key (keyPlanTry cfg st.reviews (rembOf st r.key) r)) := by
  rw [processKey_fst]
  exact applyPlanState_rollupOf_self cfg st r.key _
    (keyPlanTry_upd_key cfg st.reviews (rembOf st r.key) r)

theorem processKey_rembOf_self (cfg : RollupCfg) (st : RollupState)
    (r : CompanyRollup) :
    rembOf (processKey cfg st r).1 r.key =
      (match planRembWrite cfg r.key
          (keyPlanTry cfg st.reviews (rembOf st r.key) r) with
       | some row => some row
       | none => rembOf st r.key) := by
  rw [processKey_fst]
  exact applyPlanState_rembOf_self cfg st r.key _

theorem runLoop_cons (cfg : RollupCfg) (st : RollupState) (r : CompanyRollup)
    (rest : List CompanyRollup) :
    runLoop cfg st (r :: rest) =
      ((runLoop cfg (processKey cfg st r).1 rest).1,
        (processKey cfg st r).2 :: (runLoop cfg (processKey cfg st r).1 rest).2) :=
  rfl

theorem runLoop_reviews (cfg : RollupCfg) :
    ∀ (l : List CompanyRollup) (st : RollupState),
    (runLoop cfg st l).1.reviews = st.reviews := by
  intro l
  induction l with
  | nil => intro st; rfl
  | cons r rest ih =>
    intro st
    rw [runLoop_cons]
    dsimp only
    rw [ih, processKey_reviews]

theorem runLoop_rollupOf_frame (cfg : RollupCfg) :
    ∀ (l : List CompanyRollup) (st : RollupState) (k : CrKey),
    (∀ r ∈ l, r.key ≠ k) →
    rollupOf (runLoop cfg st l).1 k = rollupOf st k := by
  intro l
  induction l with
  | nil => intro st k _; rfl
  | cons r rest ih =>
    intro st k h
    rw [runLoop_cons]
    dsimp only
    rw [ih _ k fun r' hr' => h r' (List.mem_cons_of_mem r hr')]
    exact processKey_rollupOf_ne cfg st r k
      fun he => h r (List.mem_cons_self r rest) he.symm

theorem runLoop_rembOf_frame (cfg : RollupCfg) :
    ∀ (l : List CompanyRollup) (st : RollupState) (k : CrKey),
    (∀ r ∈ l, r.key ≠ k) →
    rembOf (runLoop cfg st l).1 k = rembOf st k := by
  intro l
  induction l with
  | nil => intro st k _; rfl
  | cons r rest ih =>
    intro st k h
    rw [runLoop_cons]
    dsimp only
    rw [ih _ k fun r' hr' => h r' (List.mem_cons_of_mem r hr')]
    exact processKey_rembOf_ne cfg st r k
      fun he => h r (List.mem_cons_self r rest) he.symm

theorem processKey_agree (cfg : RollupCfg) (st st0 : RollupState)
    (r : CompanyRollup) (hrev : st.reviews = st0.reviews)
    (hre : rembOf st r.key = rembOf st0 r.key)
    (hro : rollupOf st r.key = rollupOf st0 r.key) :
    (processKey cfg st r).2 = (processKey cfg st0 r).2 ∧
    rollupOf (processKey cfg st r).1 r.key =
      rollupOf (processKey cfg st0 r).1 r.key ∧
    rembOf (processKey cfg st r).1 r.key =
      rembOf (processKey cfg st0 r).1 r.key := by
  have hp : keyPlanTry cfg st.reviews (rembOf st r.key) r =
      keyPlanTry cfg st0.reviews (rembOf st0 r.key) r := by
    rw [hrev, hre]
  refine ⟨?_, ?_, ?_⟩
  · rw [processKey_snd, processKey_snd, hp]
  · rw [processKey_rollupOf_self, processKey_rollupOf_self, hp, hro]
  · rw [processKey_rembOf_self, processKey_rembOf_self, hp, hre]

/-- Loop isolation: when the selected keys are pairwise distinct, each key's
result and final rows equal those of processing that key alone against the
initial state — one key's outcome never affects a sibling's. -/
theorem runLoop_iso (cfg : RollupCfg) (st0 : RollupState) :
    ∀ (l : List CompanyRollup) (st : RollupState),
    (l.map (·.key)).Nodup →
    st.reviews = st0.reviews →
    (∀ r ∈ l, rollupOf st r.key = rollupOf st0 r.key ∧
      rembOf st r.key = rembOf st0 r.key) →
    (runLoop cfg st l).2 = l.map (fun r => (processKey cfg st0 r).2) ∧
    ∀ r ∈ l,
      rollupOf (runLoop cfg st l).1 r.key =
        rollupOf (processKey cfg st0 r).1 r.key ∧
      rembOf (runLoop cfg st l).1 r.key =
        rembOf (processKey cfg st0 r).1 r.key := by
  intro l
  induction l with
  | nil =>
    intro st _ _ _
    exact ⟨rfl, fun r hr => absurd hr (List.not_mem_nil r)⟩
  | cons r rest ih =>
    intro st hnd hrev hagree
    obtain ⟨hro, hre⟩ := hagree r (List.mem_cons_self r rest)
    have hcong := processKey_agree cfg st st0 r hrev hre hro
    simp only [List.map_cons, List.nodup_cons] at hnd
    have hhead : ∀ r' ∈ rest, r'.key ≠ r.key := by
      intro r' hr' heq
      exact hnd.1 (heq ▸ List.mem_map_of_mem (·.key) hr')
    have hrev1 : (processKey cfg st r).1.reviews = st0.reviews := by
      rw [processKey_reviews, hrev]
    have hagree1 : ∀ r' ∈ rest,
        rollupOf (processKey cfg st r).1 r'.key = rollupOf st0 r'.key ∧
        rembOf (processKey cfg st r).1 r'.key = rembOf st0 r'.key := by
      intro r' hr'
      have hne : r'.key ≠ r.key := hhead r' hr'
      exact ⟨by rw [processKey_rollupOf_ne cfg st r r'.key hne]
                exact (hagree r' (List.mem_cons_of_mem r hr')).1,
             by rw [processKey_rembOf_ne cfg st r r'.key hne]
                exact (hagree r' (List.mem_cons_of_mem r hr')).2⟩
    obtain ⟨ihres, ihstate⟩ := ih (processKey cfg st r).1 hnd.2 hrev1 hagree1
    constructor
    · rw [runLoop_cons]
      dsimp only
      rw [ihres, hcong.1, List.map_cons]
    · intro r' hr'
      rcases List.mem_cons.mp hr' with h | h
      · subst h
        rw [runLoop_cons]
        dsimp only
        constructor
        · rw [runLoop_rollupOf_frame cfg rest _ r'.key fun x hx => hhead x hx]
          exact hcong.2.1
        · rw [runLoop_rembOf_frame cfg rest _ r'.key fun x hx => hhead x hx]
          exact hcong.2.2
      · rw [runLoop_cons]
        dsimp only
        exact ihstate r' h

theorem insertRollupByUpdated_perm (r : CompanyRollup) (l : List CompanyRollup) :
    (insertRollupByUpdated r l).Perm (r :: l) := by
  induction l with
  | nil => exact List.Perm.refl _
  | cons x xs ih =>
    by_cases h : r.updated_at ≤ x.updated_at
    · simp only [insertRollupByUpdated, if_pos h]
      exact List.Perm.refl _
    · simp only [insertRollupByUpdated, if_neg h]
      exact (ih.cons x).trans (List.Perm.swap r x xs)

theorem sortRollupsByUpdated_perm (l : List CompanyRollup) :
    (sortRollupsByUpdated l).Perm l := by
  induction l with
  | nil => exact List.Perm.refl _
  | cons x xs ih =>
    exact (insertRollupByUpdated_perm x (sortRollupsByUpdated xs)).trans (ih.cons x)

theorem mem_selectRollups_sound (cfg : RollupCfg) (st : RollupState)
    (r : CompanyRollup) (hr : r ∈ selectRollups cfg st) :
    r ∈ st.rollups ∧ r.is_dirty = true := by
  have h1 : r ∈ sortRollupsByUpdated (st.rollups.filter (·.is_dirty)) :=
    List.mem_of_mem_take hr
  have h2 : r ∈ st.rollups.filter (·.is_dirty) :=
    (sortRollupsByUpdated_perm _).mem_iff.mp h1
  exact ⟨(List.mem_filter.mp h2).1, (List.mem_filter.mp h2).2⟩

theorem selectRollups_keys_nodup (cfg : RollupCfg) (st : RollupState)
    (hnd : (st.rollups.map (·.key)).Nodup) :
    ((selectRollups cfg st).map (·.key)).Nodup := by
  have h1 : ((st.rollups.filter (·.is_dirty)).map (·.key)).Nodup :=
    ((List.filter_sublist _).map _).nodup hnd
  have h2 : ((sortRollupsByUpdated (st.rollups.filter (·.is_dirty))).map
      (·.key)).Nodup :=
    (((sortRollupsByUpdated_perm _).map _).nodup_iff).mpr h1
  exact ((List.take_sublist _ _).map _).nodup h2

theorem find?_key_self :
    ∀ l : List CompanyRollup, (l.map (·.key)).Nodup →
    ∀ r ∈ l, (l.find? fun x => decide (x.key = r.key)) = some r := by
  intro l
  induction l with
  | nil => intro _ r hr; cases hr
  | cons x t ih =>
    intro hnd r hr
    simp only [List.map_cons, List.nodup_cons] at hnd
    rcases List.mem_cons.mp hr with h | h
    · subst h
      simp [List.find?_cons]
    · have hxk : ¬ (x.key = r.key) :=
        fun he => hnd.1 (he ▸ List.mem_map_of_mem (·.key) h)
      simp [List.find?_cons, hxk, ih hnd.2 r h]

theorem rollupOf_self (st : RollupState) (hnd : (st.rollups.map (·.key)).Nodup)
    (r : CompanyRollup) (hr : r ∈ st.rollups) :
    rollupOf st r.key = some r :=
  find?_key_self st.rollups hnd r hr

theorem runCompanyRollups_noFetchFault (cfg : RollupCfg) (st : RollupState)
    (hfd : cfg.faults.fetchDirty = none) :
    runCompanyRollups cfg st =
      ((runLoop cfg st (selectRollups cfg st)).1,
        { ok := true, error := none,
          results := (runLoop cfg st (selectRollups cfg st)).2 }) := by
  unfold runCompanyRollups
  rw [hfd]

/-- The three per-key isolation facts of a fault-free pickup, packaged. -/
theorem runCompanyRollups_per_key (cfg : RollupCfg) (st : RollupState)
    (hnd : (st.rollups.map (·.key)).Nodup)
    (hfd : cfg.faults.fetchDirty = none) (r : CompanyRollup)
    (hr : r ∈ selectRollups cfg st) :
    (runCompanyRollups cfg st).2.results =
      (selectRollups cfg st).map (fun r' => (processKey cfg st r').2) ∧
    rollupOf (runCompanyRollups cfg st).1 r.key =
      rollupOf (processKey cfg st r).1 r.key ∧
    rembOf (runCompanyRollups cfg st).1 r.key =
      rembOf (processKey cfg st r).1 r.key := by
  have hiso := runLoop_iso cfg st (selectRollups cfg st) st
    (selectRollups_keys_nodup cfg st hnd) rfl (fun _ _ => ⟨rfl, rfl⟩)
  rw [runCompanyRollups_noFetchFault cfg st hfd]
  exact ⟨hiso.1, (hiso.2 r hr).1, (hiso.2 r hr).2⟩

theorem keyPlanTry_ok_dirty (cfg : RollupCfg) (reviews : List CompanyReview)
    (current : Option RollupEmb) (r : CompanyRollup) (x : CompanyRollup) :
    (keyPlanTry cfg reviews current r).ok = true →
    ((keyPlanTry cfg reviews current r).upd x).is_dirty = false := by
  unfold keyPlanTry
  dsimp only
  repeat' split
  all_goals intro hok
  all_goals first
  | (simp only [errPlan] at hok; simp at hok)
  | simp [resetUpdRow, statsUpdRow, sumUpdRow, clearUpdRow]

theorem processKey_result_key (cfg : RollupCfg) (st : RollupState)
    (r : CompanyRollup) : (processKey cfg st r).2.key = r.key := by
  rw [processKey_snd]
  exact mkKeyResult_key cfg r.key _

theorem resultFor_map_self (cfg : RollupCfg) (st : RollupState) :
    ∀ sel : List CompanyRollup, (sel.map (·.key)).Nodup →
    ∀ r ∈ sel,
    resultFor (sel.map fun r' => (processKey cfg st r').2) r.key =
      some (processKey cfg st r).2 := by
  intro sel
  induction sel with
  | nil => intro _ r hr; cases hr
  | cons x t ih =>
    intro hnd r hr
    simp only [List.map_cons, List.nodup_cons] at hnd
    unfold resultFor
    rcases List.mem_cons.mp hr with h | h
    · subst h
      simp [List.find?_cons, processKey_result_key]
    · have hxk : ¬ (x.key = r.key) :=
        fun he => hnd.1 (he ▸ List.mem_map_of_mem (·.key) h)
      have := ih hnd.2 r h
      unfold resultFor at this
      simp [List.find?_cons, processKey_result_key, hxk, this]

/-- C1, amended: failure containment of the Rollup Runner per-key loop, under
the qualification that the catch handler's own re-mark update succeeds.  For
every selected dirty key: its per-key result and final rows equal those of
processing the key in isolation (sibling keys never interfere); if any
sub-step threw, the key ends `is_dirty = true` with a non-empty error list in
its result; and the key ends `is_dirty = false` exactly when all its
sub-steps succeeded. -/
theorem c1_failure_containment (cfg : RollupCfg) (st : RollupState)
    (r : CompanyRollup) (hnd : (st.rollups.map (·.key)).Nodup)
    (hfd : cfg.faults.fetchDirty = none) (hr : r ∈ selectRollups cfg st)
    (hkeep : cfg.faults.keep r.key = none) :
    resultFor (runCompanyRollups cfg st).2.results r.key =
      some (processKey cfg st r).2 ∧
    ((processKey cfg st r).2.ok = false →
      (rollupOf (runCompanyRollups cfg st).1 r.key).map (·.is_dirty) =
        some true ∧
      (processKey cfg st r).2.errors ≠ []) ∧
    ((processKey cfg st r).2.ok = true →
      (rollupOf (runCompanyRollups cfg st).1 r.key).map (·.is_dirty) =
        some false) ∧
    ((rollupOf (runCompanyRollups cfg st).1 r.key).map (·.is_dirty) =
        some false →
      (processKey cfg st r).2.ok = true) := by
  obtain ⟨hres, hrollup, hremb⟩ := runCompanyRollups_per_key cfg st hnd hfd r hr
  have hmem : r ∈ st.rollups := (mem_selectRollups_sound cfg st r hr).1
  have hself : rollupOf st r.key = some r := rollupOf_self st hnd r hmem
  have hfinal : rollupOf (runCompanyRollups cfg st).1 r.key =
      some (planUpd cfg r.key (keyPlanTry cfg st.reviews (rembOf st r.key) r) r) := by
    rw [hrollup, processKey_rollupOf_self, hself, Option.map_some']
  have hok_eq : (processKey cfg st r).2.ok =
      (keyPlanTry cfg st.reviews (rembOf st r.key) r).ok := by
    rw [processKey_snd]
    exact mkKeyResult_ok cfg r.key _
  have hresFor : resultFor (runCompanyRollups cfg st).2.results r.key =
      some (processKey cfg st r).2 := by
    rw [hres]
    exact resultFor_map_self cfg st (selectRollups cfg st)
      (selectRollups_keys_nodup cfg st hnd) r hr
  have hDtrue : (keyPlanTry cfg st.reviews (rembOf st r.key) r).ok = false →
      (rollupOf (runCompanyRollups cfg st).1 r.key).map (·.is_dirty) =
        some true := by
    intro hpok
    rw [hfinal, Option.map_some']
    unfold planUpd
    rw [hpok, hkeep]
    simp [keepDirtyRow]
  have hDfalse : (keyPlanTry cfg st.reviews (rembOf st r.key) r).ok = true →
      (rollupOf (runCompanyRollups cfg st).1 r.key).map (·.is_dirty) =
        some false := by
    intro hpok
    rw [hfinal, Option.map_some']
    unfold planUpd
    rw [if_pos hpok]
    rw [keyPlanTry_ok_dirty cfg st.reviews (rembOf st r.key) r r hpok]
  refine ⟨hresFor, ?_, ?_, ?_⟩
  · intro hok
    rw [hok_eq] at hok
    refine ⟨hDtrue hok, ?_⟩
    rw [processKey_snd]
    exact mkKeyResult_errors_ne_nil cfg r.key _ hok
  · intro hok
    rw [hok_eq] at hok
    exact hDfalse hok
  · intro hd
    rw [hok_eq]
    cases hpok : (keyPlanTry cfg st.reviews (rembOf st r.key) r).ok
    · rw [hDtrue hpok] at hd
      simp at hd
    · rfl

def c1Faults : RollupFaults :=
  { noRollupFaults with embUp := fun _ => some "embedding upsert failed",
                        keep := fun _ => some "keep-dirty update failed" }

def c1Cfg : RollupCfg :=
  { now := 100, runner := "r", summaryModel := "sm", rollupEmbeddingModel := "em",
    hashFn := id, summarizeFn := fun _ _ => .ok "S",
    embedFn := fun _ => .ok [1], faults := c1Faults }

def c1St : RollupState :=
  { reviews := [⟨1, (1, 1, 1), 1, .offer, "hello", false⟩],
    rollups := [⟨(1, 1, 1), 0, 0, 0, 0, "", none, true, 0⟩],
    rembeds := [] }

/-- C1, counterexample to the unqualified claim: the summary update clears
`is_dirty`, then the embedding upsert throws AND the catch handler's
re-mark update also fails.  A sub-step raised an exception, yet the key ends
the invocation with `is_dirty = false` (only the per-key result records the
two errors), so "any exception at any sub-step re-marks that key
`is_dirty = true`" does not hold when the re-mark itself fails. -/
theorem c1_double_fault_leaves_key_clean :
    (resultFor (runCompanyRollups c1Cfg c1St).2.results (1, 1, 1)).map (·.ok) =
      some false ∧
    (resultFor (runCompanyRollups c1Cfg c1St).2.results (1, 1, 1)).map
      (·.errors) = some ["embedding upsert failed", keepFailMsg] ∧
    (rollupOf (runCompanyRollups c1Cfg c1St).1 (1, 1, 1)).map (·.is_dirty) =
      some false := by decide

def c1wA : CompanyRollup := ⟨(1, 1, 1), 0, 0, 0, 0, "", none, true, 0⟩

def c1wB : CompanyRollup := ⟨(1, 1, 2), 0, 0, 0, 0, "", none, true, 1⟩

def c1wCfg : RollupCfg :=
  { now := 100, runner := "r", summaryModel := "sm", rollupEmbeddingModel := "em",
    hashFn := id,
    summarizeFn := fun _ bodies =>
      if bodies = ["a"] then .error "llm down" else .ok "SB",
    embedFn := fun _ => .ok [1], faults := noRollupFaults }

def c1wSt : RollupState :=
  { reviews := [⟨1, (1, 1, 1), 1, .offer, "a", false⟩,
                ⟨2, (1, 1, 2), 1, .rejected, "b", false⟩],
    rollups := [c1wA, c1wB], rembeds := [] }

/-- C1, witness: two dirty keys; the first key's summarization throws while
the second succeeds.  The failing key ends re-marked dirty with its error
recorded, and the sibling key is processed normally and ends clean. -/
theorem c1_witness :
    (rollupOf (runCompanyRollups c1wCfg c1wSt).1 c1wA.key).map (·.is_dirty) =
      some true ∧
    (processKey c1wCfg c1wSt c1wA).2.errors ≠ [] ∧
    (rollupOf (runCompanyRollups c1wCfg c1wSt).1 c1wB.key).map (·.is_dirty) =
      some false ∧
    resultFor (runCompanyRollups c1wCfg c1wSt).2.results c1wB.key =
      some (processKey c1wCfg c1wSt c1wB).2 := by
  have hA := c1_failure_containment c1wCfg c1wSt c1wA (by decide) rfl
    (by decide) rfl
  have hB := c1_failure_containment c1wCfg c1wSt c1wB (by decide) rfl
    (by decide) rfl
  have hAok : (processKey c1wCfg c1wSt c1wA).2.ok = false := by decide
  have hBok : (processKey c1wCfg c1wSt c1wB).2.ok = true := by decide
  exact ⟨(hA.2.1 hAok).1, (hA.2.1 hAok).2, hB.2.2.1 hBok, hB.1⟩

theorem planUpd_fields (cfg : RollupCfg) (k : CrKey) (p : KeyPlan)
    (x : CompanyRollup) :
    (planUpd cfg k p x).review_count = (p.upd x).review_count ∧
    (planUpd cfg k p x).count_offer = (p.upd x).count_offer ∧
    (planUpd cfg k p x).count_rejected = (p.upd x).count_rejected ∧
    (planUpd cfg k p x).count_other = (p.upd x).count_other ∧
    (planUpd cfg k p x).summary_1000 = (p.upd x).summary_1000 ∧
    (planUpd cfg k p x).last_processed_review_id =
      (p.upd x).last_processed_review_id := by
  unfold planUpd
  split
  · exact ⟨rfl, rfl, rfl, rfl, rfl, rfl⟩
  · cases hk : cfg.faults.keep k
    · simp [keepDirtyRow]
    · exact ⟨rfl, rfl, rfl, rfl, rfl, rfl⟩

theorem keyPlanTry_counts (cfg : RollupCfg) (reviews : List CompanyReview)
    (current : Option RollupEmb) (r : CompanyRollup) (x : CompanyRollup) :
    cfg.faults.fetchReviews r.key = none →
    cfg.faults.resetUpd r.key = none →
    cfg.faults.statsUpd r.key = none →
    ((keyPlanTry cfg reviews current r).upd x).review_count =
      (nonFlaggedRowsOf reviews r.key).length ∧
    ((keyPlanTry cfg reviews current r).upd x).count_offer =
      ((nonFlaggedRowsOf reviews r.key).filter
        fun row => decide (row.outcome = .offer)).length ∧
    ((keyPlanTry cfg reviews current r).upd x).count_rejected =
      ((nonFlaggedRowsOf reviews r.key).filter
        fun row => decide (row.outcome = .rejected)).length ∧
    ((keyPlanTry cfg reviews current r).upd x).count_other =
      ((nonFlaggedRowsOf reviews r.key).filter
        fun row => decide (row.outcome = .othr)).length ∧
    (nonFlaggedRowsOf reviews r.key = [] →
      (keyPlanTry cfg reviews current r).upd = resetUpdRow cfg ∧
      (keyPlanTry cfg reviews current r).ok = true) := by
  unfold keyPlanTry
  dsimp only
  repeat' split
  all_goals intro h1 h2 h3
  all_goals simp_all [errPlan, resetUpdRow, statsUpdRow, sumUpdRow, clearUpdRow]

theorem outcome_partition (rows : List CompanyReview) :
    (rows.filter fun row => decide (row.outcome = .offer)).length +
      (rows.filter fun row => decide (row.outcome = .rejected)).length +
      (rows.filter fun row => decide (row.outcome = .othr)).length =
      rows.length := by
  induction rows with
  | nil => rfl
  | cons r t ih =>
    cases h : r.outcome <;> simp [List.filter_cons, h] <;> omega

/-- C6: after a Rollup Runner pass over a selected dirty key whose stats
phase succeeds, the key's row carries `review_count` equal to exactly the
number of its non-flagged reviews (within the 5000-row scan), and the three
sub-counts partition exactly those non-flagged reviews by outcome — flagged
reviews contribute to no count; if zero non-flagged reviews remain, the row
is the full reset (all counts 0, empty summary, null cursor, clean).  This
holds whatever happens in the later summary/embedding steps. -/
theorem c6_stats_exact (cfg : RollupCfg) (st : RollupState) (r : CompanyRollup)
    (hnd : (st.rollups.map (·.key)).Nodup)
    (hfd : cfg.faults.fetchDirty = none) (hr : r ∈ selectRollups cfg st)
    (hfetch : cfg.faults.fetchReviews r.key = none)
    (hreset : cfg.faults.resetUpd r.key = none)
    (hstats : cfg.faults.statsUpd r.key = none) :
    ∃ x, rollupOf (runCompanyRollups cfg st).1 r.key = some x ∧
      x.review_count = (nonFlaggedRowsOf st.reviews r.key).length ∧
      x.count_offer = ((nonFlaggedRowsOf st.reviews r.key).filter
        fun row => decide (row.outcome = .offer)).length ∧
      x.count_rejected = ((nonFlaggedRowsOf st.reviews r.key).filter
        fun row => decide (row.outcome = .rejected)).length ∧
      x.count_other = ((nonFlaggedRowsOf st.reviews r.key).filter
        fun row => decide (row.outcome = .othr)).length ∧
      x.count_offer + x.count_rejected + x.count_other = x.review_count ∧
      (nonFlaggedRowsOf st.reviews r.key = [] →
        x = resetUpdRow cfg r ∧ x.is_dirty = false) := by
  obtain ⟨hres, hrollup, hremb⟩ := runCompanyRollups_per_key cfg st hnd hfd r hr
  have hself : rollupOf st r.key = some r :=
    rollupOf_self st hnd r (mem_selectRollups_sound cfg st r hr).1
  have hfinal : rollupOf (runCompanyRollups cfg st).1 r.key =
      some (planUpd cfg r.key (keyPlanTry cfg st.reviews (rembOf st r.key) r) r) := by
    rw [hrollup, processKey_rollupOf_self, hself, Option.map_some']
  obtain ⟨hc1, hc2, hc3, hc4, hreset0⟩ :=
    keyPlanTry_counts cfg st.reviews (rembOf st r.key) r r hfetch hreset hstats
  obtain ⟨hf1, hf2, hf3, hf4, _, _⟩ :=
    planUpd_fields cfg r.key (keyPlanTry cfg st.reviews (rembOf st r.key) r) r
  refine ⟨_, hfinal, ?_, ?_, ?_, ?_, ?_, ?_⟩
  · rw [hf1, hc1]
  · rw [hf2, hc2]
  · rw [hf3, hc3]
  · rw [hf4, hc4]
  · rw [hf1, hc1, hf2, hc2, hf3, hc3, hf4, hc4]
    exact outcome_partition (nonFlaggedRowsOf st.reviews r.key)
  · intro hnil
    obtain ⟨hupd, hok⟩ := hreset0 hnil
    have hplan : planUpd cfg r.key
        (keyPlanTry cfg st.reviews (rembOf st r.key) r) r = resetUpdRow cfg r := by
      unfold planUpd
      rw [if_pos hok, hupd]
    rw [hplan]
    exact ⟨rfl, rfl⟩

def c6wR : CompanyRollup := ⟨(1, 1, 1), 0, 0, 0, 0, "", none, true, 0⟩

def c6wCfg : RollupCfg :=
  { now := 100, runner := "r", summaryModel := "sm", rollupEmbeddingModel := "em",
    hashFn := id, summarizeFn := fun _ _ => .ok "S",
    embedFn := fun _ => .ok [1], faults := noRollupFaults }

def c6wSt : RollupState :=
  { reviews := [⟨1, (1, 1, 1), 1, .offer, "a", false⟩,
                ⟨2, (1, 1, 1), 2, .rejected, "b", false⟩,
                ⟨3, (1, 1, 1), 3, .othr, "c", false⟩,
                ⟨4, (1, 1, 1), 4, .offer, "d", true⟩,
                ⟨5, (1, 1, 1), 5, .rejected, "e", true⟩],
    rollups := [c6wR], rembeds := [] }

/-- C6, witness: a key with 5 reviews of which 2 are flagged ends the pass
with `review_count = 3` and sub-counts (1, 1, 1) over exactly the unflagged
rows. -/
theorem c6_witness :
    (rollupOf (runCompanyRollups c6wCfg c6wSt).1 c6wR.key).map
      (fun x => (x.review_count, x.count_offer, x.count_rejected,
        x.count_other)) = some (3, 1, 1, 1) := by
  obtain ⟨x, hx, h1, h2, h3, h4, _, _⟩ :=
    c6_stats_exact c6wCfg c6wSt c6wR (by decide) rfl (by decide) rfl rfl rfl
  rw [hx, Option.map_some', h1, h2, h3, h4]
  decide

theorem findIdx_map_eq {α β : Type} (f : α → β) (p : β → Bool) :
    ∀ l : List α, (l.map f).findIdx p = l.findIdx fun x => p (f x) := by
  intro l
  induction l with
  | nil => rfl
  | cons x t ih =>
    simp only [List.map_cons, List.findIdx_cons]
    rw [ih]

theorem map_drop_eq {α β : Type} (f : α → β) :
    ∀ (n : Nat) (l : List α), (l.drop n).map f = (l.map f).drop n := by
  intro n
  induction n with
  | zero => intro l; rfl
  | succ m ih =>
    intro l
    cases l with
    | nil => rfl
    | cons x t => exact ih t

theorem dropWhile_ne_drop_findIdx :
    ∀ (l : List Nat) (c : Nat), c ∈ l →
    (l.dropWhile fun i => decide (i ≠ c)).drop 1 =
      l.drop ((l.findIdx fun i => decide (i = c)) + 1) := by
  intro l
  induction l with
  | nil => intro c hc; cases hc
  | cons a t ih =>
    intro c hc
    by_cases ha : a = c
    · subst ha
      simp [List.dropWhile_cons, List.findIdx_cons]
    · have hct : c ∈ t := by
        rcases List.mem_cons.mp hc with h | h
        · exact absurd h.symm ha
        · exact h
      have h1 : (decide (a ≠ c)) = true := by simp [ha]
      have h2 : (decide (a = c)) = false := by simp [ha]
      rw [List.dropWhile_cons, List.findIdx_cons, h1, h2]
      show (t.dropWhile fun i => decide (i ≠ c)).drop 1 =
        t.drop ((t.findIdx fun i => decide (i = c)) + 1)
      exact ih c hct

/-- C5 refinement core: the code's `newIds` equals the spec-worded
new-review set. -/
theorem newIdsOf_eq_spec (rows : List CompanyReview) (cursor : Option Nat) :
    newIdsOf rows cursor = specNewReviewIds rows cursor := by
  unfold newIdsOf specNewReviewIds
  cases cursor with
  | none =>
    dsimp only
    by_cases h : (rows.map (·.id)).length ≤ MAX_NEW_REVIEWS_FOR_SUMMARY
    · rw [if_neg (by omega), if_pos h]
    · rw [if_pos (by omega), if_neg h]
  | some c =>
    dsimp only
    have hmem : (rows.any fun x => decide (x.id = c)) = true ↔
        c ∈ rows.map (·.id) := by
      simp [List.any_eq_true, List.mem_map]
    by_cases hc : (rows.any fun x => decide (x.id = c)) = true
    · rw [if_pos hc, if_pos (hmem.mp hc)]
      have hlist : (rows.drop ((rows.findIdx fun x => decide (x.id = c)) + 1)).map
          (·.id) = ((rows.map (·.id)).dropWhile fun i => decide (i ≠ c)).drop 1 := by
        rw [dropWhile_ne_drop_findIdx _ c (hmem.mp hc), map_drop_eq]
        rw [findIdx_map_eq]
      rw [hlist]
      by_cases h : (((rows.map (·.id)).dropWhile fun i => decide (i ≠ c)).drop
          1).length ≤ MAX_NEW_REVIEWS_FOR_SUMMARY
      · rw [if_neg (by omega), if_pos h]
      · rw [if_pos (by omega), if_neg h]
    · rw [if_neg hc, if_neg fun hm => hc (hmem.mpr hm)]
      by_cases h : (rows.map (·.id)).length ≤ MAX_NEW_REVIEWS_FOR_SUMMARY
      · rw [if_neg (by omega), if_pos h]
      · rw [if_pos (by omega), if_neg h]

theorem keyPlanTry_summary (cfg : RollupCfg) (reviews : List CompanyReview)
    (current : Option RollupEmb) (r : CompanyRollup)
    (hfetch : cfg.faults.fetchReviews r.key = none)
    (hstats : cfg.faults.statsUpd r.key = none)
    (hbodies : cfg.faults.fetchBodies r.key = none)
    (hrows : nonFlaggedRowsOf reviews r.key ≠ []) :
    (∀ out,
      newBodiesOf reviews (newIdsOf (nonFlaggedRowsOf reviews r.key)
        r.last_processed_review_id) ≠ [] →
      cfg.summarizeFn (trimS r.summary_1000)
        (newBodiesOf reviews (newIdsOf (nonFlaggedRowsOf reviews r.key)
          r.last_processed_review_id)) = .ok out →
      cfg.faults.sumUpd r.key = none →
      (∀ x, ((keyPlanTry cfg reviews current r).upd x).summary_1000 =
          trimS out ∧
        ((keyPlanTry cfg reviews current r).upd x).last_processed_review_id =
          some (latestIdOf (nonFlaggedRowsOf reviews r.key))) ∧
      (keyPlanTry cfg reviews current r).summarize_calls =
        [(trimS r.summary_1000, newBodiesOf reviews
          (newIdsOf (nonFlaggedRowsOf reviews r.key)
            r.last_processed_review_id))]) ∧
    (newBodiesOf reviews (newIdsOf (nonFlaggedRowsOf reviews r.key)
        r.last_processed_review_id) = [] →
      cfg.faults.clearUpd r.key = none →
      (∀ x, ((keyPlanTry cfg reviews current r).upd x).summary_1000 =
          x.summary_1000 ∧
        ((keyPlanTry cfg reviews current r).upd x).last_processed_review_id =
          some (latestIdOf (nonFlaggedRowsOf reviews r.key))) ∧
      (keyPlanTry cfg reviews current r).summarize_calls = []) := by
  unfold keyPlanTry
  dsimp only
  rw [hfetch]
  dsimp only
  rw [if_neg hrows, hstats]
  dsimp only
  rw [hbodies]
  dsimp only
  constructor
  · intro out hnb hout hsum
    have hne : (newBodiesOf reviews (newIdsOf (nonFlaggedRowsOf reviews r.key)
        r.last_processed_review_id)).isEmpty = false := by
      cases hnl : newBodiesOf reviews (newIdsOf (nonFlaggedRowsOf reviews r.key)
          r.last_processed_review_id) with
      | nil => exact absurd hnl hnb
      | cons a t => rfl
    rw [if_neg (by rw [hne]; exact Bool.false_ne_true)]
    rw [hout]
    dsimp only
    rw [hsum]
    dsimp only
    cases her : embedRefresh cfg r.key current (trimS out) <;>
      exact ⟨fun x => ⟨rfl, rfl⟩, rfl⟩
  · intro hnb hclear
    have hemp : (newBodiesOf reviews (newIdsOf (nonFlaggedRowsOf reviews r.key)
        r.last_processed_review_id)).isEmpty = true := by
      rw [hnb]; rfl
    rw [if_pos hemp, hclear]
    dsimp only
    cases her : embedRefresh cfg r.key current (trimS r.summary_1000) <;>
      exact ⟨fun x => ⟨rfl, rfl⟩, rfl⟩

/-- C5, amended: for a selected dirty key with at least one non-flagged
review (stats phase fault-free): the code's new-review set equals the
spec's — reviews strictly after the cursor in creation order (all when the
cursor is null or absent), capped to the most recent 30.  But the
summarize-or-not decision is keyed on the normalized NON-BLANK bodies of
that set, not the set itself: when those bodies are non-empty, the
summarization capability is called once with (previous summary, new bodies)
and `summary_1000` becomes its trimmed output with the cursor advanced to
the last fetched review; when every new review's body is blank (or the set
is empty), no summarize call happens and the summary is left unchanged with
the cursor still advanced. -/
theorem c5_amended_incremental_summary (cfg : RollupCfg) (st : RollupState)
    (r : CompanyRollup) (hnd : (st.rollups.map (·.key)).Nodup)
    (hfd : cfg.faults.fetchDirty = none) (hr : r ∈ selectRollups cfg st)
    (hfetch : cfg.faults.fetchReviews r.key = none)
    (hstats : cfg.faults.statsUpd r.key = none)
    (hbodies : cfg.faults.fetchBodies r.key = none)
    (hrows : nonFlaggedRowsOf st.reviews r.key ≠ []) :
    newIdsOf (nonFlaggedRowsOf st.reviews r.key) r.last_processed_review_id =
      specNewReviewIds (nonFlaggedRowsOf st.reviews r.key)
        r.last_processed_review_id ∧
    (∀ out,
      newBodiesOf st.reviews (newIdsOf (nonFlaggedRowsOf st.reviews r.key)
        r.last_processed_review_id) ≠ [] →
      cfg.summarizeFn (trimS r.summary_1000)
        (newBodiesOf st.reviews (newIdsOf (nonFlaggedRowsOf st.reviews r.key)
          r.last_processed_review_id)) = .ok out →
      cfg.faults.sumUpd r.key = none →
      ∃ x, rollupOf (runCompanyRollups cfg st).1 r.key = some x ∧
        x.summary_1000 = trimS out ∧
        x.last_processed_review_id =
          some (latestIdOf (nonFlaggedRowsOf st.reviews r.key)) ∧
        (resultFor (runCompanyRollups cfg st).2.results r.key).map
          (·.summarize_calls) =
          some [(trimS r.summary_1000, newBodiesOf st.reviews
            (newIdsOf (nonFlaggedRowsOf st.reviews r.key)
              r.last_processed_review_id))]) ∧
    (newBodiesOf st.reviews (newIdsOf (nonFlaggedRowsOf st.reviews r.key)
        r.last_processed_review_id) = [] →
      cfg.faults.clearUpd r.key = none →
      ∃ x, rollupOf (runCompanyRollups cfg st).1 r.key = some x ∧
        x.summary_1000 = r.summary_1000 ∧
        x.last_processed_review_id =
          some (latestIdOf (nonFlaggedRowsOf st.reviews r.key)) ∧
        (resultFor (runCompanyRollups cfg st).2.results r.key).map
          (·.summarize_calls) = some []) := by
  obtain ⟨hres, hrollup, hremb⟩ := runCompanyRollups_per_key cfg st hnd hfd r hr
  have hself : rollupOf st r.key = some r :=
    rollupOf_self st hnd r (mem_selectRollups_sound cfg st r hr).1
  have hfinal : rollupOf (runCompanyRollups cfg st).1 r.key =
      some (planUpd cfg r.key (keyPlanTry cfg st.reviews (rembOf st r.key) r) r) := by
    rw [hrollup, processKey_rollupOf_self, hself, Option.map_some']
  have hresFor : resultFor (runCompanyRollups cfg st).2.results r.key =
      some (processKey cfg st r).2 := by
    rw [hres]
    exact resultFor_map_self cfg st (selectRollups cfg st)
      (selectRollups_keys_nodup cfg st hnd) r hr
  have hcalls : (processKey cfg st r).2.summarize_calls =
      (keyPlanTry cfg st.reviews (rembOf st r.key) r).summarize_calls := by
    rw [processKey_snd]
    exact mkKeyResult_summarize_calls cfg r.key _
  obtain ⟨_, _, _, _, hfS, hfC⟩ :=
    planUpd_fields cfg r.key (keyPlanTry cfg st.reviews (rembOf st r.key) r) r
  obtain ⟨hsum, hclear⟩ :=
    keyPlanTry_summary cfg st.reviews (rembOf st r.key) r hfetch hstats hbodies hrows
  refine ⟨newIdsOf_eq_spec _ _, ?_, ?_⟩
  · intro out hnb hout hs
    obtain ⟨hcols, hcalls'⟩ := hsum out hnb hout hs
    refine ⟨_, hfinal, ?_, ?_, ?_⟩
    · rw [hfS, (hcols r).1]
    · rw [hfC, (hcols r).2]
    · rw [hresFor, Option.map_some', hcalls, hcalls']
  · intro hnb hc
    obtain ⟨hcols, hcalls'⟩ := hclear hnb hc
    refine ⟨_, hfinal, ?_, ?_, ?_⟩
    · rw [hfS, (hcols r).1]
    · rw [hfC, (hcols r).2]
    · rw [hresFor, Option.map_some', hcalls, hcalls']

def c5wR : CompanyRollup := ⟨(1, 1, 1), 0, 0, 0, 0, "old", some 1, true, 0⟩

def c5wCfg : RollupCfg :=
  { now := 100, runner := "r", summaryModel := "sm", rollupEmbeddingModel := "em",
    hashFn := id, summarizeFn := fun _ _ => .ok "NEW SUM",
    embedFn := fun _ => .ok [1], faults := noRollupFaults }

def c5wSt : RollupState :=
  { reviews := [⟨1, (1, 1, 1), 1, .offer, "a", false⟩,
                ⟨2, (1, 1, 1), 2, .rejected, "b", false⟩],
    rollups := [c5wR], rembeds := [] }

/-- C5, witness: cursor at review 1 of two; the new-review set is exactly
`[2]` (matching the spec-side definition), its body is non-blank, the
summarizer is called once with the previous summary and that body, the
summary becomes the trimmed output and the cursor advances to review 2. -/
theorem c5_witness :
    newIdsOf (nonFlaggedRowsOf c5wSt.reviews c5wR.key)
        c5wR.last_processed_review_id =
      specNewReviewIds (nonFlaggedRowsOf c5wSt.reviews c5wR.key)
        c5wR.last_processed_review_id ∧
    ∃ x, rollupOf (runCompanyRollups c5wCfg c5wSt).1 c5wR.key = some x ∧
      x.summary_1000 = trimS "NEW SUM" ∧
      x.last_processed_review_id =
        some (latestIdOf (nonFlaggedRowsOf c5wSt.reviews c5wR.key)) ∧
      (resultFor (runCompanyRollups c5wCfg c5wSt).2.results c5wR.key).map
        (·.summarize_calls) =
        some [(trimS c5wR.summary_1000, newBodiesOf c5wSt.reviews
          (newIdsOf (nonFlaggedRowsOf c5wSt.reviews c5wR.key)
            c5wR.last_processed_review_id))] := by
  have h := c5_amended_incremental_summary c5wCfg c5wSt c5wR (by decide) rfl
    (by decide) rfl rfl rfl (by decide)
  exact ⟨h.1, h.2.1 "NEW SUM" (by decide) rfl rfl⟩

def c5Cfg : RollupCfg :=
  { now := 100, runner := "r", summaryModel := "sm", rollupEmbeddingModel := "em",
    hashFn := id, summarizeFn := fun _ _ => .ok "NEW",
    embedFn := fun _ => .ok [1], faults := noRollupFaults }

def c5St : RollupState :=
  { reviews := [⟨10, (1, 1, 1), 1, .offer, "   ", false⟩],
    rollups := [⟨(1, 1, 1), 0, 0, 0, 0, "old stuff", none, true, 0⟩],
    rembeds := [] }

/-- C5, counterexample: a dirty key with one non-flagged review whose body is
whitespace-only.  The new-review set (cursor null, so all rows: `[10]`) is
non-empty, so per the claim the summarization capability must be called and
`summary_1000` replaced by its output ("NEW").  Instead the run makes no
summarize call, leaves the summary unchanged, and still advances the cursor
and marks the key clean: the summarize gate tests the normalized non-blank
bodies, not the new-review set. -/
theorem c5_blank_new_bodies_skip_summary :
    newIdsOf (nonFlaggedRowsOf c5St.reviews (1, 1, 1)) none ≠ [] ∧
    (resultFor (runCompanyRollups c5Cfg c5St).2.results (1, 1, 1)).map
      (·.summarize_calls) = some [] ∧
    (rollupOf (runCompanyRollups c5Cfg c5St).1 (1, 1, 1)).map (·.summary_1000) =
      some "old stuff" ∧
    (rollupOf (runCompanyRollups c5Cfg c5St).1 (1, 1, 1)).map
      (·.last_processed_review_id) = some (some 10) ∧
    (rollupOf (runCompanyRollups c5Cfg c5St).1 (1, 1, 1)).map (·.is_dirty) =
      some false := by decide

theorem embedRefresh_spec (cfg : RollupCfg) (k : CrKey)
    (current : Option RollupEmb) (fs : String)
    (res : Option (Option (List Int) × String) × Bool × List String)
    (h : embedRefresh cfg k current fs = .inl res) :
    (∀ payload, res.1 = some payload →
      payload.2 = cfg.hashFn (normalizeSummaryForEmbedding fs)) ∧
    (res.1 = none →
      res.2.2 = [] ∧ ∃ cur, current = some cur ∧
        cur.content_hash = cfg.hashFn (normalizeSummaryForEmbedding fs)) ∧
    res.2.1 = res.1.isSome ∧
    (∀ payload, res.1 = some payload → ∀ cur, current = some cur →
      cur.content_hash ≠ cfg.hashFn (normalizeSummaryForEmbedding fs)) := by
  unfold embedRefresh at h
  dsimp only at h
  cases hsel : cfg.faults.embSel k with
  | some e => rw [hsel] at h; cases h
  | none =>
    rw [hsel] at h
    dsimp only at h
    cases current with
    | none =>
      dsimp only at h
      rw [if_pos rfl] at h
      by_cases hempty : normalizeSummaryForEmbedding fs = ""
      · rw [if_pos hempty] at h
        cases hup : cfg.faults.embUp k with
        | some e => rw [hup] at h; cases h
        | none =>
          rw [hup] at h
          cases h
          refine ⟨?_, ?_, rfl, ?_⟩
          · intro payload hp; cases hp; rfl
          · intro hnone; simp at hnone
          · intro payload _ cur hcur; simp at hcur
      · rw [if_neg hempty] at h
        cases hemb : cfg.embedFn (normalizeSummaryForEmbedding fs) with
        | error e => rw [hemb] at h; cases h
        | ok vec =>
          rw [hemb] at h
          dsimp only at h
          cases hup : cfg.faults.embUp k with
          | some e => rw [hup] at h; cases h
          | none =>
            rw [hup] at h
            cases h
            refine ⟨?_, ?_, rfl, ?_⟩
            · intro payload hp; cases hp; rfl
            · intro hnone; simp at hnone
            · intro payload _ cur hcur; simp at hcur
    | some cur =>
      dsimp only at h
      by_cases heq : cur.content_hash = cfg.hashFn (normalizeSummaryForEmbedding fs)
      · rw [if_neg (by simp [heq])] at h
        cases h
        refine ⟨?_, ?_, rfl, ?_⟩
        · intro payload hp; simp at hp
        · intro _; exact ⟨rfl, cur, rfl, heq⟩
        · intro payload hp; simp at hp
      · rw [if_pos (by simp [heq])] at h
        by_cases hempty : normalizeSummaryForEmbedding fs = ""
        · rw [if_pos hempty] at h
          cases hup : cfg.faults.embUp k with
          | some e => rw [hup] at h; cases h
          | none =>
            rw [hup] at h
            cases h
            refine ⟨?_, ?_, rfl, ?_⟩
            · intro payload hp; cases hp; rfl
            · intro hnone; simp at hnone
            · intro payload _ cur' hcur'
              cases hcur'
              exact heq
        · rw [if_neg hempty] at h
          cases hemb : cfg.embedFn (normalizeSummaryForEmbedding fs) with
          | error e => rw [hemb] at h; cases h
          | ok vec =>
            rw [hemb] at h
            dsimp only at h
            cases hup : cfg.faults.embUp k with
            | some e => rw [hup] at h; cases h
            | none =>
              rw [hup] at h
              cases h
              refine ⟨?_, ?_, rfl, ?_⟩
              · intro payload hp; cases hp; rfl
              · intro hnone; simp at hnone
              · intro payload _ cur' hcur'
                cases hcur'
                exact heq

theorem keyPlanTry_reset_remb (cfg : RollupCfg) (reviews : List CompanyReview)
    (current : Option RollupEmb) (r : CompanyRollup) :
    (keyPlanTry cfg reviews current r).ok = true →
    nonFlaggedRowsOf reviews r.key = [] →
    (keyPlanTry cfg reviews current r).remb = none := by
  unfold keyPlanTry
  dsimp only
  repeat' split
  all_goals intro hok hnil
  all_goals first
  | (simp only [errPlan] at hok; simp at hok)
  | rfl
  | simp_all

theorem keyPlanTry_emb (cfg : RollupCfg) (reviews : List CompanyReview)
    (current : Option RollupEmb) (r : CompanyRollup) :
    (keyPlanTry cfg reviews current r).ok = true →
    nonFlaggedRowsOf reviews r.key ≠ [] →
    (∀ payload, (keyPlanTry cfg reviews current r).remb = some payload →
      payload.2 = cfg.hashFn (normalizeSummaryForEmbedding
        (((keyPlanTry cfg reviews current r).upd r).summary_1000))) ∧
    ((keyPlanTry cfg reviews current r).remb = none →
      (keyPlanTry cfg reviews current r).embed_calls = [] ∧
      ∃ cur, current = some cur ∧
        cur.content_hash = cfg.hashFn (normalizeSummaryForEmbedding
          (((keyPlanTry cfg reviews current r).upd r).summary_1000))) ∧
    (keyPlanTry cfg reviews current r).remb_updated =
      ((keyPlanTry cfg reviews current r).remb).isSome ∧
    (∀ payload, (keyPlanTry cfg reviews current r).remb = some payload →
      ∀ cur, current = some cur →
        cur.content_hash ≠ cfg.hashFn (normalizeSummaryForEmbedding
          (((keyPlanTry cfg reviews current r).upd r).summary_1000))) := by
  have hrw : normalizeSummaryForEmbedding (trimS r.summary_1000) =
      normalizeSummaryForEmbedding r.summary_1000 := trimCollapse_trimS r.summary_1000
  unfold keyPlanTry
  dsimp only
  cases hf : cfg.faults.fetchReviews r.key with
  | some e =>
    dsimp only
    intro hok _
    simp [errPlan] at hok
  | none =>
    dsimp only
    by_cases hnil : nonFlaggedRowsOf reviews r.key = []
    · rw [if_pos hnil]
      intro _ hrows
      exact absurd hnil hrows
    · rw [if_neg hnil]
      cases hstats : cfg.faults.statsUpd r.key with
      | some e =>
        dsimp only
        intro hok _
        simp [errPlan] at hok
      | none =>
        dsimp only
        cases hbodies : cfg.faults.fetchBodies r.key with
        | some e =>
          dsimp only
          intro hok _
          simp [errPlan] at hok
        | none =>
          dsimp only
          by_cases hemp : (newBodiesOf reviews
              (newIdsOf (nonFlaggedRowsOf reviews r.key)
                r.last_processed_review_id)).isEmpty = true
          · rw [if_pos hemp]
            cases hclear : cfg.faults.clearUpd r.key with
            | some e =>
              dsimp only
              intro hok _
              simp [errPlan] at hok
            | none =>
              dsimp only
              cases her : embedRefresh cfg r.key current (trimS r.summary_1000) with
              | inr ec =>
                dsimp only
                intro hok _
                simp [errPlan] at hok
              | inl res =>
                dsimp only
                intro _ _
                obtain ⟨hA, hB, hFlag, hNe⟩ :=
                  embedRefresh_spec cfg r.key current (trimS r.summary_1000) res her
                refine ⟨?_, ?_, hFlag, ?_⟩
                · intro payload hp
                  rw [hA payload hp, hrw]
                  rfl
                · intro hnone
                  obtain ⟨hcalls, cur, hcur, hhash⟩ := hB hnone
                  refine ⟨hcalls, cur, hcur, ?_⟩
                  rw [hhash, hrw]
                  rfl
                · intro payload hp cur hcur
                  have := hNe payload hp cur hcur
                  rw [hrw] at this
                  exact this
          · rw [if_neg hemp]
            cases hsumFn : cfg.summarizeFn (trimS r.summary_1000)
                (newBodiesOf reviews (newIdsOf (nonFlaggedRowsOf reviews r.key)
                  r.last_processed_review_id)) with
            | error e =>
              dsimp only
              intro hok _
              simp [errPlan] at hok
            | ok outText =>
              dsimp only
              cases hsum : cfg.faults.sumUpd r.key with
              | some e =>
                dsimp only
                intro hok _
                simp [errPlan] at hok
              | none =>
                dsimp only
                cases her : embedRefresh cfg r.key current (trimS outText) with
                | inr ec =>
                  dsimp only
                  intro hok _
                  simp [errPlan] at hok
                | inl res =>
                  dsimp only
                  intro _ _
                  obtain ⟨hA, hB, hFlag, hNe⟩ :=
                    embedRefresh_spec cfg r.key current (trimS outText) res her
                  refine ⟨?_, ?_, hFlag, ?_⟩
                  · intro payload hp
                    exact hA payload hp
                  · intro hnone
                    exact hB hnone
                  · intro payload hp cur hcur
                    exact hNe payload hp cur hcur

/-- C7, amended: for a selected dirty key whose pass ends clean
(`ok = true`): when at least one non-flagged review remains, the stored
RollupEmbedding's content_hash ends equal to the hash of the
whitespace-normalized final `summary_1000`, the embedding is left untouched
(no provider call) when the stored hash already equals that value, and it is
rewritten only when the stored hash differed.  When zero non-flagged reviews
remain, the reset path skips the refresh entirely and the embedding row is
left unchanged — stale hash included. -/
theorem c7_amended_embedding_hash_sync (cfg : RollupCfg) (st : RollupState)
    (r : CompanyRollup) (hnd : (st.rollups.map (·.key)).Nodup)
    (hfd : cfg.faults.fetchDirty = none) (hr : r ∈ selectRollups cfg st)
    (hok : (processKey cfg st r).2.ok = true) :
    (nonFlaggedRowsOf st.reviews r.key = [] →
      rembOf (runCompanyRollups cfg st).1 r.key = rembOf st r.key) ∧
    (nonFlaggedRowsOf st.reviews r.key ≠ [] →
      ∃ x, rollupOf (runCompanyRollups cfg st).1 r.key = some x ∧
        (rembOf (runCompanyRollups cfg st).1 r.key).map (·.content_hash) =
          some (cfg.hashFn (normalizeSummaryForEmbedding x.summary_1000)) ∧
        (∀ cur, rembOf st r.key = some cur →
          cur.content_hash =
            cfg.hashFn (normalizeSummaryForEmbedding x.summary_1000) →
          rembOf (runCompanyRollups cfg st).1 r.key = some cur ∧
          (processKey cfg st r).2.embed_calls = []) ∧
        ((processKey cfg st r).2.rollup_embedding_updated = true →
          ∀ cur, rembOf st r.key = some cur →
            cur.content_hash ≠
              cfg.hashFn (normalizeSummaryForEmbedding x.summary_1000))) := by
  obtain ⟨hres, hrollup, hremb⟩ := runCompanyRollups_per_key cfg st hnd hfd r hr
  have hself : rollupOf st r.key = some r :=
    rollupOf_self st hnd r (mem_selectRollups_sound cfg st r hr).1
  have hokp : (keyPlanTry cfg st.reviews (rembOf st r.key) r).ok = true := by
    rw [processKey_snd, mkKeyResult_ok] at hok
    exact hok
  have hplanUpd : planUpd cfg r.key (keyPlanTry cfg st.reviews (rembOf st r.key) r) =
      (keyPlanTry cfg st.reviews (rembOf st r.key) r).upd := by
    unfold planUpd
    rw [if_pos hokp]
  have hprw : planRembWrite cfg r.key (keyPlanTry cfg st.reviews (rembOf st r.key) r) =
      ((keyPlanTry cfg st.reviews (rembOf st r.key) r).remb).map
        fun payload => ⟨r.key, payload.1, cfg.rollupEmbeddingModel, payload.2⟩ := by
    unfold planRembWrite
    rw [if_pos hokp]
  have hfinalRoll : rollupOf (runCompanyRollups cfg st).1 r.key =
      some ((keyPlanTry cfg st.reviews (rembOf st r.key) r).upd r) := by
    rw [hrollup, processKey_rollupOf_self, hself, Option.map_some', hplanUpd]
  have hcallsEq : (processKey cfg st r).2.embed_calls =
      (keyPlanTry cfg st.reviews (rembOf st r.key) r).embed_calls := by
    rw [processKey_snd]
    exact mkKeyResult_embed_calls cfg r.key _
  have hupdEq : (processKey cfg st r).2.rollup_embedding_updated =
      (keyPlanTry cfg st.reviews (rembOf st r.key) r).remb_updated := by
    rw [processKey_snd]
    exact mkKeyResult_remb_updated cfg r.key _
  constructor
  · intro hnil
    have hrb := keyPlanTry_reset_remb cfg st.reviews (rembOf st r.key) r hokp hnil
    rw [hremb, processKey_rembOf_self, hprw, hrb]
    rfl
  · intro hrows
    obtain ⟨hA, hB, hFlag, hNe⟩ :=
      keyPlanTry_emb cfg st.reviews (rembOf st r.key) r hokp hrows
    cases hrb : (keyPlanTry cfg st.reviews (rembOf st r.key) r).remb with
    | none =>
      obtain ⟨hcalls0, cur, hcur, hhash⟩ := hB hrb
      have hfr : rembOf (runCompanyRollups cfg st).1 r.key = rembOf st r.key := by
        rw [hremb, processKey_rembOf_self, hprw, hrb]
        rfl
      refine ⟨_, hfinalRoll, ?_, ?_, ?_⟩
      · conv_lhs => rw [hfr, hcur]
        rw [Option.map_some', hhash]
      · intro cur' hcur' _
        exact ⟨by rw [hfr, hcur'], by rw [hcallsEq, hcalls0]⟩
      · intro hupd
        rw [hupdEq, hFlag, hrb] at hupd
        simp at hupd
    | some payload =>
      have hfr : rembOf (runCompanyRollups cfg st).1 r.key =
          some ⟨r.key, payload.1, cfg.rollupEmbeddingModel, payload.2⟩ := by
        rw [hremb, processKey_rembOf_self, hprw, hrb]
        rfl
      refine ⟨_, hfinalRoll, ?_, ?_, ?_⟩
      · rw [hfr, Option.map_some', hA payload hrb]
      · intro cur hcur heq
        exact absurd heq (hNe payload hrb cur hcur)
      · intro _ cur hcur
        exact hNe payload hrb cur hcur

def c7wR : CompanyRollup := ⟨(1, 1, 1), 0, 0, 0, 0, "old", none, true, 0⟩

def c7wCfg : RollupCfg :=
  { now := 100, runner := "r", summaryModel := "sm", rollupEmbeddingModel := "em",
    hashFn := id, summarizeFn := fun _ _ => .ok " New Summary ",
    embedFn := fun _ => .ok [7], faults := noRollupFaults }

def c7wSt : RollupState :=
  { reviews := [⟨1, (1, 1, 1), 1, .offer, "hello world", false⟩],
    rollups := [c7wR], rembeds := [⟨(1, 1, 1), some [5], "em", "stale"⟩] }

/-- C7, witness: a clean pass over a key with one non-flagged review leaves
the RollupEmbedding's content_hash equal to the hash of the normalized final
summary (the stored "stale" hash differed, so the row was rewritten and the
provider called on the normalized summary). -/
theorem c7_witness :
    ∃ x, rollupOf (runCompanyRollups c7wCfg c7wSt).1 c7wR.key = some x ∧
      (rembOf (runCompanyRollups c7wCfg c7wSt).1 c7wR.key).map
        (·.content_hash) =
        some (c7wCfg.hashFn (normalizeSummaryForEmbedding x.summary_1000)) ∧
      ((processKey c7wCfg c7wSt c7wR).2.rollup_embedding_updated = true →
        ∀ cur, rembOf c7wSt c7wR.key = some cur →
          cur.content_hash ≠
            c7wCfg.hashFn (normalizeSummaryForEmbedding x.summary_1000)) := by
  have h := c7_amended_embedding_hash_sync c7wCfg c7wSt c7wR (by decide) rfl
    (by decide) (by decide)
  obtain ⟨x, hx, h1, _, h3⟩ := h.2 (by decide)
  exact ⟨x, hx, h1, h3⟩

def c7Cfg : RollupCfg :=
  { now := 100, runner := "r", summaryModel := "sm", rollupEmbeddingModel := "em",
    hashFn := id, summarizeFn := fun _ _ => .ok "S",
    embedFn := fun _ => .ok [2], faults := noRollupFaults }

def c7St : RollupState :=
  { reviews := [⟨5, (1, 1, 1), 1, .othr, "bad", true⟩],
    rollups := [⟨(1, 1, 1), 1, 0, 0, 1, "old", some 5, true, 0⟩],
    rembeds := [⟨(1, 1, 1), some [9], "em", "old"⟩] }

/-- C7, counterexample: a dirty key whose only review is flagged takes the
empty-reset path, which `continue`s past the embedding refresh.  The pass
ends with `is_dirty = false` and `summary_1000 = ""`, yet the stored
RollupEmbedding still has content_hash "old" ≠ hash of the normalized
current summary ("" under the identity hash): the hash-mirror invariant the
claim asserts fails on the reset path. -/
theorem c7_reset_leaves_stale_embedding :
    (rollupOf (runCompanyRollups c7Cfg c7St).1 (1, 1, 1)).map (·.is_dirty) =
      some false ∧
    (rollupOf (runCompanyRollups c7Cfg c7St).1 (1, 1, 1)).map (·.summary_1000) =
      some "" ∧
    (rembOf (runCompanyRollups c7Cfg c7St).1 (1, 1, 1)).map (·.content_hash) =
      some "old" ∧
    c7Cfg.hashFn (normalizeSummaryForEmbedding "") = "" ∧
    ("old" : String) ≠ "" := by decide

end CompanyRollups

end CampusAI
